import Mathlib

/-!
Verification of hand-odds, a Monte Carlo estimator of five-card poker hand odds

Shallow embedding of `src/Assign3.c` and proofs of its specification.

Modelling conventions

* A C array is a `List`; the C globals are passed explicitly.
* `int` values (`rank`, `suit`, predicate results) are `Int`; `unsigned` values
  (table entries, accumulators) are `Nat`, reduced modulo `UINT_MOD` where the
  C code does arithmetic on them.
* Every access `*(table + offset)` whose offset is computed from data is bounds
  checked: outside the array the run stops with `Fault.outOfBounds`.
* `rand()` is a finite stream of raw values, consumed from the front; a run
  that needs more values than the stream holds stops with `Fault.randExhausted`.
* `hand` holds pointers into `deck`; `deck` is written by `initialize` only, so a
  hand slot is modelled by the card it points to.
* A division by zero, unsigned or in `float`, stops the run with
  `Fault.divisionByZero`; a conversion from `float` to `unsigned` of a value that
  does not fit stops it with `Fault.conversionOutOfRange`.
* The `while` loop of `simulatePokerOdds` is run with an iteration budget; a run
  that needs more iterations stops with `Fault.outOfFuel`.
* `printf` output is the list of rows of odds printed by `displayOdds`. Of
  `displayStatus` (elapsed time, a percentage computed in `float`) only whether
  its expression has a defined value is modelled, not what it prints.
-/

namespace HandOdds

/-! ## Defines -/

/-- Number of cards in a deck. -/
def DECKSIZE : Nat := 52
/-- Number of cards in a hand. -/
def HANDSIZE : Nat := 5
/-- Number of suits in the deck. -/
def SUITS : Nat := 4
/-- Number of ranks in the deck. -/
def RANKS : Nat := 13
/-- Number of values of the C type `unsigned` (32 bits). -/
def UINT_MOD : Nat := 4294967296

/-! ## Typedefs -/

/-- The C struct `card`. -/
structure Card where
  rank : Int
  suit : Int
deriving DecidableEq, Repr

/-- Ways a run of the program can stop without a result. -/
inductive Fault where
  | outOfBounds
  | randExhausted
  | divisionByZero
  | conversionOutOfRange
  | outOfFuel
deriving DecidableEq, Repr

/-- A computation that may stop with a `Fault`. -/
abbrev Run (α : Type) : Type := Except Fault α

instance instDecidableEqRun {α : Type} [DecidableEq α] : DecidableEq (Run α) := fun a b =>
  match a, b with
  | .ok x, .ok y => if h : x = y then isTrue (by rw [h]) else isFalse (fun e => h (by cases e; rfl))
  | .error x, .error y =>
    if h : x = y then isTrue (by rw [h]) else isFalse (fun e => h (by cases e; rfl))
  | .ok _, .error _ => isFalse (fun e => by cases e)
  | .error _, .ok _ => isFalse (fun e => by cases e)

/-! ## Machine integers and memory -/

/-- Conversion `int` to `unsigned`. -/
def intToUnsigned (i : Int) : Nat := (i % (UINT_MOD : Int)).toNat

/-- Conversion `unsigned` to `int` (two's complement). -/
def unsignedToInt (u : Nat) : Int :=
  if u < 2147483648 then (u : Int) else (u : Int) - (UINT_MOD : Int)

/-- Read `*(table + off)`. -/
def readAt (table : List Nat) (off : Int) : Run Nat :=
  if 0 ≤ off then
    match table.get? off.toNat with
    | some v => .ok v
    | none => .error .outOfBounds
  else .error .outOfBounds

/-- Write `*(table + off) = v`. -/
def writeAt (table : List Nat) (off : Int) (v : Nat) : Run (List Nat) :=
  if 0 ≤ off ∧ off.toNat < table.length then .ok (table.set off.toNat v)
  else .error .outOfBounds

/-- Increment `++( *(table + off) )` of an `unsigned` entry. -/
def incrAt (table : List Nat) (off : Int) : Run (List Nat) := do
  let v ← readAt table off
  writeAt table off ((v + 1) % UINT_MOD)

/-- Dereference of slot `i` of an array of cards (`deck + i`, `*(hand + i)`). -/
def cardAt (cards : List Card) (i : Nat) : Run Card :=
  match cards.get? i with
  | some c => .ok c
  | none => .error .outOfBounds

/-! ## Deck -/

/-- The C function `initialize`: every slot `crdctr` of the deck is overwritten with
rank `crdctr%13 + 1` and suit `crdctr%4 + 1`. -/
def initializeDeck : List Card :=
  (List.range DECKSIZE).map (fun (crdctr : Nat) =>
    { rank := (crdctr : Int) % 13 + 1, suit := (crdctr : Int) % 4 + 1 })

/-! ## Draw tracker -/

/-- Offset of a card in `drawnTable`: `( (c->rank-1) * 4 ) + ( c->suit-1 )`. -/
def drawnOffset (c : Card) : Int := (c.rank - 1) * 4 + (c.suit - 1)

/-- The C function `isDrawn`. -/
def isDrawn (drawnTable : List Nat) (c : Card) : Run Int := do
  let v ← readAt drawnTable (drawnOffset c)
  pure (unsignedToInt v)

/-- The C function `setDrawn`. -/
def setDrawn (drawnTable : List Nat) (c : Card) (drawn : Int) : Run (List Nat) :=
  writeAt drawnTable (drawnOffset c) (intToUnsigned drawn)

/-! ## Hand dealer -/

/-- The `do ... while ( isDrawn(*i) )` loop of `dealHand`: picks `deck + rand() % DECKSIZE`
until the card picked is not drawn. Returns the card and the rest of the random stream. -/
def drawCard (deck : List Card) (drawnTable : List Nat) : List Nat → Run (Card × List Nat)
  | [] => .error .randExhausted
  | r :: rest => do
    let c ← cardAt deck (r % DECKSIZE)
    let d ← isDrawn drawnTable c
    if d ≠ 0 then drawCard deck drawnTable rest else pure (c, rest)

/-- The `for` loop of `dealHand` over `slots` consecutive hand slots: draws a card, marks it
drawn, goes on with the next slot. Returns the slots filled, the table and the rest of the
random stream. -/
def dealLoop (deck : List Card) :
    Nat → List Nat → List Nat → Run (List Card × List Nat × List Nat)
  | 0, drawnTable, rands => pure ([], drawnTable, rands)
  | slots + 1, drawnTable, rands => do
    let (c, rands1) ← drawCard deck drawnTable rands
    let table1 ← setDrawn drawnTable c 1
    let (filled, table2, rands2) ← dealLoop deck slots table1 rands1
    pure (c :: filled, table2, rands2)

/-- The C function `dealHand`: all `HANDSIZE` slots of the hand are overwritten. -/
def dealHand (deck : List Card) (drawnTable : List Nat) (rands : List Nat) :
    Run (List Card × List Nat × List Nat) :=
  dealLoop deck HANDSIZE drawnTable rands

/-- The C function `returnHand`. -/
def returnHand (hand : List Card) (drawnTable : List Nat) : Run (List Nat) :=
  (List.range HANDSIZE).foldlM (fun (table : List Nat) (i : Nat) => do
    let c ← cardAt hand i
    setDrawn table c 0) drawnTable

/-! ## Frequency counter -/

/-- The count tables, the x-of-a-kind tables and the lowest/highest rank globals. -/
structure Counts where
  countTable_suit : List Nat
  countTable_rank : List Nat
  xOfAKindTable_suit : List Nat
  xOfAKindTable_rank : List Nat
  lowestRankInHand : Int
  highestRankInHand : Int
deriving DecidableEq, Repr

/-- The globals as the C initializers leave them. -/
def Counts.initial : Counts :=
  { countTable_suit := List.replicate SUITS 0
    countTable_rank := List.replicate RANKS 0
    xOfAKindTable_suit := List.replicate DECKSIZE 0
    xOfAKindTable_rank := List.replicate DECKSIZE 0
    lowestRankInHand := RANKS
    highestRankInHand := 0 }

/-- One loop of `resetCounts` over the `n` entries of a count table: for each entry `*i`,
`*(xOfAKindTable + *i) = 0` and then `*i = 0`. Returns the count table and the x-of-a-kind
table. -/
def resetTable (n : Nat) (countTable xOfAKindTable : List Nat) : Run (List Nat × List Nat) :=
  (List.range n).foldlM (fun (p : List Nat × List Nat) (i : Nat) => do
    let c ← readAt p.1 (i : Int)
    let x ← writeAt p.2 (c : Int) 0
    let t ← writeAt p.1 (i : Int) 0
    pure (t, x)) (countTable, xOfAKindTable)

/-- The C function `resetCounts`. -/
def resetCounts (s : Counts) : Run Counts := do
  let (cr, xr) ← resetTable RANKS s.countTable_rank s.xOfAKindTable_rank
  let (cs, xs) ← resetTable SUITS s.countTable_suit s.xOfAKindTable_suit
  pure { countTable_suit := cs, countTable_rank := cr,
         xOfAKindTable_suit := xs, xOfAKindTable_rank := xr,
         lowestRankInHand := 0, highestRankInHand := 0 }

/-- The first loop of `countHand`, over the hand slots: counts suit and rank of each card and
tracks the lowest and highest rank. The state is
`(countTable_suit, countTable_rank, lowestRank, highestRank)`. -/
def countCards (hand : List Card) (countTable_suit countTable_rank : List Nat) :
    Run (List Nat × List Nat × Int × Int) :=
  (List.range HANDSIZE).foldlM (fun (p : List Nat × List Nat × Int × Int) (i : Nat) => do
    let c ← cardAt hand i
    let cs ← incrAt p.1 (c.suit - 1)
    let cr ← incrAt p.2.1 (c.rank - 1)
    let lowestRank := if c.rank < p.2.2.1 then c.rank else p.2.2.1
    let highestRank := if c.rank > p.2.2.2 then c.rank else p.2.2.2
    pure (cs, cr, lowestRank, highestRank)) (countTable_suit, countTable_rank, (RANKS : Int), 0)

/-- The x-of-a-kind loops of `countHand` over the `n` entries of a count table:
`( *( j + *i) )++`. -/
def tallyXofAKind (n : Nat) (countTable xOfAKindTable : List Nat) : Run (List Nat) :=
  (List.range n).foldlM (fun (x : List Nat) (i : Nat) => do
    let c ← readAt countTable (i : Int)
    incrAt x (c : Int)) xOfAKindTable

/-- The C function `countHand`. -/
def countHand (s : Counts) (hand : List Card) : Run Counts := do
  let s0 ← resetCounts s
  let (cs, cr, lowestRank, highestRank) ←
    countCards hand s0.countTable_suit s0.countTable_rank
  let xr ← tallyXofAKind RANKS cr s0.xOfAKindTable_rank
  let xs ← tallyXofAKind SUITS cs s0.xOfAKindTable_suit
  pure { countTable_suit := cs, countTable_rank := cr,
         xOfAKindTable_suit := xs, xOfAKindTable_rank := xr,
         lowestRankInHand := lowestRank, highestRankInHand := highestRank }

/-! ## Hand classifier -/

/-- The C function `isXofAKind_rank`. -/
def isXofAKind_rank (s : Counts) (x : Int) : Run Nat := readAt s.xOfAKindTable_rank x

/-- The C function `isXofAKind_suit`. -/
def isXofAKind_suit (s : Counts) (x : Int) : Run Nat := readAt s.xOfAKindTable_suit x

/-- The C function `isOnePair`. -/
def isOnePair (s : Counts) : Run Int := do
  let v ← isXofAKind_rank s 2
  pure (if v = 1 then 1 else 0)

/-- The C function `isTwoPair`. -/
def isTwoPair (s : Counts) : Run Int := do
  let v ← isXofAKind_rank s 2
  pure (if v = 2 then 1 else 0)

/-- The C function `isThreeOfAKind`. -/
def isThreeOfAKind (s : Counts) : Run Int := do
  let v ← isXofAKind_rank s 3
  pure (if v = 1 then 1 else 0)

/-- The C function `isFourOfAKind`. -/
def isFourOfAKind (s : Counts) : Run Int := do
  let v ← isXofAKind_rank s 4
  pure (if v = 1 then 1 else 0)

/-- The C function `isStraight`. -/
def isStraight (s : Counts) : Run Int := do
  let v ← isXofAKind_rank s 1
  if v ≠ HANDSIZE then pure 0
  else pure (if s.highestRankInHand - s.lowestRankInHand + 1 = (HANDSIZE : Int) then 1 else 0)

/-- The C function `isFlush`. -/
def isFlush (s : Counts) : Run Int := do
  let v ← isXofAKind_suit s (HANDSIZE : Int)
  pure (if v > 0 then 1 else 0)

/-- The C function `isFullHouse`; `&&` evaluates its right operand only when the left one is
not zero. -/
def isFullHouse (s : Counts) : Run Int := do
  let three ← isXofAKind_rank s 3
  if three ≠ 0 then
    let two ← isXofAKind_rank s 2
    pure (if two ≠ 0 then 1 else 0)
  else pure 0

/-! ## Accumulators -/

/-- The seven hand occurrence counters. -/
structure Tally where
  onePair : Nat
  twoPair : Nat
  threeOfAKind : Nat
  fourOfAKind : Nat
  straight : Nat
  flush : Nat
  fullHouse : Nat
deriving DecidableEq, Repr

/-- The statement `counter += predicate()` on an `unsigned` counter. -/
def addTo (counter : Nat) (result : Int) : Nat := (counter + intToUnsigned result) % UINT_MOD

/-- The seven `+=` statements of `simulatePokerOdds` ("increment hand ocurrances"). -/
def classifyHand (t : Tally) (s : Counts) : Run Tally := do
  let onePair := addTo t.onePair (← isOnePair s)
  let twoPair := addTo t.twoPair (← isTwoPair s)
  let threeOfAKind := addTo t.threeOfAKind (← isThreeOfAKind s)
  let fourOfAKind := addTo t.fourOfAKind (← isFourOfAKind s)
  let straight := addTo t.straight (← isStraight s)
  let flush := addTo t.flush (← isFlush s)
  let fullHouse := addTo t.fullHouse (← isFullHouse s)
  pure { onePair := onePair, twoPair := twoPair, threeOfAKind := threeOfAKind,
         fourOfAKind := fourOfAKind, straight := straight, flush := flush,
         fullHouse := fullHouse }

/-! ## Odds display -/

/-- Frequency of realtime display updates in hands. -/
def DISPLAY_REALTIME_FREQ : Nat := 1000000

/-- The seven values that one call of `displayOdds` prints. -/
structure Odds where
  onePair : Nat
  twoPair : Nat
  threeOfAKind : Nat
  fourOfAKind : Nat
  straight : Nat
  flush : Nat
  fullHouse : Nat
deriving DecidableEq, Repr

/-- Division `a / b` on `unsigned` values. -/
def divUnsigned (a b : Nat) : Run Nat :=
  if b = 0 then .error .divisionByZero else .ok (a / b)

/-- One argument of the `printf` of `displayOdds`: `counter ? (handsDealt / counter) : 0`. -/
def oddsAgainst (handsDealt counter : Nat) : Run Nat :=
  if counter ≠ 0 then divUnsigned handsDealt counter else pure 0

/-- The C function `displayOdds`, reading the seven global counters. -/
def displayOdds (t : Tally) (handsDealt : Nat) : Run Odds := do
  let onePair ← oddsAgainst handsDealt t.onePair
  let twoPair ← oddsAgainst handsDealt t.twoPair
  let threeOfAKind ← oddsAgainst handsDealt t.threeOfAKind
  let fourOfAKind ← oddsAgainst handsDealt t.fourOfAKind
  let straight ← oddsAgainst handsDealt t.straight
  let flush ← oddsAgainst handsDealt t.flush
  let fullHouse ← oddsAgainst handsDealt t.fullHouse
  pure { onePair := onePair, twoPair := twoPair, threeOfAKind := threeOfAKind,
         fourOfAKind := fourOfAKind, straight := straight, flush := flush,
         fullHouse := fullHouse }

/-- The C function `displayStatus`, reduced to whether its argument expression
`(unsigned) ((float) handsDealt / (float) numHands * 100.f)` has a defined value; the two
time stamps it also takes, and the line it prints, are not modelled. The expression divides by
`(float) numHands`, with no test of `numHands`: for `numHands = 0` that is a division by zero,
and its result cannot be converted to `unsigned`. For `numHands > 0` the conversion is defined
when the percentage fits `unsigned`. Rounding in `float` is not modelled: the conversion is
taken as defined when the exact percentage, rounded down, is below 2^31, which no rounding of
the three `float` operations lifts to 2^32, and as out of range otherwise; a percentage that
large needs `handsDealt` above 21 million times `numHands`, and `simulatePokerOdds` passes a
`handsDealt` of at most `numHands + 1`. -/
def displayStatus (handsDealt numHands : Nat) : Run Unit :=
  if numHands = 0 then .error .divisionByZero
  else if handsDealt * 100 / numHands < 2147483648 then pure ()
  else .error .conversionOutOfRange

/-! ## Simulation loop -/

/-- The state of a run of `simulatePokerOdds`: its local `totalHandsDealt`, the globals it
works on, the rest of the `rand()` stream, and the rows printed by `displayOdds` so far,
oldest first. The global `hand` is left out: `dealHand` overwrites all of it before it is
read. -/
structure Sim where
  totalHandsDealt : Nat
  tally : Tally
  counts : Counts
  drawnTable : List Nat
  rands : List Nat
  shown : List Odds
deriving DecidableEq, Repr

/-- The globals as the C initializers leave them at process start, with a stream of `rand()`
values and nothing printed. -/
def Sim.processStart (rands : List Nat) : Sim :=
  { totalHandsDealt := 0
    tally := { onePair := 0, twoPair := 0, threeOfAKind := 0, fourOfAKind := 0,
               straight := 0, flush := 0, fullHouse := 0 }
    counts := Counts.initial
    drawnTable := List.replicate DECKSIZE 0
    rands := rands
    shown := [] }

/-- The body of the `while` loop of `simulatePokerOdds`: deal, count, increment the hand
occurrences, return the hand, and print the odds when `totalHandsDealt` is a multiple of
`DISPLAY_REALTIME_FREQ`. The call of `displayStatus` that follows that `displayOdds` changes
no variable and is not part of the body modelled here: the body runs with `totalHandsDealt`
between 1 and `draws`, where the percentage of `displayStatus` is at most 100 and its
conversion defined (`displayStatus_in_loop`). -/
def simBody (deck : List Card) (s : Sim) : Run Sim := do
  let (hand, table1, rands1) ← dealHand deck s.drawnTable s.rands
  let counts1 ← countHand s.counts hand
  let tally1 ← classifyHand s.tally counts1
  let table2 ← returnHand hand table1
  let shown1 ←
    if s.totalHandsDealt % DISPLAY_REALTIME_FREQ = 0 then do
      let row ← displayOdds tally1 s.totalHandsDealt
      pure (s.shown ++ [row])
    else pure s.shown
  pure { totalHandsDealt := s.totalHandsDealt, tally := tally1, counts := counts1,
         drawnTable := table2, rands := rands1, shown := shown1 }

/-- The test `++totalHandsDealt < draws+1` of the `while` loop, in `unsigned` arithmetic:
whether the loop goes on, and the state with the counter incremented. -/
def loopTest (draws : Nat) (s : Sim) : Bool × Sim :=
  (decide ((s.totalHandsDealt + 1) % UINT_MOD < (draws + 1) % UINT_MOD),
    { s with totalHandsDealt := (s.totalHandsDealt + 1) % UINT_MOD })

/-- The `while` loop of `simulatePokerOdds`, with a budget of `fuel` evaluations of its
test. -/
def simLoop (deck : List Card) (draws : Nat) : Nat → Sim → Run Sim
  | 0, _ => .error .outOfFuel
  | fuel + 1, s =>
    if (loopTest draws s).1 then do
      let s1 ← simBody deck (loopTest draws s).2
      simLoop deck draws fuel s1
    else pure (loopTest draws s).2

/-- The C function `simulatePokerOdds`, run from the globals `g` with a budget of `fuel`
evaluations of the loop test. The parameter `realtimeDisplay` is not used by the C code. After
the loop it prints the odds and then calls `displayStatus` with `totalHandsDealt` and
`draws`. -/
def simulatePokerOdds (draws : Nat) (_realtimeDisplay : Int) (fuel : Nat) (g : Sim) : Run Sim := do
  let deck := initializeDeck
  let s ← simLoop deck draws fuel { g with totalHandsDealt := 0 }
  let row ← displayOdds s.tally s.totalHandsDealt
  displayStatus s.totalHandsDealt draws
  pure { s with shown := s.shown ++ [row] }

/-! ## Vocabulary of the proofs

Pure counterparts of the loops, the invariants and the words of the specification. -/

/-- The pure effect of `incrAt` when nothing wraps. -/
def bump (t : List Nat) (i : Nat) : List Nat := t.set i (t.getD i 0 + 1)

/-- Pure effect of one reset step on the x-of-a-kind table. -/
def clearAt (x : List Nat) (c : Nat) : List Nat := x.set c 0

/-- Index of the rank of a card in `countTable_rank`. -/
def rankIdx (c : Card) : Nat := (c.rank - 1).toNat

/-- Index of the suit of a card in `countTable_suit`. -/
def suitIdx (c : Card) : Nat := (c.suit - 1).toNat

/-- A card of the data model: rank in [1,13], suit in [1,4]. -/
def ValidCard (c : Card) : Prop := 1 ≤ c.rank ∧ c.rank ≤ 13 ∧ 1 ≤ c.suit ∧ c.suit ≤ 4

instance instDecidableValidCard (c : Card) : Decidable (ValidCard c) := by
  unfold ValidCard; infer_instance

/-- A hand of the data model: `HANDSIZE` slots, each a valid card. -/
def ValidHand (hand : List Card) : Prop := hand.length = HANDSIZE ∧ ∀ c ∈ hand, ValidCard c

instance instDecidableValidHand (hand : List Card) : Decidable (ValidHand hand) := by
  unfold ValidHand; infer_instance

/-- Pure effect of one step of the first loop of `countHand`. -/
def countStep (p : List Nat × List Nat × Int × Int) (c : Card) : List Nat × List Nat × Int × Int :=
  (bump p.1 (suitIdx c), bump p.2.1 (rankIdx c),
    (if c.rank < p.2.2.1 then c.rank else p.2.2.1),
    (if c.rank > p.2.2.2 then c.rank else p.2.2.2))

/-- The tables right after `resetCounts` has cleared them. -/
def Counts.cleared : Counts :=
  { countTable_suit := List.replicate SUITS 0
    countTable_rank := List.replicate RANKS 0
    xOfAKindTable_suit := List.replicate DECKSIZE 0
    xOfAKindTable_rank := List.replicate DECKSIZE 0
    lowestRankInHand := 0
    highestRankInHand := 0 }

/-- The state `countHand` leaves for a hand, as a pure function of the hand. -/
def countsOf (hand : List Card) : Counts :=
  { countTable_suit := hand.foldl (fun t c => bump t (suitIdx c)) (List.replicate SUITS 0)
    countTable_rank := hand.foldl (fun t c => bump t (rankIdx c)) (List.replicate RANKS 0)
    xOfAKindTable_suit :=
      (hand.foldl (fun t c => bump t (suitIdx c)) (List.replicate SUITS 0)).foldl
        (fun t c => bump t c) (List.replicate DECKSIZE 0)
    xOfAKindTable_rank :=
      (hand.foldl (fun t c => bump t (rankIdx c)) (List.replicate RANKS 0)).foldl
        (fun t c => bump t c) (List.replicate DECKSIZE 0)
    lowestRankInHand := hand.foldl (fun lo c => if c.rank < lo then c.rank else lo) (RANKS : Int)
    highestRankInHand := hand.foldl (fun hi c => if c.rank > hi then c.rank else hi) 0 }

/-- Table invariant of the count globals: the tables have their declared sizes, the counts
are valid offsets into the x-of-a-kind tables, and an x-of-a-kind entry that is not zero sits
at an offset that is the count of some rank (suit). -/
structure CountsInv (s : Counts) : Prop where
  len_suit : s.countTable_suit.length = SUITS
  len_rank : s.countTable_rank.length = RANKS
  len_xsuit : s.xOfAKindTable_suit.length = DECKSIZE
  len_xrank : s.xOfAKindTable_rank.length = DECKSIZE
  suit_lt : ∀ c ∈ s.countTable_suit, c < DECKSIZE
  rank_lt : ∀ c ∈ s.countTable_rank, c < DECKSIZE
  xsuit_mem : ∀ k, s.xOfAKindTable_suit.getD k 0 ≠ 0 → k ∈ s.countTable_suit
  xrank_mem : ∀ k, s.xOfAKindTable_rank.getD k 0 ≠ 0 → k ∈ s.countTable_rank

/-! ## Specification vocabulary -/

/-- Number of cards of the hand that have rank `r`. -/
def rankCount (hand : List Card) (r : Int) : Nat := hand.countP (fun c => decide (c.rank = r))

/-- Number of cards of the hand that have suit `u`. -/
def suitCount (hand : List Card) (u : Int) : Nat := hand.countP (fun c => decide (c.suit = u))

/-- The ranks of the data model, 1 to 13. -/
def allRanks : List Int := (List.range RANKS).map (fun (i : Nat) => (i : Int) + 1)

/-- The suits of the data model, 1 to 4. -/
def allSuits : List Int := (List.range SUITS).map (fun (i : Nat) => (i : Int) + 1)

/-- Number of ranks that occur exactly `k` times in the hand. -/
def ranksWithCount (hand : List Card) (k : Nat) : Nat :=
  (allRanks.filter (fun r => decide (rankCount hand r = k))).length

/-- Number of suits that occur exactly `k` times in the hand. -/
def suitsWithCount (hand : List Card) (k : Nat) : Nat :=
  (allSuits.filter (fun u => decide (suitCount hand u = k))).length

/-- States of the count globals that a run can be in when `countHand` is called: the initial
one, and the one left by `countHand` on a hand of the data model. -/
inductive Reachable : Counts → Prop where
  | initial : Reachable Counts.initial
  | step (s s' : Counts) (hand : List Card) :
      Reachable s → ValidHand hand → countHand s hand = .ok s' → Reachable s'

/-- The consecutive ranks starting at `r`. -/
def run5 (r : Int) : List Int := [r, r + 1, r + 2, r + 3, r + 4]

/-- Offset of a card in `drawnTable`, as a natural number. -/
def offNat (c : Card) : Nat := (drawnOffset c).toNat

/-- The table marks exactly the cards of `cards`: entry 1 at their offsets, 0 elsewhere. -/
def Marks (t : List Nat) (cards : List Card) : Prop :=
  t.length = DECKSIZE ∧ ∀ j, t.getD j 0 = if j ∈ cards.map offNat then 1 else 0

/-- The card in deck slot `i`. -/
def slotCard (i : Nat) : Card := initializeDeck.getD i ⟨0, 0⟩

/-- Number of distinct deck slots that the stream picks and whose card is not in `dealt`. -/
def freshSlots (rands : List Nat) (dealt : List Card) : Nat :=
  ((rands.map (fun r => r % DECKSIZE)).toFinset.filter (fun i => slotCard i ∉ dealt)).card

/-! ## Example hands (suits: C = 1, H = 2, S = 3, D = 4) -/

/-- The hand 2C 2H 5S 9D KC. -/
def onePairHand : List Card := [⟨2, 1⟩, ⟨2, 2⟩, ⟨5, 3⟩, ⟨9, 4⟩, ⟨13, 1⟩]

/-- The hand 2C 2H 5S 5D KC. -/
def twoPairHand : List Card := [⟨2, 1⟩, ⟨2, 2⟩, ⟨5, 3⟩, ⟨5, 4⟩, ⟨13, 1⟩]

/-- The hand 3C 3H 3S 9D 9C. -/
def fullHouseHand : List Card := [⟨3, 1⟩, ⟨3, 2⟩, ⟨3, 3⟩, ⟨9, 4⟩, ⟨9, 1⟩]

/-- The hand 4C 5H 6S 7D 8C. -/
def straightHand : List Card := [⟨4, 1⟩, ⟨5, 2⟩, ⟨6, 3⟩, ⟨7, 4⟩, ⟨8, 1⟩]

/-- The hand AC 2H 3S 4D 5C, ace low. -/
def wheelHand : List Card := [⟨1, 1⟩, ⟨2, 2⟩, ⟨3, 3⟩, ⟨4, 4⟩, ⟨5, 1⟩]

/-- The hand 10C JH QS KD AC, with the ace as rank 1. -/
def aceHighHand : List Card := [⟨10, 1⟩, ⟨11, 2⟩, ⟨12, 3⟩, ⟨13, 4⟩, ⟨1, 1⟩]

/-- A stream of `rand()` values; 52, the second 1 and 53 pick cards that are already drawn. -/
def sampleRands : List Nat := [0, 52, 1, 1, 53, 2, 3, 4, 9]

/-- The hand `dealHand` draws on `sampleRands`: deck slots 0, 1, 2, 3, 4. -/
def sampleHand : List Card := [⟨1, 1⟩, ⟨2, 2⟩, ⟨3, 3⟩, ⟨4, 4⟩, ⟨5, 1⟩]

/-- The drawn-table after `dealHand` on `sampleRands`: offsets 0, 5, 10, 15, 16 marked. -/
def sampleTable : List Nat :=
  (List.range DECKSIZE).map (fun (j : Nat) => if j ∈ [0, 5, 10, 15, 16] then 1 else 0)

/-! ## Vocabulary of the simulation loop -/

/-- Every counter of `t'` is the counter of `t` plus 0 or plus 1, as natural numbers. -/
def Tally.AddsBit (t t' : Tally) : Prop :=
  (t'.onePair = t.onePair ∨ t'.onePair = t.onePair + 1) ∧
  (t'.twoPair = t.twoPair ∨ t'.twoPair = t.twoPair + 1) ∧
  (t'.threeOfAKind = t.threeOfAKind ∨ t'.threeOfAKind = t.threeOfAKind + 1) ∧
  (t'.fourOfAKind = t.fourOfAKind ∨ t'.fourOfAKind = t.fourOfAKind + 1) ∧
  (t'.straight = t.straight ∨ t'.straight = t.straight + 1) ∧
  (t'.flush = t.flush ∨ t'.flush = t.flush + 1) ∧
  (t'.fullHouse = t.fullHouse ∨ t'.fullHouse = t.fullHouse + 1)

/-- Every counter of `t` is at most `n`. -/
def Tally.AllLe (t : Tally) (n : Nat) : Prop :=
  t.onePair ≤ n ∧ t.twoPair ≤ n ∧ t.threeOfAKind ≤ n ∧ t.fourOfAKind ≤ n ∧
  t.straight ≤ n ∧ t.flush ≤ n ∧ t.fullHouse ≤ n

/-- The states in which the `while` loop of `simulatePokerOdds` evaluates its test:
`Visits deck draws s0 k s` says that, started in `s0`, the loop reaches its test in state `s`
after `k` executions of its body, that is after `k` hands dealt. -/
inductive Visits (deck : List Card) (draws : Nat) (s0 : Sim) : Nat → Sim → Prop where
  | start : Visits deck draws s0 0 s0
  | cycle (k : Nat) (s s1 : Sim) :
      Visits deck draws s0 k s → (loopTest draws s).1 = true →
      simBody deck (loopTest draws s).2 = .ok s1 → Visits deck draws s0 (k + 1) s1

/-- The hand 3C 3H 3S 7D KC. -/
def threeKindHand : List Card := [⟨3, 1⟩, ⟨3, 2⟩, ⟨3, 3⟩, ⟨7, 4⟩, ⟨13, 1⟩]

/-- The hand 7C 7H 7S 7D KC. -/
def fourKindHand : List Card := [⟨7, 1⟩, ⟨7, 2⟩, ⟨7, 3⟩, ⟨7, 4⟩, ⟨13, 1⟩]

/-- The hand 2C 5C 7C 9C KC. -/
def flushHand : List Card := [⟨2, 1⟩, ⟨5, 1⟩, ⟨7, 1⟩, ⟨9, 1⟩, ⟨13, 1⟩]

/-- A stream of `rand()` values that deals AC AH 2H 3S 4D, a pair of aces. -/
def pairRands : List Nat := [0, 13, 1, 2, 3]

/-- The hand dealt on `pairRands`: AC AH 2H 3S 4D. -/
def pairOfAcesHand : List Card := [⟨1, 1⟩, ⟨1, 2⟩, ⟨2, 2⟩, ⟨3, 3⟩, ⟨4, 4⟩]

/-- A stream of `rand()` values for two hands: AC AH 2H 3S 4D, then AC AH AS 6H 7S. -/
def twoHandRands : List Nat := [0, 13, 1, 2, 3, 0, 13, 26, 5, 6]

/-- The state in which the loop evaluates its test after it has dealt AC AH 2H 3S 4D as its
first hand, with `rest` left of the stream. -/
def afterPairOfAces (rest : List Nat) : Sim :=
  { totalHandsDealt := 1
    tally := { onePair := 1, twoPair := 0, threeOfAKind := 0, fourOfAKind := 0,
               straight := 0, flush := 0, fullHouse := 0 }
    counts := countsOf pairOfAcesHand
    drawnTable := List.replicate DECKSIZE 0
    rands := rest
    shown := [] }

/-- The second hand dealt on `twoHandRands`: AC AH AS 6H 7S. -/
def threeAcesHand : List Card := [⟨1, 1⟩, ⟨1, 2⟩, ⟨1, 3⟩, ⟨6, 2⟩, ⟨7, 3⟩]

/-- The state in which the loop evaluates its test after the two hands of `twoHandRands`. -/
def afterThreeAces : Sim :=
  { totalHandsDealt := 2
    tally := { onePair := 1, twoPair := 0, threeOfAKind := 1, fourOfAKind := 0,
               straight := 0, flush := 0, fullHouse := 0 }
    counts := countsOf threeAcesHand
    drawnTable := List.replicate DECKSIZE 0
    rands := []
    shown := [] }

/-- The row of odds printed when every counter is 0. -/
def zeroOdds : Odds :=
  { onePair := 0, twoPair := 0, threeOfAKind := 0, fourOfAKind := 0,
    straight := 0, flush := 0, fullHouse := 0 }

/-! # Proofs -/

/-! ## Memory access lemmas -/

theorem readAt_ofNat (t : List Nat) (i : Nat) (h : i < t.length) :
    readAt t (i : Int) = .ok (t.getD i 0) := by
  simp [readAt, List.get?_eq_getElem?, List.getD_eq_getElem?_getD, List.getElem?_eq_getElem h]

theorem writeAt_ofNat (t : List Nat) (i : Nat) (v : Nat) (h : i < t.length) :
    writeAt t (i : Int) v = .ok (t.set i v) := by
  simp [writeAt, h]

theorem incrAt_ofNat (t : List Nat) (i : Nat) (h : i < t.length)
    (hv : t.getD i 0 + 1 < UINT_MOD) : incrAt t (i : Int) = .ok (bump t i) := by
  simp only [incrAt, readAt_ofNat t i h, bump]
  show writeAt t (i : Int) ((t.getD i 0 + 1) % UINT_MOD) = _
  rw [Nat.mod_eq_of_lt hv, writeAt_ofNat t i _ h]

theorem getD_set (t : List Nat) (i j v : Nat) :
    (t.set i v).getD j 0 = if i = j ∧ i < t.length then v else t.getD j 0 := by
  simp only [List.getD_eq_getElem?_getD, List.getElem?_set]
  by_cases hij : i = j
  · subst hij
    by_cases hi : i < t.length
    · simp [hi]
    · simp [hi, List.getElem?_eq_none (Nat.le_of_not_lt hi)]
  · simp [hij]

theorem length_bump (t : List Nat) (i : Nat) : (bump t i).length = t.length := by
  simp [bump]

theorem getD_bump (t : List Nat) (i j : Nat) (h : i < t.length) :
    (bump t i).getD j 0 = t.getD j 0 + (if i = j then 1 else 0) := by
  unfold bump
  rw [getD_set]
  by_cases hij : i = j
  · subst hij; simp [h]
  · simp [hij]

theorem foldlM_range_eq {α β : Type} (l : List α) (rd : Nat → Run α) (f : β → α → Run β)
    (b : β) (hrd : ∀ i (h : i < l.length), rd i = .ok (l.get ⟨i, h⟩)) :
    (List.range l.length).foldlM (fun b i => do let a ← rd i; f b a) b = l.foldlM f b := by
  induction l generalizing rd b with
  | nil => simp
  | cons a l ih =>
    have h0 := hrd 0 (by simp)
    simp only [List.get_eq_getElem, List.getElem_cons_zero] at h0
    have hs : ∀ init : β, (List.map Nat.succ (List.range l.length)).foldlM
        (fun b i => do let a ← rd i; f b a) init = l.foldlM f init := by
      intro init
      rw [List.foldlM_map]
      exact ih (fun i => rd (i + 1)) init (fun i h => by
        have := hrd (i + 1) (by simpa using h)
        simpa using this)
    rw [List.length_cons, List.range_succ_eq_map, List.foldlM_cons, List.foldlM_cons, h0]
    simp only [hs]
    rfl

theorem length_foldl_clearAt (l x : List Nat) : (l.foldl clearAt x).length = x.length := by
  induction l generalizing x with
  | nil => rfl
  | cons a l ih => simp [List.foldl_cons, ih, clearAt]

theorem getD_foldl_clearAt (l x : List Nat) (k : Nat) :
    (l.foldl clearAt x).getD k 0 = if k ∈ l then 0 else x.getD k 0 := by
  induction l generalizing x with
  | nil => simp
  | cons a l ih =>
    rw [List.foldl_cons, ih, clearAt, getD_set]
    by_cases hk : k ∈ l
    · simp [hk]
    · by_cases ha : a = k
      · subst ha
        by_cases hx : a < x.length
        · simp [hx]
        · simp [hx, List.getD_eq_getElem?_getD, List.getElem?_eq_none (Nat.le_of_not_lt hx)]
      · have : ¬ k = a := fun e => ha e.symm
        simp [hk, ha, this]

theorem set_replicate_append_drop (count : List Nat) (m : Nat) (hm : m < count.length) :
    (List.replicate m 0 ++ count.drop m).set m 0
      = List.replicate (m + 1) 0 ++ count.drop (m + 1) := by
  apply List.ext_getElem?
  intro j
  rw [List.getElem?_set]
  simp only [List.getElem?_append, List.length_replicate, List.getElem?_replicate,
    List.getElem?_drop, List.length_append, List.length_drop]
  by_cases h1 : m = j
  · subst h1
    have : m < m + (count.length - m) := by omega
    simp [this]
  · by_cases h2 : j < m
    · have : j < m + 1 := by omega
      simp [h1, h2, this]
    · have h3 : ¬ j < m + 1 := by omega
      have h4 : m + 1 + (j - (m + 1)) = m + (j - m) := by omega
      simp [h1, h2, h3, h4]

theorem resetTable_upto (count x : List Nat) (hc : ∀ c ∈ count, c < x.length) (m : Nat)
    (hm : m ≤ count.length) :
    (List.range m).foldlM (fun (p : List Nat × List Nat) (i : Nat) => do
        let c ← readAt p.1 (i : Int)
        let x ← writeAt p.2 (c : Int) 0
        let t ← writeAt p.1 (i : Int) 0
        pure (t, x)) (count, x)
      = (.ok (List.replicate m 0 ++ count.drop m, (count.take m).foldl clearAt x) :
          Run (List Nat × List Nat)) := by
  induction m with
  | zero => simp; rfl
  | succ m ih =>
    have hm' : m < count.length := hm
    have hlen : m < (List.replicate m 0 ++ count.drop m).length := by
      simp; omega
    have hget : (List.replicate m 0 ++ count.drop m).getD m 0 = count.getD m 0 := by
      simp [List.getD_eq_getElem?_getD, List.getElem?_append]
    have hcm : count.getD m 0 < ((count.take m).foldl clearAt x).length := by
      rw [length_foldl_clearAt]
      apply hc
      rw [List.getD_eq_getElem?_getD, List.getElem?_eq_getElem hm']
      simp
    have htake : count.take (m + 1) = count.take m ++ [count.getD m 0] := by
      rw [List.take_succ, List.getD_eq_getElem?_getD, List.getElem?_eq_getElem hm']
      simp
    rw [List.range_succ, List.foldlM_append, ih (Nat.le_of_lt hm')]
    simp only [List.foldlM_cons, List.foldlM_nil]
    show (do
        let c ← readAt (List.replicate m 0 ++ count.drop m) (m : Int)
        let x ← writeAt ((count.take m).foldl clearAt x) c 0
        let t ← writeAt (List.replicate m 0 ++ count.drop m) (m : Int) 0
        pure (t, x) : Run (List Nat × List Nat)) >>= pure = _
    rw [readAt_ofNat _ _ hlen, hget]
    show (do
        let x ← writeAt ((count.take m).foldl clearAt x) ((count.getD m 0 : Nat) : Int) 0
        let t ← writeAt (List.replicate m 0 ++ count.drop m) (m : Int) 0
        pure (t, x) : Run (List Nat × List Nat)) >>= pure = _
    rw [writeAt_ofNat _ _ _ hcm, writeAt_ofNat _ _ _ hlen, set_replicate_append_drop _ _ hm', htake,
      List.foldl_append]
    rfl

theorem resetTable_eq (n : Nat) (count x : List Nat) (hn : count.length = n)
    (hc : ∀ c ∈ count, c < x.length) :
    resetTable n count x = .ok (List.replicate n 0, count.foldl clearAt x) := by
  unfold resetTable
  rw [resetTable_upto count x hc n (by omega)]
  subst hn
  simp

/-! ## Counting lemmas -/

theorem rankIdx_cast (c : Card) (h : ValidCard c) : c.rank - 1 = ((rankIdx c : Nat) : Int) := by
  unfold rankIdx; have := h.1; omega

theorem suitIdx_cast (c : Card) (h : ValidCard c) : c.suit - 1 = ((suitIdx c : Nat) : Int) := by
  unfold suitIdx; have := h.2.2.1; omega

theorem rankIdx_lt (c : Card) (h : ValidCard c) : rankIdx c < RANKS := by
  unfold rankIdx RANKS; have := h.1; have := h.2.1; omega

theorem suitIdx_lt (c : Card) (h : ValidCard c) : suitIdx c < SUITS := by
  unfold suitIdx SUITS; have := h.2.2.1; have := h.2.2.2; omega

theorem length_foldl_bump {α : Type} (l : List α) (idx : α → Nat) (t : List Nat) :
    (l.foldl (fun t a => bump t (idx a)) t).length = t.length := by
  induction l generalizing t with
  | nil => rfl
  | cons a l ih => simp [List.foldl_cons, ih, length_bump]

theorem getD_foldl_bump {α : Type} (l : List α) (idx : α → Nat) (t : List Nat)
    (hidx : ∀ a ∈ l, idx a < t.length) (j : Nat) :
    (l.foldl (fun t a => bump t (idx a)) t).getD j 0
      = t.getD j 0 + l.countP (fun a => decide (idx a = j)) := by
  induction l generalizing t with
  | nil => simp
  | cons a l ih =>
    have ha : idx a < t.length := hidx a (by simp)
    rw [List.foldl_cons, ih (bump t (idx a)) (fun b hb => by
      rw [length_bump]; exact hidx b (by simp [hb])), getD_bump t (idx a) j ha,
      List.countP_cons]
    by_cases h : idx a = j
    · simp [h]; omega
    · simp [h]

theorem foldlM_incrAt {α : Type} (l : List α) (idx : α → Nat) (t : List Nat)
    (hidx : ∀ a ∈ l, idx a < t.length) (hb : ∀ j, t.getD j 0 + l.length < UINT_MOD) :
    l.foldlM (fun (t : List Nat) (a : α) => incrAt t ((idx a : Nat) : Int)) t
      = .ok (l.foldl (fun t a => bump t (idx a)) t) := by
  induction l generalizing t with
  | nil => rfl
  | cons a l ih =>
    have ha : idx a < t.length := hidx a (by simp)
    have hv : t.getD (idx a) 0 + 1 < UINT_MOD := by
      have := hb (idx a); simp only [List.length_cons] at this; omega
    rw [List.foldlM_cons, incrAt_ofNat t (idx a) ha hv, List.foldl_cons]
    show List.foldlM _ (bump t (idx a)) l = _
    apply ih
    · intro b hb'
      rw [length_bump]; exact hidx b (by simp [hb'])
    · intro j
      rw [getD_bump t (idx a) j ha]
      have := hb j
      simp only [List.length_cons] at this
      split <;> omega

theorem foldl_countStep (l : List Card) (p : List Nat × List Nat × Int × Int) :
    l.foldl countStep p
      = (l.foldl (fun t c => bump t (suitIdx c)) p.1,
         l.foldl (fun t c => bump t (rankIdx c)) p.2.1,
         l.foldl (fun lo c => if c.rank < lo then c.rank else lo) p.2.2.1,
         l.foldl (fun hi c => if c.rank > hi then c.rank else hi) p.2.2.2) := by
  induction l generalizing p with
  | nil => rfl
  | cons a l ih => simp [List.foldl_cons, ih, countStep]

theorem foldlM_countStep (l : List Card) (p : List Nat × List Nat × Int × Int)
    (hv : ∀ c ∈ l, ValidCard c) (hs : p.1.length = SUITS) (hr : p.2.1.length = RANKS)
    (hbs : ∀ j, p.1.getD j 0 + l.length < UINT_MOD)
    (hbr : ∀ j, p.2.1.getD j 0 + l.length < UINT_MOD) :
    l.foldlM (fun (p : List Nat × List Nat × Int × Int) (c : Card) => do
        let cs ← incrAt p.1 (c.suit - 1)
        let cr ← incrAt p.2.1 (c.rank - 1)
        let lowestRank := if c.rank < p.2.2.1 then c.rank else p.2.2.1
        let highestRank := if c.rank > p.2.2.2 then c.rank else p.2.2.2
        pure (cs, cr, lowestRank, highestRank)) p
      = (.ok (l.foldl countStep p) : Run (List Nat × List Nat × Int × Int)) := by
  induction l generalizing p with
  | nil => rfl
  | cons a l ih =>
    have hva : ValidCard a := hv a (by simp)
    have h1 : suitIdx a < p.1.length := by rw [hs]; exact suitIdx_lt a hva
    have h2 : rankIdx a < p.2.1.length := by rw [hr]; exact rankIdx_lt a hva
    have h3 : p.1.getD (suitIdx a) 0 + 1 < UINT_MOD := by
      have := hbs (suitIdx a); simp only [List.length_cons] at this; omega
    have h4 : p.2.1.getD (rankIdx a) 0 + 1 < UINT_MOD := by
      have := hbr (rankIdx a); simp only [List.length_cons] at this; omega
    rw [List.foldlM_cons, suitIdx_cast a hva, rankIdx_cast a hva, incrAt_ofNat _ _ h1 h3,
      incrAt_ofNat _ _ h2 h4, List.foldl_cons]
    show List.foldlM _ (countStep p a) l = _
    apply ih
    · intro c hc; exact hv c (by simp [hc])
    · simp [countStep, length_bump, hs]
    · simp [countStep, length_bump, hr]
    · intro j
      simp only [countStep]
      rw [getD_bump _ _ j h1]
      have := hbs j
      simp only [List.length_cons] at this
      split <;> omega
    · intro j
      simp only [countStep]
      rw [getD_bump _ _ j h2]
      have := hbr j
      simp only [List.length_cons] at this
      split <;> omega

/-! ## What `countHand` computes -/

theorem getD_replicate_zero (n j : Nat) : (List.replicate n 0).getD j 0 = 0 := by
  rw [List.getD_eq_getElem?_getD, List.getElem?_replicate]
  split <;> rfl

theorem eq_replicate_zero (t : List Nat) (n : Nat) (hlen : t.length = n)
    (h : ∀ k, t.getD k 0 = 0) : t = List.replicate n 0 := by
  apply List.ext_getElem
  · simp [hlen]
  · intro i h1 h2
    have := h i
    rw [List.getD_eq_getElem?_getD, List.getElem?_eq_getElem h1] at this
    simpa using this

theorem foldl_clearAt_eq_replicate (count x : List Nat) (n : Nat) (hlen : x.length = n)
    (hmem : ∀ k, x.getD k 0 ≠ 0 → k ∈ count) :
    count.foldl clearAt x = List.replicate n 0 := by
  apply eq_replicate_zero
  · rw [length_foldl_clearAt, hlen]
  · intro k
    rw [getD_foldl_clearAt]
    split
    · rfl
    · rename_i hk
      by_contra h0
      exact hk (hmem k h0)

theorem CountsInv.initial : CountsInv Counts.initial where
  len_suit := by simp [Counts.initial]
  len_rank := by simp [Counts.initial]
  len_xsuit := by simp [Counts.initial]
  len_xrank := by simp [Counts.initial]
  suit_lt := by
    intro c hc
    simp [Counts.initial, List.mem_replicate] at hc
    simp [hc.2, DECKSIZE]
  rank_lt := by
    intro c hc
    simp [Counts.initial, List.mem_replicate] at hc
    simp [hc.2, DECKSIZE]
  xsuit_mem := by
    intro k hk
    exact absurd (getD_replicate_zero DECKSIZE k) hk
  xrank_mem := by
    intro k hk
    exact absurd (getD_replicate_zero DECKSIZE k) hk

theorem resetCounts_eq (s : Counts) (h : CountsInv s) : resetCounts s = .ok Counts.cleared := by
  unfold resetCounts
  rw [resetTable_eq RANKS _ _ h.len_rank (by rw [h.len_xrank]; exact h.rank_lt),
    resetTable_eq SUITS _ _ h.len_suit (by rw [h.len_xsuit]; exact h.suit_lt),
    foldl_clearAt_eq_replicate _ _ DECKSIZE h.len_xrank h.xrank_mem,
    foldl_clearAt_eq_replicate _ _ DECKSIZE h.len_xsuit h.xsuit_mem]
  rfl

theorem cardAt_eq (cards : List Card) (i : Nat) (h : i < cards.length) :
    cardAt cards i = .ok (cards.get ⟨i, h⟩) := by
  simp [cardAt, List.get?_eq_getElem?, List.getElem?_eq_getElem h]

theorem countCards_eq (hand : List Card) (h : ValidHand hand) (cs cr : List Nat)
    (hs : cs.length = SUITS) (hr : cr.length = RANKS)
    (hbs : ∀ j, cs.getD j 0 + hand.length < UINT_MOD)
    (hbr : ∀ j, cr.getD j 0 + hand.length < UINT_MOD) :
    countCards hand cs cr = .ok (hand.foldl countStep (cs, cr, (RANKS : Int), 0)) := by
  unfold countCards
  rw [← h.1]
  have := foldlM_range_eq hand (cardAt hand)
    (fun (p : List Nat × List Nat × Int × Int) (c : Card) => do
        let cs ← incrAt p.1 (c.suit - 1)
        let cr ← incrAt p.2.1 (c.rank - 1)
        let lowestRank := if c.rank < p.2.2.1 then c.rank else p.2.2.1
        let highestRank := if c.rank > p.2.2.2 then c.rank else p.2.2.2
        pure (cs, cr, lowestRank, highestRank)) (cs, cr, (RANKS : Int), 0)
    (fun i hi => cardAt_eq hand i hi)
  rw [foldlM_countStep hand _ h.2 hs hr hbs hbr] at this
  exact this

theorem mem_getD (t : List Nat) (c : Nat) (h : c ∈ t) : ∃ j, t.getD j 0 = c := by
  obtain ⟨j, hj, e⟩ := List.getElem_of_mem h
  exact ⟨j, by rw [List.getD_eq_getElem?_getD, List.getElem?_eq_getElem hj]; simp [e]⟩

theorem tallyXofAKind_eq (n : Nat) (count x : List Nat) (hn : count.length = n)
    (hc : ∀ c ∈ count, c < x.length) (hb : ∀ j, x.getD j 0 + count.length < UINT_MOD) :
    tallyXofAKind n count x = .ok (count.foldl (fun t c => bump t c) x) := by
  unfold tallyXofAKind
  rw [← hn]
  have := foldlM_range_eq count (fun i => readAt count (i : Int))
    (fun (x : List Nat) (c : Nat) => incrAt x (c : Int)) x
    (fun i hi => by
      show readAt count (i : Int) = _
      rw [readAt_ofNat count i hi, List.getD_eq_getElem?_getD, List.getElem?_eq_getElem hi]
      rfl)
  rw [foldlM_incrAt count (fun c => c) x hc hb] at this
  exact this

theorem getD_countTable_rank (hand : List Card) (hv : ∀ c ∈ hand, ValidCard c) (j : Nat) :
    (countsOf hand).countTable_rank.getD j 0 = hand.countP (fun c => decide (rankIdx c = j)) := by
  show (hand.foldl (fun t c => bump t (rankIdx c)) (List.replicate RANKS 0)).getD j 0 = _
  rw [getD_foldl_bump hand rankIdx _ (fun c hc => by
    simpa using rankIdx_lt c (hv c hc)), getD_replicate_zero]
  simp

theorem getD_countTable_suit (hand : List Card) (hv : ∀ c ∈ hand, ValidCard c) (j : Nat) :
    (countsOf hand).countTable_suit.getD j 0 = hand.countP (fun c => decide (suitIdx c = j)) := by
  show (hand.foldl (fun t c => bump t (suitIdx c)) (List.replicate SUITS 0)).getD j 0 = _
  rw [getD_foldl_bump hand suitIdx _ (fun c hc => by
    simpa using suitIdx_lt c (hv c hc)), getD_replicate_zero]
  simp

theorem countTable_rank_le (hand : List Card) (hv : ∀ c ∈ hand, ValidCard c) :
    ∀ c ∈ (countsOf hand).countTable_rank, c ≤ hand.length := by
  intro c hc
  obtain ⟨j, hj⟩ := mem_getD _ c hc
  rw [getD_countTable_rank hand hv] at hj
  rw [← hj]
  exact List.countP_le_length _

theorem countTable_suit_le (hand : List Card) (hv : ∀ c ∈ hand, ValidCard c) :
    ∀ c ∈ (countsOf hand).countTable_suit, c ≤ hand.length := by
  intro c hc
  obtain ⟨j, hj⟩ := mem_getD _ c hc
  rw [getD_countTable_suit hand hv] at hj
  rw [← hj]
  exact List.countP_le_length _

theorem getD_xOfAKindTable_rank (hand : List Card) (h : ValidHand hand) (k : Nat) :
    (countsOf hand).xOfAKindTable_rank.getD k 0 = (countsOf hand).countTable_rank.count k := by
  show ((countsOf hand).countTable_rank.foldl (fun t c => bump t c)
    (List.replicate DECKSIZE 0)).getD k 0 = _
  rw [getD_foldl_bump _ (fun c => c) _ (fun c hc => by
    have := countTable_rank_le hand h.2 c hc
    have := h.1
    simp [DECKSIZE, HANDSIZE] at *; omega), getD_replicate_zero]
  simp only [Nat.zero_add, List.count, List.countP_eq_length_filter]
  congr 1

theorem getD_xOfAKindTable_suit (hand : List Card) (h : ValidHand hand) (k : Nat) :
    (countsOf hand).xOfAKindTable_suit.getD k 0 = (countsOf hand).countTable_suit.count k := by
  show ((countsOf hand).countTable_suit.foldl (fun t c => bump t c)
    (List.replicate DECKSIZE 0)).getD k 0 = _
  rw [getD_foldl_bump _ (fun c => c) _ (fun c hc => by
    have := countTable_suit_le hand h.2 c hc
    have := h.1
    simp [DECKSIZE, HANDSIZE] at *; omega), getD_replicate_zero]
  simp only [Nat.zero_add, List.count, List.countP_eq_length_filter]
  congr 1

theorem countsInv_countsOf (hand : List Card) (h : ValidHand hand) : CountsInv (countsOf hand) where
  len_suit := by simp [countsOf, length_foldl_bump]
  len_rank := by simp [countsOf, length_foldl_bump]
  len_xsuit := by
    show (List.foldl (fun t c => bump t c) _ _).length = _
    rw [length_foldl_bump _ (fun c => c)]; simp
  len_xrank := by
    show (List.foldl (fun t c => bump t c) _ _).length = _
    rw [length_foldl_bump _ (fun c => c)]; simp
  suit_lt := by
    intro c hc
    have := countTable_suit_le hand h.2 c hc
    have := h.1
    simp [DECKSIZE, HANDSIZE] at *; omega
  rank_lt := by
    intro c hc
    have := countTable_rank_le hand h.2 c hc
    have := h.1
    simp [DECKSIZE, HANDSIZE] at *; omega
  xsuit_mem := by
    intro k hk
    rw [getD_xOfAKindTable_suit hand h] at hk
    exact List.count_pos_iff.mp (Nat.pos_of_ne_zero hk)
  xrank_mem := by
    intro k hk
    rw [getD_xOfAKindTable_rank hand h] at hk
    exact List.count_pos_iff.mp (Nat.pos_of_ne_zero hk)

/-- From a state that satisfies the table invariant, `countHand` returns, and what it leaves
depends on the hand only. -/
theorem countHand_eq (s : Counts) (hs : CountsInv s) (hand : List Card) (h : ValidHand hand) :
    countHand s hand = .ok (countsOf hand) := by
  have hlen : hand.length = 5 := h.1
  have hcc := countCards_eq hand h (List.replicate SUITS 0) (List.replicate RANKS 0)
    (by simp) (by simp)
    (fun j => by rw [getD_replicate_zero, hlen]; decide)
    (fun j => by rw [getD_replicate_zero, hlen]; decide)
  rw [foldl_countStep] at hcc
  have hxr := tallyXofAKind_eq RANKS (countsOf hand).countTable_rank (List.replicate DECKSIZE 0)
    (countsInv_countsOf hand h).len_rank
    (fun c hc => by simpa using (countsInv_countsOf hand h).rank_lt c hc)
    (fun j => by
      rw [getD_replicate_zero, (countsInv_countsOf hand h).len_rank]; decide)
  have hxs := tallyXofAKind_eq SUITS (countsOf hand).countTable_suit (List.replicate DECKSIZE 0)
    (countsInv_countsOf hand h).len_suit
    (fun c hc => by simpa using (countsInv_countsOf hand h).suit_lt c hc)
    (fun j => by
      rw [getD_replicate_zero, (countsInv_countsOf hand h).len_suit]; decide)
  unfold countHand
  rw [resetCounts_eq s hs]
  show (do
      let (cs, cr, lowestRank, highestRank) ←
        countCards hand (List.replicate SUITS 0) (List.replicate RANKS 0)
      let xr ← tallyXofAKind RANKS cr (List.replicate DECKSIZE 0)
      let xs ← tallyXofAKind SUITS cs (List.replicate DECKSIZE 0)
      pure { countTable_suit := cs, countTable_rank := cr,
             xOfAKindTable_suit := xs, xOfAKindTable_rank := xr,
             lowestRankInHand := lowestRank, highestRankInHand := highestRank } : Run Counts) = _
  rw [hcc]
  show (do
      let xr ← tallyXofAKind RANKS (countsOf hand).countTable_rank (List.replicate DECKSIZE 0)
      let xs ← tallyXofAKind SUITS (countsOf hand).countTable_suit (List.replicate DECKSIZE 0)
      pure { countTable_suit := (countsOf hand).countTable_suit,
             countTable_rank := (countsOf hand).countTable_rank,
             xOfAKindTable_suit := xs, xOfAKindTable_rank := xr,
             lowestRankInHand := (countsOf hand).lowestRankInHand,
             highestRankInHand := (countsOf hand).highestRankInHand : Counts } : Run Counts) = _
  rw [hxr, hxs]
  rfl

theorem mem_allRanks (r : Int) : r ∈ allRanks ↔ 1 ≤ r ∧ r ≤ 13 := by
  simp only [allRanks, RANKS, List.mem_map, List.mem_range]
  constructor
  · rintro ⟨i, hi, rfl⟩; omega
  · intro h; exact ⟨(r - 1).toNat, by omega, by omega⟩

theorem mem_allSuits (u : Int) : u ∈ allSuits ↔ 1 ≤ u ∧ u ≤ 4 := by
  simp only [allSuits, SUITS, List.mem_map, List.mem_range]
  constructor
  · rintro ⟨i, hi, rfl⟩; omega
  · intro h; exact ⟨(u - 1).toNat, by omega, by omega⟩

theorem nodup_allRanks : allRanks.Nodup := by decide

theorem nodup_allSuits : allSuits.Nodup := by decide

theorem countTable_rank_eq (hand : List Card) (hv : ∀ c ∈ hand, ValidCard c) :
    (countsOf hand).countTable_rank = allRanks.map (rankCount hand) := by
  apply List.ext_getElem
  · simp [countsOf, length_foldl_bump, allRanks]
  · intro j h1 h2
    have hj : j < RANKS := by simpa [allRanks] using h2
    have := getD_countTable_rank hand hv j
    rw [List.getD_eq_getElem?_getD, List.getElem?_eq_getElem h1] at this
    simp only [Option.getD_some] at this
    rw [this]
    simp only [allRanks, List.getElem_map, List.getElem_range, rankCount]
    apply List.countP_congr
    intro c hc
    have := (hv c hc).1
    simp only [rankIdx, decide_eq_true_eq]
    omega

theorem countTable_suit_eq (hand : List Card) (hv : ∀ c ∈ hand, ValidCard c) :
    (countsOf hand).countTable_suit = allSuits.map (suitCount hand) := by
  apply List.ext_getElem
  · simp [countsOf, length_foldl_bump, allSuits]
  · intro j h1 h2
    have hj : j < SUITS := by simpa [allSuits] using h2
    have := getD_countTable_suit hand hv j
    rw [List.getD_eq_getElem?_getD, List.getElem?_eq_getElem h1] at this
    simp only [Option.getD_some] at this
    rw [this]
    simp only [allSuits, List.getElem_map, List.getElem_range, suitCount]
    apply List.countP_congr
    intro c hc
    have := (hv c hc).2.2.1
    simp only [suitIdx, decide_eq_true_eq]
    omega

theorem count_map_eq_length_filter (l : List Int) (f : Int → Nat) (k : Nat) :
    (l.map f).count k = (l.filter (fun r => decide (f r = k))).length := by
  induction l with
  | nil => rfl
  | cons a l ih =>
    rw [List.map_cons, List.count_cons, ih, List.filter_cons]
    by_cases h : f a = k
    · simp [h]
    · simp [h]

theorem getD_xrank (hand : List Card) (h : ValidHand hand) (k : Nat) :
    (countsOf hand).xOfAKindTable_rank.getD k 0 = ranksWithCount hand k := by
  rw [getD_xOfAKindTable_rank hand h, countTable_rank_eq hand h.2, count_map_eq_length_filter]
  rfl

theorem getD_xsuit (hand : List Card) (h : ValidHand hand) (k : Nat) :
    (countsOf hand).xOfAKindTable_suit.getD k 0 = suitsWithCount hand k := by
  rw [getD_xOfAKindTable_suit hand h, countTable_suit_eq hand h.2, count_map_eq_length_filter]
  rfl

theorem isXofAKind_rank_eq (hand : List Card) (h : ValidHand hand) (k : Nat) (hk : k < DECKSIZE) :
    isXofAKind_rank (countsOf hand) (k : Int) = .ok (ranksWithCount hand k) := by
  unfold isXofAKind_rank
  rw [readAt_ofNat _ _ (by rw [(countsInv_countsOf hand h).len_xrank]; exact hk),
    getD_xrank hand h]

theorem isXofAKind_suit_eq (hand : List Card) (h : ValidHand hand) (k : Nat) (hk : k < DECKSIZE) :
    isXofAKind_suit (countsOf hand) (k : Int) = .ok (suitsWithCount hand k) := by
  unfold isXofAKind_suit
  rw [readAt_ofNat _ _ (by rw [(countsInv_countsOf hand h).len_xsuit]; exact hk),
    getD_xsuit hand h]

theorem Reachable.inv {s : Counts} (h : Reachable s) : CountsInv s := by
  induction h with
  | initial => exact CountsInv.initial
  | step s s' hand _ hv hc ih =>
    rw [countHand_eq s ih hand hv] at hc
    cases hc
    exact countsInv_countsOf hand hv

theorem countHand_reachable (s : Counts) (hs : Reachable s) (hand : List Card)
    (h : ValidHand hand) : countHand s hand = .ok (countsOf hand) :=
  countHand_eq s hs.inv hand h

/-! ## Counting arguments on a hand -/

theorem sum_map_indicator_le_one (L : List Int) (hL : L.Nodup) (x : Int) :
    (L.map (fun r => if x = r then 1 else 0)).sum ≤ 1 := by
  induction L with
  | nil => simp
  | cons a L ih =>
    have hnd := List.nodup_cons.mp hL
    rw [List.map_cons, List.sum_cons]
    by_cases h : x = a
    · subst h
      have : (L.map (fun r => if x = r then 1 else 0)).sum = 0 := by
        apply List.sum_eq_zero
        intro n hn
        obtain ⟨r, hr, e⟩ := List.mem_map.mp hn
        have : x ≠ r := fun e' => hnd.1 (e' ▸ hr)
        simp [this] at e
        exact e.symm
      simp [this]
    · have := ih hnd.2
      simp [h]
      exact this

theorem sum_rankCount_le (hand : List Card) (L : List Int) (hL : L.Nodup) :
    (L.map (rankCount hand)).sum ≤ hand.length := by
  induction hand with
  | nil =>
    have : (L.map (rankCount [])).sum = 0 := by
      apply List.sum_eq_zero
      intro n hn
      obtain ⟨r, _, e⟩ := List.mem_map.mp hn
      rw [← e]; rfl
    simp [this]
  | cons c hand ih =>
    have hsplit : (L.map (rankCount (c :: hand))).sum
        = (L.map (rankCount hand)).sum + (L.map (fun r => if c.rank = r then 1 else 0)).sum := by
      clear ih hL
      induction L with
      | nil => rfl
      | cons a L ihL =>
        simp only [List.map_cons, List.sum_cons, ihL]
        have : rankCount (c :: hand) a = rankCount hand a + (if c.rank = a then 1 else 0) := by
          simp only [rankCount, List.countP_cons]
          by_cases h : c.rank = a <;> simp [h]
        rw [this]
        omega
    have := sum_map_indicator_le_one L hL c.rank
    rw [hsplit, List.length_cons]
    omega

theorem rankCount_add_le (hand : List Card) (a b : Int) (hab : a ≠ b) :
    rankCount hand a + rankCount hand b ≤ hand.length := by
  have := sum_rankCount_le hand [a, b] (by simp [hab])
  simpa [Nat.add_assoc] using this

theorem rankCount_add_add_le (hand : List Card) (a b c : Int) (hab : a ≠ b) (hac : a ≠ c)
    (hbc : b ≠ c) : rankCount hand a + rankCount hand b + rankCount hand c ≤ hand.length := by
  have := sum_rankCount_le hand [a, b, c] (by simp [hab, hac, hbc])
  simpa [Nat.add_assoc] using this

theorem rankCount_pos_mem (hand : List Card) (hv : ∀ c ∈ hand, ValidCard c) (r : Int)
    (h : 0 < rankCount hand r) : r ∈ allRanks := by
  obtain ⟨c, hc, e⟩ := List.countP_pos_iff.mp h
  have e' : c.rank = r := by simpa using e
  rw [mem_allRanks, ← e']
  exact ⟨(hv c hc).1, (hv c hc).2.1⟩

theorem suitCount_pos_mem (hand : List Card) (hv : ∀ c ∈ hand, ValidCard c) (u : Int)
    (h : 0 < suitCount hand u) : u ∈ allSuits := by
  obtain ⟨c, hc, e⟩ := List.countP_pos_iff.mp h
  have e' : c.suit = u := by simpa using e
  rw [mem_allSuits, ← e']
  exact ⟨(hv c hc).2.2.1, (hv c hc).2.2.2⟩

theorem length_le_of_nodup_subset {L M : List Int} (hL : L.Nodup) (h : L ⊆ M) :
    L.length ≤ M.length :=
  (List.subperm_of_subset hL h).length_le

/-- Some rank occurs exactly `k` times, for `k` at least 1. -/
theorem ranksWithCount_pos (hand : List Card) (hv : ∀ c ∈ hand, ValidCard c) (k : Nat)
    (hk : 0 < k) : 0 < ranksWithCount hand k ↔ ∃ r, rankCount hand r = k := by
  unfold ranksWithCount
  rw [List.length_pos_iff_exists_mem]
  constructor
  · rintro ⟨r, hr⟩
    exact ⟨r, by simpa using (List.mem_filter.mp hr).2⟩
  · rintro ⟨r, hr⟩
    exact ⟨r, List.mem_filter.mpr ⟨rankCount_pos_mem hand hv r (by omega), by simpa using hr⟩⟩

/-- Exactly one rank occurs exactly `k` times, for `k` at least 1. -/
theorem ranksWithCount_eq_one (hand : List Card) (hv : ∀ c ∈ hand, ValidCard c) (k : Nat)
    (hk : 0 < k) :
    ranksWithCount hand k = 1 ↔ ∃ a, rankCount hand a = k ∧ ∀ b, rankCount hand b = k → b = a := by
  unfold ranksWithCount
  have hnd : (allRanks.filter (fun r => decide (rankCount hand r = k))).Nodup :=
    nodup_allRanks.filter _
  have hmem : ∀ r, r ∈ allRanks.filter (fun r => decide (rankCount hand r = k))
      ↔ rankCount hand r = k := by
    intro r
    rw [List.mem_filter]
    constructor
    · intro h; simpa using h.2
    · intro h; exact ⟨rankCount_pos_mem hand hv r (by omega), by simpa using h⟩
  constructor
  · intro h
    obtain ⟨a, ha⟩ := List.length_eq_one.mp h
    refine ⟨a, (hmem a).mp (by rw [ha]; simp), ?_⟩
    intro b hb
    have := (hmem b).mpr hb
    rw [ha] at this
    simpa using this
  · rintro ⟨a, ha, huniq⟩
    apply Nat.le_antisymm
    · have : allRanks.filter (fun r => decide (rankCount hand r = k)) ⊆ [a] := by
        intro r hr
        simp [huniq r ((hmem r).mp hr)]
      simpa using length_le_of_nodup_subset hnd this
    · have : [a] ⊆ allRanks.filter (fun r => decide (rankCount hand r = k)) := by
        intro r hr
        have : r = a := by simpa using hr
        rw [this]; exact (hmem a).mpr ha
      simpa using length_le_of_nodup_subset (by simp) this

/-- Exactly two ranks occur exactly `k` times, for `k` at least 1. -/
theorem ranksWithCount_eq_two (hand : List Card) (hv : ∀ c ∈ hand, ValidCard c) (k : Nat)
    (hk : 0 < k) :
    ranksWithCount hand k = 2 ↔ ∃ a b, a ≠ b ∧ rankCount hand a = k ∧ rankCount hand b = k ∧
      ∀ c, rankCount hand c = k → c = a ∨ c = b := by
  unfold ranksWithCount
  have hnd : (allRanks.filter (fun r => decide (rankCount hand r = k))).Nodup :=
    nodup_allRanks.filter _
  have hmem : ∀ r, r ∈ allRanks.filter (fun r => decide (rankCount hand r = k))
      ↔ rankCount hand r = k := by
    intro r
    rw [List.mem_filter]
    constructor
    · intro h; simpa using h.2
    · intro h; exact ⟨rankCount_pos_mem hand hv r (by omega), by simpa using h⟩
  constructor
  · intro h
    obtain ⟨a, b, hab⟩ := List.length_eq_two.mp h
    have hne : a ≠ b := by
      rw [hab] at hnd
      simpa using hnd
    refine ⟨a, b, hne, (hmem a).mp (by rw [hab]; simp), (hmem b).mp (by rw [hab]; simp), ?_⟩
    intro c hc
    have := (hmem c).mpr hc
    rw [hab] at this
    simpa using this
  · rintro ⟨a, b, hne, ha, hb, hall⟩
    apply Nat.le_antisymm
    · have : allRanks.filter (fun r => decide (rankCount hand r = k)) ⊆ [a, b] := by
        intro r hr
        have := hall r ((hmem r).mp hr)
        simpa using this
      simpa using length_le_of_nodup_subset hnd this
    · have : [a, b] ⊆ allRanks.filter (fun r => decide (rankCount hand r = k)) := by
        intro r hr
        have : r = a ∨ r = b := by simpa using hr
        rcases this with e | e
        · rw [e]; exact (hmem a).mpr ha
        · rw [e]; exact (hmem b).mpr hb
      simpa using length_le_of_nodup_subset (by simp [hne]) this

/-- No rank occurs exactly `k` times, for `k` at least 1. -/
theorem ranksWithCount_eq_zero (hand : List Card) (hv : ∀ c ∈ hand, ValidCard c) (k : Nat)
    (hk : 0 < k) : ranksWithCount hand k = 0 ↔ ∀ r, rankCount hand r ≠ k := by
  have := ranksWithCount_pos hand hv k hk
  constructor
  · intro h r hr
    have := this.mpr ⟨r, hr⟩
    omega
  · intro h
    by_contra h0
    obtain ⟨r, hr⟩ := this.mp (Nat.pos_of_ne_zero h0)
    exact h r hr

/-! ## The predicates on the state left by `countHand` -/

theorem ok_bind {α β : Type} (a : α) (f : α → Run β) : ((Except.ok a : Run α) >>= f) = f a := rfl

theorem isOnePair_countsOf (hand : List Card) (h : ValidHand hand) :
    isOnePair (countsOf hand) = .ok (if ranksWithCount hand 2 = 1 then 1 else 0) := by
  have := isXofAKind_rank_eq hand h 2 (by decide)
  simp only [Nat.cast_ofNat] at this
  unfold isOnePair
  rw [this]; rfl

theorem isTwoPair_countsOf (hand : List Card) (h : ValidHand hand) :
    isTwoPair (countsOf hand) = .ok (if ranksWithCount hand 2 = 2 then 1 else 0) := by
  have := isXofAKind_rank_eq hand h 2 (by decide)
  simp only [Nat.cast_ofNat] at this
  unfold isTwoPair
  rw [this]; rfl

theorem isThreeOfAKind_countsOf (hand : List Card) (h : ValidHand hand) :
    isThreeOfAKind (countsOf hand) = .ok (if ranksWithCount hand 3 = 1 then 1 else 0) := by
  have := isXofAKind_rank_eq hand h 3 (by decide)
  simp only [Nat.cast_ofNat] at this
  unfold isThreeOfAKind
  rw [this]; rfl

theorem isFourOfAKind_countsOf (hand : List Card) (h : ValidHand hand) :
    isFourOfAKind (countsOf hand) = .ok (if ranksWithCount hand 4 = 1 then 1 else 0) := by
  have := isXofAKind_rank_eq hand h 4 (by decide)
  simp only [Nat.cast_ofNat] at this
  unfold isFourOfAKind
  rw [this]; rfl

theorem isStraight_countsOf (hand : List Card) (h : ValidHand hand) :
    isStraight (countsOf hand) = .ok (if ranksWithCount hand 1 = 5 then
      (if (countsOf hand).highestRankInHand - (countsOf hand).lowestRankInHand + 1 = 5
        then 1 else 0) else 0) := by
  have := isXofAKind_rank_eq hand h 1 (by decide)
  simp only [Nat.cast_one] at this
  unfold isStraight
  rw [this]
  rw [ok_bind]
  by_cases h5 : ranksWithCount hand 1 = 5
  · simp [h5, HANDSIZE]; rfl
  · simp [h5, HANDSIZE]; rfl

theorem isFlush_countsOf (hand : List Card) (h : ValidHand hand) :
    isFlush (countsOf hand) = .ok (if suitsWithCount hand 5 > 0 then 1 else 0) := by
  have := isXofAKind_suit_eq hand h 5 (by decide)
  unfold isFlush
  rw [show ((HANDSIZE : Nat) : Int) = ((5 : Nat) : Int) from rfl, this]; rfl

theorem isFullHouse_countsOf (hand : List Card) (h : ValidHand hand) :
    isFullHouse (countsOf hand)
      = .ok (if ranksWithCount hand 3 ≠ 0 ∧ ranksWithCount hand 2 ≠ 0 then 1 else 0) := by
  have h3 := isXofAKind_rank_eq hand h 3 (by decide)
  have h2 := isXofAKind_rank_eq hand h 2 (by decide)
  simp only [Nat.cast_ofNat] at h3 h2
  unfold isFullHouse
  rw [h3, ok_bind]
  by_cases e3 : ranksWithCount hand 3 = 0
  · simp [e3]; rfl
  · by_cases e2 : ranksWithCount hand 2 = 0
    · simp [e3, e2, h2, ok_bind]
    · simp [e3, e2, h2, ok_bind]

theorem classifyHand_countsOf (hand : List Card) (h : ValidHand hand) (t : Tally) :
    ∃ p1 p2 p3 p4 p5 p6 p7,
      isOnePair (countsOf hand) = .ok p1 ∧ isTwoPair (countsOf hand) = .ok p2 ∧
      isThreeOfAKind (countsOf hand) = .ok p3 ∧ isFourOfAKind (countsOf hand) = .ok p4 ∧
      isStraight (countsOf hand) = .ok p5 ∧ isFlush (countsOf hand) = .ok p6 ∧
      isFullHouse (countsOf hand) = .ok p7 ∧
      classifyHand t (countsOf hand) = .ok
        { onePair := addTo t.onePair p1, twoPair := addTo t.twoPair p2,
          threeOfAKind := addTo t.threeOfAKind p3, fourOfAKind := addTo t.fourOfAKind p4,
          straight := addTo t.straight p5, flush := addTo t.flush p6,
          fullHouse := addTo t.fullHouse p7 } := by
  refine ⟨_, _, _, _, _, _, _, isOnePair_countsOf hand h, isTwoPair_countsOf hand h,
    isThreeOfAKind_countsOf hand h, isFourOfAKind_countsOf hand h, isStraight_countsOf hand h,
    isFlush_countsOf hand h, isFullHouse_countsOf hand h, ?_⟩
  unfold classifyHand
  rw [isOnePair_countsOf hand h, isTwoPair_countsOf hand h,
    isThreeOfAKind_countsOf hand h, isFourOfAKind_countsOf hand h, isStraight_countsOf hand h,
    isFlush_countsOf hand h, isFullHouse_countsOf hand h]
  rfl

/-- In a hand of five cards with a rank that occurs three times and a rank that occurs twice,
exactly one rank occurs three times and exactly one occurs twice. -/
theorem fullHouse_counts (hand : List Card) (h : ValidHand hand)
    (h3 : ranksWithCount hand 3 ≠ 0) (h2 : ranksWithCount hand 2 ≠ 0) :
    ranksWithCount hand 3 = 1 ∧ ranksWithCount hand 2 = 1 := by
  have hlen : hand.length = 5 := h.1
  obtain ⟨a, ha⟩ := (ranksWithCount_pos hand h.2 3 (by decide)).mp (Nat.pos_of_ne_zero h3)
  obtain ⟨b, hb⟩ := (ranksWithCount_pos hand h.2 2 (by decide)).mp (Nat.pos_of_ne_zero h2)
  have hab : a ≠ b := by
    intro e; rw [e] at ha; omega
  constructor
  · rw [ranksWithCount_eq_one hand h.2 3 (by decide)]
    refine ⟨a, ha, ?_⟩
    intro c hc
    by_contra hne
    have := rankCount_add_le hand c a hne
    omega
  · rw [ranksWithCount_eq_one hand h.2 2 (by decide)]
    refine ⟨b, hb, ?_⟩
    intro c hc
    by_contra hne
    have hca : c ≠ a := by
      intro e; rw [e] at hc; omega
    have := rankCount_add_add_le hand c a b hca hne hab
    omega

/-! ## Lowest and highest rank, straights -/

theorem foldl_lowest_spec (l : List Card) (init : Int) :
    l.foldl (fun lo c => if c.rank < lo then c.rank else lo) init ≤ init ∧
    (∀ c ∈ l, l.foldl (fun lo c => if c.rank < lo then c.rank else lo) init ≤ c.rank) ∧
    (l.foldl (fun lo c => if c.rank < lo then c.rank else lo) init = init ∨
      ∃ c ∈ l, c.rank = l.foldl (fun lo c => if c.rank < lo then c.rank else lo) init) := by
  induction l generalizing init with
  | nil => simp
  | cons a l ih =>
    rw [List.foldl_cons]
    by_cases hlt : a.rank < init
    · simp only [if_pos hlt]
      obtain ⟨h1, h2, h3⟩ := ih a.rank
      refine ⟨by omega, ?_, ?_⟩
      · intro c hc
        rcases List.mem_cons.mp hc with e | hc'
        · rw [e]; exact h1
        · exact h2 c hc'
      · rcases h3 with e | ⟨c, hc, e⟩
        · right; exact ⟨a, by simp, e.symm⟩
        · right; exact ⟨c, by simp [hc], e⟩
    · simp only [if_neg hlt]
      obtain ⟨h1, h2, h3⟩ := ih init
      refine ⟨h1, ?_, ?_⟩
      · intro c hc
        rcases List.mem_cons.mp hc with e | hc'
        · rw [e]; omega
        · exact h2 c hc'
      · rcases h3 with e | ⟨c, hc, e⟩
        · left; exact e
        · right; exact ⟨c, by simp [hc], e⟩

theorem foldl_highest_spec (l : List Card) (init : Int) :
    init ≤ l.foldl (fun hi c => if c.rank > hi then c.rank else hi) init ∧
    (∀ c ∈ l, c.rank ≤ l.foldl (fun hi c => if c.rank > hi then c.rank else hi) init) ∧
    (l.foldl (fun hi c => if c.rank > hi then c.rank else hi) init = init ∨
      ∃ c ∈ l, c.rank = l.foldl (fun hi c => if c.rank > hi then c.rank else hi) init) := by
  induction l generalizing init with
  | nil => simp
  | cons a l ih =>
    rw [List.foldl_cons]
    by_cases hlt : a.rank > init
    · simp only [if_pos hlt]
      obtain ⟨h1, h2, h3⟩ := ih a.rank
      refine ⟨by omega, ?_, ?_⟩
      · intro c hc
        rcases List.mem_cons.mp hc with e | hc'
        · rw [e]; exact h1
        · exact h2 c hc'
      · rcases h3 with e | ⟨c, hc, e⟩
        · right; exact ⟨a, by simp, e.symm⟩
        · right; exact ⟨c, by simp [hc], e⟩
    · simp only [if_neg hlt]
      obtain ⟨h1, h2, h3⟩ := ih init
      refine ⟨h1, ?_, ?_⟩
      · intro c hc
        rcases List.mem_cons.mp hc with e | hc'
        · rw [e]; omega
        · exact h2 c hc'
      · rcases h3 with e | ⟨c, hc, e⟩
        · left; exact e
        · right; exact ⟨c, by simp [hc], e⟩

theorem rankCount_eq_count (hand : List Card) (r : Int) :
    rankCount hand r = (hand.map Card.rank).count r := by
  induction hand with
  | nil => rfl
  | cons c hand ih =>
    simp only [List.map_cons, List.count_cons, ← ih, rankCount, List.countP_cons]
    by_cases h : c.rank = r <;> simp [h]

theorem lowest_le (hand : List Card) : ∀ c ∈ hand, (countsOf hand).lowestRankInHand ≤ c.rank :=
  (foldl_lowest_spec hand (RANKS : Int)).2.1

theorem le_highest (hand : List Card) : ∀ c ∈ hand, c.rank ≤ (countsOf hand).highestRankInHand :=
  (foldl_highest_spec hand 0).2.1

theorem mem_run5 (r x : Int) : x ∈ run5 r ↔ r ≤ x ∧ x ≤ r + 4 := by
  simp only [run5, List.mem_cons, List.mem_singleton, List.not_mem_nil, or_false]
  omega

theorem nodup_run5 (r : Int) : (run5 r).Nodup := by
  have e1 : r ≠ r + 1 := by omega
  have e2 : r ≠ r + 2 := by omega
  have e3 : r ≠ r + 3 := by omega
  have e4 : r ≠ r + 4 := by omega
  have e5 : r + 1 ≠ r + 2 := by omega
  have e6 : r + 1 ≠ r + 3 := by omega
  have e7 : r + 1 ≠ r + 4 := by omega
  have e8 : r + 2 ≠ r + 3 := by omega
  have e9 : r + 2 ≠ r + 4 := by omega
  have e10 : r + 3 ≠ r + 4 := by omega
  simp [run5, e1, e2, e3, e4, e5, e6, e7, e8, e9, e10]

theorem perm_of_nodup_subset_length {L M : List Int} (hL : L.Nodup) (h : L ⊆ M)
    (hlen : M.length ≤ L.length) : L.Perm M :=
  (List.subperm_of_subset hL h).perm_of_length_le hlen

theorem nodup_ranks_of_five_singles (hand : List Card) (h : ValidHand hand)
    (h1 : ranksWithCount hand 1 = 5) : (hand.map Card.rank).Nodup := by
  have hlen : hand.length = 5 := h.1
  have hF : (allRanks.filter (fun r => decide (rankCount hand r = 1))).Perm
      (hand.map Card.rank) := by
    apply perm_of_nodup_subset_length (nodup_allRanks.filter _)
    · intro r hr
      have : rankCount hand r = 1 := by simpa using (List.mem_filter.mp hr).2
      rw [rankCount_eq_count] at this
      exact List.count_pos_iff.mp (by omega)
    · rw [List.length_map, hlen]
      exact Nat.le_of_eq h1.symm
  exact hF.nodup_iff.mp (nodup_allRanks.filter _)

theorem straight_of_counts (hand : List Card) (h : ValidHand hand)
    (h1 : ranksWithCount hand 1 = 5)
    (h2 : (countsOf hand).highestRankInHand - (countsOf hand).lowestRankInHand + 1 = 5) :
    (hand.map Card.rank).Perm (run5 (countsOf hand).lowestRankInHand) := by
  have hlen : hand.length = 5 := h.1
  have hnd : (hand.map Card.rank).Nodup := nodup_ranks_of_five_singles hand h h1
  apply perm_of_nodup_subset_length hnd
  · intro x hx
    obtain ⟨c, hc, e⟩ := List.mem_map.mp hx
    rw [mem_run5, ← e]
    have := lowest_le hand c hc
    have := le_highest hand c hc
    omega
  · simp [run5, hlen]

theorem counts_of_straight (hand : List Card) (h : ValidHand hand) (r : Int)
    (hp : (hand.map Card.rank).Perm (run5 r)) :
    ranksWithCount hand 1 = 5 ∧
    (countsOf hand).highestRankInHand - (countsOf hand).lowestRankInHand + 1 = 5 := by
  have hmem : ∀ x, x ∈ hand.map Card.rank ↔ r ≤ x ∧ x ≤ r + 4 := by
    intro x; rw [hp.mem_iff, mem_run5]
  have hcard : ∀ c ∈ hand, r ≤ c.rank ∧ c.rank ≤ r + 4 := by
    intro c hc; exact (hmem c.rank).mp (List.mem_map.mpr ⟨c, hc, rfl⟩)
  obtain ⟨c0, hc0, e0⟩ := List.mem_map.mp ((hmem r).mpr (by omega))
  obtain ⟨c4, hc4, e4⟩ := List.mem_map.mp ((hmem (r + 4)).mpr (by omega))
  have hr1 : 1 ≤ r := by rw [← e0]; exact (h.2 c0 hc0).1
  have hr9 : r ≤ 9 := by
    have := (h.2 c4 hc4).2.1
    omega
  constructor
  · have hcount : ∀ x, rankCount hand x = (run5 r).count x := by
      intro x; rw [rankCount_eq_count, hp.count_eq]
    unfold ranksWithCount
    simp only [hcount]
    interval_cases r <;> decide
  · obtain ⟨l1, l2, l3⟩ := foldl_lowest_spec hand (RANKS : Int)
    obtain ⟨g1, g2, g3⟩ := foldl_highest_spec hand 0
    have hlo : (countsOf hand).lowestRankInHand = r := by
      show hand.foldl (fun lo c => if c.rank < lo then c.rank else lo) (RANKS : Int) = r
      have a1 := l2 c0 hc0
      rcases l3 with e | ⟨c, hc, e⟩
      · rw [e] at a1; simp only [RANKS] at a1; push_cast at a1; omega
      · have := (hcard c hc).1
        omega
    have hhi : (countsOf hand).highestRankInHand = r + 4 := by
      show hand.foldl (fun hi c => if c.rank > hi then c.rank else hi) 0 = r + 4
      have a1 := g2 c4 hc4
      rcases g3 with e | ⟨c, hc, e⟩
      · rw [e] at a1; omega
      · have := (hcard c hc).2
        omega
    rw [hlo, hhi]; omega

/-- What `isStraight` computes, in terms of the hand. -/
theorem isStraight_iff (hand : List Card) (h : ValidHand hand) :
    isStraight (countsOf hand) = .ok 1 ↔ ∃ r, (hand.map Card.rank).Perm (run5 r) := by
  rw [isStraight_countsOf hand h]
  constructor
  · intro hs
    by_cases h1 : ranksWithCount hand 1 = 5
    · by_cases h2 : (countsOf hand).highestRankInHand - (countsOf hand).lowestRankInHand + 1 = 5
      · exact ⟨_, straight_of_counts hand h h1 h2⟩
      · simp [h1, h2] at hs
    · simp [h1] at hs
  · rintro ⟨r, hp⟩
    obtain ⟨h1, h2⟩ := counts_of_straight hand h r hp
    simp [h1, h2]

/-! ## Deck and draw tracker lemmas -/

theorem length_initializeDeck : initializeDeck.length = DECKSIZE := by
  simp [initializeDeck]

theorem valid_initializeDeck : ∀ c ∈ initializeDeck, ValidCard c := by decide

theorem nodup_initializeDeck : initializeDeck.Nodup := by decide

theorem mem_initializeDeck (c : Card) (h : ValidCard c) : c ∈ initializeDeck := by
  have hall : ∀ r ∈ allRanks, ∀ u ∈ allSuits, (⟨r, u⟩ : Card) ∈ initializeDeck := by decide
  obtain ⟨r, u⟩ := c
  exact hall r ((mem_allRanks r).mpr ⟨h.1, h.2.1⟩) u ((mem_allSuits u).mpr ⟨h.2.2.1, h.2.2.2⟩)

theorem drawnOffset_cast (c : Card) (h : ValidCard c) :
    drawnOffset c = ((offNat c : Nat) : Int) := by
  obtain ⟨h1, h2, h3, h4⟩ := h
  unfold offNat drawnOffset
  omega

theorem offNat_lt (c : Card) (h : ValidCard c) : offNat c < DECKSIZE := by
  obtain ⟨h1, h2, h3, h4⟩ := h
  unfold offNat drawnOffset DECKSIZE
  omega

theorem offNat_inj (c d : Card) (hc : ValidCard c) (hd : ValidCard d)
    (h : offNat c = offNat d) : c = d := by
  obtain ⟨h1, h2, h3, h4⟩ := hc
  obtain ⟨g1, g2, g3, g4⟩ := hd
  unfold offNat drawnOffset at h
  obtain ⟨r, u⟩ := c
  obtain ⟨r', u'⟩ := d
  simp only at h1 h2 h3 h4 g1 g2 g3 g4 h
  have e1 : r = r' := by omega
  have e2 : u = u' := by omega
  rw [e1, e2]

theorem isDrawn_eq (t : List Nat) (c : Card) (hc : ValidCard c) (ht : t.length = DECKSIZE) :
    isDrawn t c = .ok (unsignedToInt (t.getD (offNat c) 0)) := by
  unfold isDrawn
  rw [drawnOffset_cast c hc, readAt_ofNat t _ (by rw [ht]; exact offNat_lt c hc)]
  rfl

theorem setDrawn_eq (t : List Nat) (c : Card) (v : Int) (hc : ValidCard c)
    (ht : t.length = DECKSIZE) :
    setDrawn t c v = .ok (t.set (offNat c) (intToUnsigned v)) := by
  unfold setDrawn
  rw [drawnOffset_cast c hc, writeAt_ofNat t _ _ (by rw [ht]; exact offNat_lt c hc)]

theorem marks_nil : Marks (List.replicate DECKSIZE 0) [] :=
  ⟨by simp, fun j => by rw [getD_replicate_zero]; simp⟩

theorem marks_append (t : List Nat) (dealt : List Card) (c : Card) (hm : Marks t dealt)
    (hc : ValidCard c) : Marks (t.set (offNat c) (intToUnsigned 1)) (dealt ++ [c]) := by
  refine ⟨by simp [hm.1], ?_⟩
  intro j
  rw [getD_set, hm.2 j]
  have hlt : offNat c < t.length := by rw [hm.1]; exact offNat_lt c hc
  by_cases hj : offNat c = j
  · subst hj
    simp [hlt]; rfl
  · have hj' : ¬ j = offNat c := fun e => hj e.symm
    simp [hj, hj']

theorem drawCard_spec (t : List Nat) (ht : t.length = DECKSIZE)
    (h01 : ∀ j, t.getD j 0 = 0 ∨ t.getD j 0 = 1) (rands : List Nat) (c : Card)
    (rest : List Nat) (h : drawCard initializeDeck t rands = .ok (c, rest)) :
    ValidCard c ∧ t.getD (offNat c) 0 = 0 := by
  induction rands with
  | nil => simp [drawCard] at h
  | cons r rands ih =>
    have hr : r % DECKSIZE < initializeDeck.length := by
      rw [length_initializeDeck]; exact Nat.mod_lt _ (by decide)
    have hv : ValidCard (initializeDeck.get ⟨r % DECKSIZE, hr⟩) :=
      valid_initializeDeck _ (List.get_mem _ _ _)
    rw [drawCard, cardAt_eq _ _ hr, ok_bind, isDrawn_eq t _ hv ht, ok_bind] at h
    rcases h01 (offNat (initializeDeck.get ⟨r % DECKSIZE, hr⟩)) with e | e
    · rw [e] at h
      simp only [unsignedToInt] at h
      simp only [Nat.ofNat_pos, ↓reduceIte, Nat.cast_zero, ne_eq, not_true_eq_false] at h
      have h' := Except.ok.inj h
      simp only [Prod.mk.injEq] at h'
      rw [← h'.1]
      exact ⟨hv, e⟩
    · rw [e] at h
      simp only [unsignedToInt] at h
      simp at h
      exact ih h

theorem dealLoop_spec (n : Nat) (dealt : List Card) (t : List Nat) (rands : List Nat)
    (hand : List Card) (t' rest : List Nat)
    (hv : ∀ c ∈ dealt, ValidCard c) (hnd : dealt.Nodup) (hm : Marks t dealt)
    (h : dealLoop initializeDeck n t rands = .ok (hand, t', rest)) :
    hand.length = n ∧ (∀ c ∈ hand, ValidCard c) ∧ (dealt ++ hand).Nodup ∧
      Marks t' (dealt ++ hand) := by
  induction n generalizing dealt t rands hand t' rest with
  | zero =>
    simp only [dealLoop] at h
    cases h
    simpa using ⟨hnd, hm⟩
  | succ n ih =>
    rw [dealLoop] at h
    cases hdc : drawCard initializeDeck t rands with
    | error e => rw [hdc] at h; cases h
    | ok p =>
      obtain ⟨c, rands1⟩ := p
      have h01 : ∀ j, t.getD j 0 = 0 ∨ t.getD j 0 = 1 := by
        intro j; rw [hm.2 j]; split <;> simp
      obtain ⟨hvc, hc0⟩ := drawCard_spec t hm.1 h01 rands c rands1 hdc
      have hcn : c ∉ dealt := by
        intro hmem
        have := hm.2 (offNat c)
        rw [if_pos (List.mem_map.mpr ⟨c, hmem, rfl⟩), hc0] at this
        exact absurd this (by decide)
      rw [hdc, ok_bind] at h
      simp only [] at h
      rw [setDrawn_eq t c 1 hvc hm.1, ok_bind] at h
      have hm1 := marks_append t dealt c hm hvc
      have hv1 : ∀ d ∈ dealt ++ [c], ValidCard d := by
        intro d hd
        rcases List.mem_append.mp hd with hd | hd
        · exact hv d hd
        · have : d = c := by simpa using hd
          rw [this]; exact hvc
      have hnd1 : (dealt ++ [c]).Nodup := by
        rw [List.nodup_append]
        refine ⟨hnd, by simp, ?_⟩
        intro x hx1 hx2
        have : x = c := by simpa using hx2
        exact hcn (this ▸ hx1)
      cases hdl : dealLoop initializeDeck n (t.set (offNat c) (intToUnsigned 1)) rands1 with
      | error e => rw [hdl] at h; cases h
      | ok q =>
        obtain ⟨filled, t2, rands2⟩ := q
        rw [hdl, ok_bind] at h
        have h' := Except.ok.inj h
        simp only [Prod.mk.injEq] at h'
        obtain ⟨e1, e2, e3⟩ := h'
        subst e1 e2 e3
        obtain ⟨a1, a2, a3, a4⟩ := ih (dealt ++ [c]) _ rands1 filled t2 rands2 hv1 hnd1 hm1 hdl
        rw [List.append_assoc] at a3 a4
        refine ⟨by simp [a1], ?_, a3, a4⟩
        intro d hd
        rcases List.mem_cons.mp hd with e | hd'
        · rw [e]; exact hvc
        · exact a2 d hd'

/-- What a completed `dealHand` leaves, from the initialized deck and a table with no card
marked. -/
theorem dealHand_spec (rands : List Nat) (hand : List Card) (t' rest : List Nat)
    (h : dealHand initializeDeck (List.replicate DECKSIZE 0) rands = .ok (hand, t', rest)) :
    hand.length = HANDSIZE ∧ (∀ c ∈ hand, ValidCard c) ∧ hand.Nodup ∧ Marks t' hand := by
  have := dealLoop_spec HANDSIZE [] _ rands hand t' rest (by simp) (by simp) marks_nil h
  simpa using this

/-! ## Returning a hand -/

theorem foldlM_setDrawn_zero (l : List Card) (t : List Nat) (hv : ∀ c ∈ l, ValidCard c)
    (ht : t.length = DECKSIZE) :
    l.foldlM (fun (table : List Nat) (c : Card) => setDrawn table c 0) t
      = .ok ((l.map offNat).foldl clearAt t) := by
  induction l generalizing t with
  | nil => rfl
  | cons a l ih =>
    rw [List.foldlM_cons, setDrawn_eq t a 0 (hv a (by simp)) ht, ok_bind, List.map_cons,
      List.foldl_cons]
    exact ih _ (fun c hc => hv c (by simp [hc])) (by simp [ht])

theorem returnHand_eq (hand : List Card) (t : List Nat) (hlen : hand.length = HANDSIZE)
    (hv : ∀ c ∈ hand, ValidCard c) (ht : t.length = DECKSIZE) :
    returnHand hand t = .ok ((hand.map offNat).foldl clearAt t) := by
  unfold returnHand
  rw [← hlen]
  have := foldlM_range_eq hand (cardAt hand)
    (fun (table : List Nat) (c : Card) => setDrawn table c 0) t
    (fun i hi => cardAt_eq hand i hi)
  rw [foldlM_setDrawn_zero hand t hv ht] at this
  exact this

theorem returnHand_marks (hand : List Card) (t : List Nat) (hlen : hand.length = HANDSIZE)
    (hv : ∀ c ∈ hand, ValidCard c) (hm : Marks t hand) :
    returnHand hand t = .ok (List.replicate DECKSIZE 0) := by
  rw [returnHand_eq hand t hlen hv hm.1,
    foldl_clearAt_eq_replicate _ _ DECKSIZE hm.1 (fun k hk => by
      have := hm.2 k
      by_contra hmem
      rw [if_neg hmem] at this
      exact hk this)]

theorem isDrawn_marks (hand : List Card) (t : List Nat) (hv : ∀ c ∈ hand, ValidCard c)
    (hm : Marks t hand) (c : Card) (hc : ValidCard c) :
    isDrawn t c = .ok (if c ∈ hand then 1 else 0) := by
  rw [isDrawn_eq t c hc hm.1, hm.2 (offNat c)]
  by_cases hmem : c ∈ hand
  · rw [if_pos (List.mem_map.mpr ⟨c, hmem, rfl⟩), if_pos hmem]; rfl
  · have : offNat c ∉ hand.map offNat := by
      intro h
      obtain ⟨d, hd, e⟩ := List.mem_map.mp h
      exact hmem (offNat_inj d c (hv d hd) hc e ▸ hd)
    rw [if_neg this, if_neg hmem]; rfl

/-! ## More counting arguments -/

theorem rankCount_le_one_of_five_singles (hand : List Card) (h : ValidHand hand)
    (h1 : ranksWithCount hand 1 = 5) (r : Int) : rankCount hand r ≤ 1 := by
  rw [rankCount_eq_count]
  exact List.nodup_iff_count_le_one.mp (nodup_ranks_of_five_singles hand h h1) r

/-- Two distinct cards of one rank have different suits, so a hand of distinct cards with a
rank that occurs twice has no suit that all its cards share. -/
theorem suitCount_lt_of_pair (hand : List Card) (hnd : hand.Nodup) (a : Int)
    (ha : 2 ≤ rankCount hand a) (u : Int) : suitCount hand u < hand.length := by
  apply Nat.lt_of_le_of_ne (List.countP_le_length _)
  intro hall
  have hsuit : ∀ c ∈ hand, c.suit = u := by
    intro c hc
    have := List.countP_eq_length.mp hall c hc
    simpa using this
  have hF : (hand.filter (fun c => decide (c.rank = a))).Nodup := hnd.filter _
  have hlenF : 2 ≤ (hand.filter (fun c => decide (c.rank = a))).length := by
    rw [← List.countP_eq_length_filter]; exact ha
  have hsame : ∀ c ∈ hand.filter (fun c => decide (c.rank = a)), c = (⟨a, u⟩ : Card) := by
    intro c hc
    obtain ⟨hc1, hc2⟩ := List.mem_filter.mp hc
    have e1 : c.rank = a := by simpa using hc2
    have e2 := hsuit c hc1
    obtain ⟨r, v⟩ := c
    simp only at e1 e2
    rw [e1, e2]
  have hsub : hand.filter (fun c => decide (c.rank = a)) ⊆ [(⟨a, u⟩ : Card)] := by
    intro c hc
    simp [hsame c hc]
  have := (List.subperm_of_subset hF hsub).length_le
  simp at this
  omega

theorem suitsWithCount_five_eq_zero (hand : List Card) (hlen : hand.length = 5)
    (hnd : hand.Nodup) (a : Int) (ha : 2 ≤ rankCount hand a) : suitsWithCount hand 5 = 0 := by
  unfold suitsWithCount
  rw [List.length_eq_zero, List.filter_eq_nil_iff]
  intro u _
  have := suitCount_lt_of_pair hand hnd a ha u
  simp only [decide_eq_true_eq]
  omega

theorem ranksWithCount_eq_zero_of_gt (hand : List Card) (k : Nat) (hk : hand.length < k) :
    ranksWithCount hand k = 0 := by
  unfold ranksWithCount
  rw [List.length_eq_zero, List.filter_eq_nil_iff]
  intro r _
  have : rankCount hand r ≤ hand.length := List.countP_le_length _
  simp only [decide_eq_true_eq]
  omega

theorem suitsWithCount_eq_zero_of_gt (hand : List Card) (k : Nat) (hk : hand.length < k) :
    suitsWithCount hand k = 0 := by
  unfold suitsWithCount
  rw [List.length_eq_zero, List.filter_eq_nil_iff]
  intro r _
  have : suitCount hand r ≤ hand.length := List.countP_le_length _
  simp only [decide_eq_true_eq]
  omega

theorem xrank_table_eq (hand : List Card) (h : ValidHand hand) :
    (countsOf hand).xOfAKindTable_rank
      = (List.range DECKSIZE).map (fun k => if k ≤ HANDSIZE then ranksWithCount hand k else 0) := by
  apply List.ext_getElem
  · simp [(countsInv_countsOf hand h).len_xrank]
  · intro k h1 h2
    have := getD_xrank hand h k
    rw [List.getD_eq_getElem?_getD, List.getElem?_eq_getElem h1] at this
    simp only [Option.getD_some] at this
    rw [this, List.getElem_map, List.getElem_range]
    split
    · rfl
    · rename_i hk
      exact ranksWithCount_eq_zero_of_gt hand k (by rw [h.1]; omega)

theorem xsuit_table_eq (hand : List Card) (h : ValidHand hand) :
    (countsOf hand).xOfAKindTable_suit
      = (List.range DECKSIZE).map (fun k => if k ≤ HANDSIZE then suitsWithCount hand k else 0) := by
  apply List.ext_getElem
  · simp [(countsInv_countsOf hand h).len_xsuit]
  · intro k h1 h2
    have := getD_xsuit hand h k
    rw [List.getD_eq_getElem?_getD, List.getElem?_eq_getElem h1] at this
    simp only [Option.getD_some] at this
    rw [this, List.getElem_map, List.getElem_range]
    split
    · rfl
    · rename_i hk
      exact suitsWithCount_eq_zero_of_gt hand k (by rw [h.1]; omega)

/-! ## Completion of `dealHand` -/

theorem cardAt_slot (r : Nat) :
    cardAt initializeDeck (r % DECKSIZE) = .ok (slotCard (r % DECKSIZE)) := by
  have hr : r % DECKSIZE < initializeDeck.length := by
    rw [length_initializeDeck]; exact Nat.mod_lt _ (by decide)
  rw [cardAt_eq _ _ hr]
  simp [slotCard, List.getD_eq_getElem?_getD, List.getElem?_eq_getElem hr]

theorem valid_slotCard (i : Nat) (hi : i < DECKSIZE) : ValidCard (slotCard i) := by
  have hr : i < initializeDeck.length := by rw [length_initializeDeck]; exact hi
  have : slotCard i = initializeDeck[i] := by
    simp [slotCard, List.getD_eq_getElem?_getD, List.getElem?_eq_getElem hr]
  rw [this]
  exact valid_initializeDeck _ (List.getElem_mem _)

theorem slotCard_inj (i j : Nat) (hi : i < DECKSIZE) (hj : j < DECKSIZE)
    (h : slotCard i = slotCard j) : i = j := by
  have hi' : i < initializeDeck.length := by rw [length_initializeDeck]; exact hi
  have hj' : j < initializeDeck.length := by rw [length_initializeDeck]; exact hj
  have ei : slotCard i = initializeDeck[i] := by
    simp [slotCard, List.getD_eq_getElem?_getD, List.getElem?_eq_getElem hi']
  have ej : slotCard j = initializeDeck[j] := by
    simp [slotCard, List.getD_eq_getElem?_getD, List.getElem?_eq_getElem hj']
  rw [ei, ej] at h
  exact (List.Nodup.getElem_inj_iff nodup_initializeDeck).mp h

theorem drawCard_progress (t : List Nat) (dealt : List Card) (hv : ∀ c ∈ dealt, ValidCard c)
    (hm : Marks t dealt) (rands : List Nat) (hfresh : 0 < freshSlots rands dealt) :
    ∃ c rest, drawCard initializeDeck t rands = .ok (c, rest) ∧ ValidCard c ∧ c ∉ dealt ∧
      freshSlots rands dealt ≤ freshSlots rest (dealt ++ [c]) + 1 := by
  induction rands with
  | nil => simp [freshSlots] at hfresh
  | cons r rands ih =>
    have hlt : r % DECKSIZE < DECKSIZE := Nat.mod_lt _ (by decide)
    have hvc := valid_slotCard _ hlt
    rw [drawCard, cardAt_slot, ok_bind, isDrawn_marks dealt t hv hm _ hvc, ok_bind]
    by_cases hmem : slotCard (r % DECKSIZE) ∈ dealt
    · have hsame : freshSlots (r :: rands) dealt = freshSlots rands dealt := by
        unfold freshSlots
        rw [List.map_cons, List.toFinset_cons, Finset.filter_insert, if_neg (by simpa using hmem)]
      rw [hsame] at hfresh ⊢
      simp only [if_pos hmem]
      simpa using ih hfresh
    · simp only [if_neg hmem]
      refine ⟨_, rands, rfl, hvc, hmem, ?_⟩
      unfold freshSlots
      rw [List.map_cons, List.toFinset_cons]
      have hsub : (insert (r % DECKSIZE) (rands.map (fun r => r % DECKSIZE)).toFinset).filter
            (fun i => slotCard i ∉ dealt)
          ⊆ insert (r % DECKSIZE) ((rands.map (fun r => r % DECKSIZE)).toFinset.filter
            (fun i => slotCard i ∉ dealt ++ [slotCard (r % DECKSIZE)])) := by
        intro i hi
        rw [Finset.mem_filter, Finset.mem_insert] at hi
        rw [Finset.mem_insert, Finset.mem_filter]
        rcases hi with ⟨e | hi1, hi2⟩
        · left; exact e
        · by_cases e : i = r % DECKSIZE
          · left; exact e
          · right
            refine ⟨hi1, ?_⟩
            intro hmem'
            rcases List.mem_append.mp hmem' with h1 | h1
            · exact hi2 h1
            · have hi52 : i < DECKSIZE := by
                obtain ⟨r', _, e'⟩ := List.mem_map.mp (List.mem_toFinset.mp hi1)
                rw [← e']; exact Nat.mod_lt _ (by decide)
              exact e (slotCard_inj i _ hi52 hlt (by simpa using h1))
      exact (Finset.card_le_card hsub).trans (Finset.card_insert_le _ _)

theorem dealLoop_completes (n : Nat) (dealt : List Card) (t : List Nat) (rands : List Nat)
    (hv : ∀ c ∈ dealt, ValidCard c) (hm : Marks t dealt) (hfresh : n ≤ freshSlots rands dealt) :
    ∃ hand t' rest, dealLoop initializeDeck n t rands = .ok (hand, t', rest) := by
  induction n generalizing dealt t rands with
  | zero => exact ⟨[], t, rands, rfl⟩
  | succ n ih =>
    obtain ⟨c, rands1, hdc, hvc, _, hle⟩ := drawCard_progress t dealt hv hm rands (by omega)
    have hv1 : ∀ d ∈ dealt ++ [c], ValidCard d := by
      intro d hd
      rcases List.mem_append.mp hd with hd | hd
      · exact hv d hd
      · have : d = c := by simpa using hd
        rw [this]; exact hvc
    obtain ⟨filled, t2, rands2, hdl⟩ :=
      ih (dealt ++ [c]) _ rands1 hv1 (marks_append t dealt c hm hvc) (by omega)
    refine ⟨c :: filled, t2, rands2, ?_⟩
    rw [dealLoop, hdc, ok_bind]
    simp only []
    rw [setDrawn_eq t c 1 hvc hm.1, ok_bind, hdl, ok_bind]
    rfl

/-- From the initialized deck and a drawn-table with no card marked, `dealHand` completes on
every stream of random values that picks at least `HANDSIZE` distinct deck slots. -/
theorem dealHand_completes (rands : List Nat)
    (h : HANDSIZE ≤ (rands.map (fun r => r % DECKSIZE)).toFinset.card) :
    ∃ hand table rest,
      dealHand initializeDeck (List.replicate DECKSIZE 0) rands = .ok (hand, table, rest) := by
  apply dealLoop_completes HANDSIZE [] _ rands (by simp) marks_nil
  unfold freshSlots
  simpa using h

theorem get?_xrank (hand : List Card) (h : ValidHand hand) (k : Nat) (hk : k < DECKSIZE) :
    (countsOf hand).xOfAKindTable_rank.get? k = some (ranksWithCount hand k) := by
  have hlt : k < (countsOf hand).xOfAKindTable_rank.length := by
    rw [(countsInv_countsOf hand h).len_xrank]; exact hk
  have := getD_xrank hand h k
  rw [List.getD_eq_getElem?_getD, List.getElem?_eq_getElem hlt] at this
  rw [List.get?_eq_getElem?, List.getElem?_eq_getElem hlt]
  simpa using this

theorem reachable_after_onePairHand : Reachable (countsOf onePairHand) :=
  Reachable.step Counts.initial _ onePairHand Reachable.initial (by decide) (by decide)

/-! ## Three and four of a kind, flushes, frequency sums -/

theorem rankCount_unique_of_three_le (hand : List Card) (hlen : hand.length = 5) (k : Nat)
    (hk : 3 ≤ k) (a b : Int) (ha : rankCount hand a = k) (hb : rankCount hand b = k) :
    a = b := by
  by_contra hne
  have := rankCount_add_le hand a b hne
  omega

theorem ranksWithCount_eq_one_of_three_le (hand : List Card) (h : ValidHand hand) (k : Nat)
    (hk : 3 ≤ k) : ranksWithCount hand k = 1 ↔ ∃ a, rankCount hand a = k := by
  rw [ranksWithCount_eq_one hand h.2 k (by omega)]
  constructor
  · rintro ⟨a, ha, _⟩
    exact ⟨a, ha⟩
  · rintro ⟨a, ha⟩
    exact ⟨a, ha, fun b hb => rankCount_unique_of_three_le hand h.1 k hk b a hb ha⟩

theorem suitsWithCount_pos (hand : List Card) (hv : ∀ c ∈ hand, ValidCard c) (k : Nat)
    (hk : 0 < k) : 0 < suitsWithCount hand k ↔ ∃ u, suitCount hand u = k := by
  unfold suitsWithCount
  rw [List.length_pos_iff_exists_mem]
  constructor
  · rintro ⟨u, hu⟩
    exact ⟨u, by simpa using (List.mem_filter.mp hu).2⟩
  · rintro ⟨u, hu⟩
    exact ⟨u, List.mem_filter.mpr ⟨suitCount_pos_mem hand hv u (by omega), by simpa using hu⟩⟩

theorem suitCount_eq_length (hand : List Card) (u : Int) :
    suitCount hand u = hand.length ↔ ∀ c ∈ hand, c.suit = u := by
  unfold suitCount
  rw [List.countP_eq_length]
  constructor
  · intro h c hc; simpa using h c hc
  · intro h c hc; simpa using h c hc

/-- What `isFlush` computes, in terms of the hand. -/
theorem isFlush_iff (hand : List Card) (h : ValidHand hand) :
    isFlush (countsOf hand) = .ok 1 ↔ ∃ u, ∀ c ∈ hand, c.suit = u := by
  have hlen : hand.length = 5 := h.1
  have hpos := suitsWithCount_pos hand h.2 5 (by decide)
  rw [isFlush_countsOf hand h]
  constructor
  · intro hf
    by_cases hp : suitsWithCount hand 5 > 0
    · obtain ⟨u, hu⟩ := hpos.mp hp
      exact ⟨u, (suitCount_eq_length hand u).mp (by rw [hu, hlen])⟩
    · rw [if_neg hp] at hf
      exact absurd (Except.ok.inj hf) (by decide)
  · rintro ⟨u, hu⟩
    have hp : suitsWithCount hand 5 > 0 :=
      hpos.mpr ⟨u, by rw [(suitCount_eq_length hand u).mpr hu, hlen]⟩
    rw [if_pos hp]

theorem sum_map_indicator_eq_one (L : List Int) (hL : L.Nodup) (x : Int) (hx : x ∈ L) :
    (L.map (fun r => if x = r then 1 else 0)).sum = 1 := by
  induction L with
  | nil => simp at hx
  | cons a L ih =>
    have hnd := List.nodup_cons.mp hL
    rw [List.map_cons, List.sum_cons]
    by_cases h : x = a
    · subst h
      have : (L.map (fun r => if x = r then 1 else 0)).sum = 0 := by
        apply List.sum_eq_zero
        intro n hn
        obtain ⟨r, hr, e⟩ := List.mem_map.mp hn
        have : x ≠ r := fun e' => hnd.1 (e' ▸ hr)
        simp [this] at e
        exact e.symm
      simp [this]
    · have hxL : x ∈ L := by
        rcases List.mem_cons.mp hx with e | e
        · exact absurd e h
        · exact e
      have := ih hnd.2 hxL
      simp [h]
      exact this

theorem sum_countP_key (key : Card → Int) (L : List Int) (hL : L.Nodup) (hand : List Card)
    (hkey : ∀ c ∈ hand, key c ∈ L) :
    (L.map (fun r => hand.countP (fun c => decide (key c = r)))).sum = hand.length := by
  induction hand with
  | nil =>
    have : (L.map (fun r => ([] : List Card).countP (fun c => decide (key c = r)))).sum = 0 := by
      apply List.sum_eq_zero
      intro n hn
      obtain ⟨r, _, e⟩ := List.mem_map.mp hn
      rw [← e]; rfl
    simp [this]
  | cons c hand ih =>
    have hsplit : ∀ M : List Int,
        (M.map (fun r => (c :: hand).countP (fun c => decide (key c = r)))).sum
        = (M.map (fun r => hand.countP (fun c => decide (key c = r)))).sum
          + (M.map (fun r => if key c = r then 1 else 0)).sum := by
      intro M
      induction M with
      | nil => rfl
      | cons a M ihM =>
        simp only [List.map_cons, List.sum_cons, ihM]
        have : (c :: hand).countP (fun c => decide (key c = a))
            = hand.countP (fun c => decide (key c = a)) + (if key c = a then 1 else 0) := by
          simp only [List.countP_cons]
          by_cases h : key c = a <;> simp [h]
        rw [this]
        omega
    rw [hsplit L, ih (fun d hd => hkey d (by simp [hd])),
      sum_map_indicator_eq_one L hL (key c) (hkey c (by simp)), List.length_cons]

theorem sum_countTable_rank (hand : List Card) (hv : ∀ c ∈ hand, ValidCard c) :
    (countsOf hand).countTable_rank.sum = hand.length := by
  rw [countTable_rank_eq hand hv]
  exact sum_countP_key Card.rank allRanks nodup_allRanks hand
    (fun c hc => (mem_allRanks c.rank).mpr ⟨(hv c hc).1, (hv c hc).2.1⟩)

theorem sum_countTable_suit (hand : List Card) (hv : ∀ c ∈ hand, ValidCard c) :
    (countsOf hand).countTable_suit.sum = hand.length := by
  rw [countTable_suit_eq hand hv]
  exact sum_countP_key Card.suit allSuits nodup_allSuits hand
    (fun c hc => (mem_allSuits c.suit).mpr ⟨(hv c hc).2.2.1, (hv c hc).2.2.2⟩)

/-! ## The draw tracker as a map -/

theorem unsignedToInt_intToUnsigned_bit (v : Int) (hv : v = 0 ∨ v = 1) :
    unsignedToInt (intToUnsigned v) = v := by
  rcases hv with e | e <;> subst e <;> decide

theorem isDrawn_setDrawn_same (t : List Nat) (c : Card) (v : Int) (hc : ValidCard c)
    (ht : t.length = DECKSIZE) :
    isDrawn (t.set (offNat c) (intToUnsigned v)) c = .ok (unsignedToInt (intToUnsigned v)) := by
  rw [isDrawn_eq _ c hc (by simp [ht]), getD_set]
  have : offNat c < t.length := by rw [ht]; exact offNat_lt c hc
  simp [this]

theorem isDrawn_setDrawn_other (t : List Nat) (c d : Card) (v : Int) (hc : ValidCard c)
    (hd : ValidCard d) (hne : c ≠ d) (ht : t.length = DECKSIZE) :
    isDrawn (t.set (offNat c) (intToUnsigned v)) d = isDrawn t d := by
  rw [isDrawn_eq _ d hd (by simp [ht]), isDrawn_eq t d hd ht, getD_set]
  have : offNat c ≠ offNat d := fun e => hne (offNat_inj c d hc hd e)
  simp [this]

theorem set_set_same (t : List Nat) (i v : Nat) : (t.set i v).set i v = t.set i v := by
  simp

/-! ## Odds display -/

theorem oddsAgainst_eq (handsDealt counter : Nat) :
    oddsAgainst handsDealt counter = .ok (if 0 < counter then handsDealt / counter else 0) := by
  unfold oddsAgainst divUnsigned
  by_cases h : counter = 0
  · subst h; rfl
  · have hpos : 0 < counter := Nat.pos_of_ne_zero h
    simp [h, hpos]

theorem displayOdds_eq (t : Tally) (handsDealt : Nat) :
    displayOdds t handsDealt = .ok
      { onePair := if 0 < t.onePair then handsDealt / t.onePair else 0
        twoPair := if 0 < t.twoPair then handsDealt / t.twoPair else 0
        threeOfAKind := if 0 < t.threeOfAKind then handsDealt / t.threeOfAKind else 0
        fourOfAKind := if 0 < t.fourOfAKind then handsDealt / t.fourOfAKind else 0
        straight := if 0 < t.straight then handsDealt / t.straight else 0
        flush := if 0 < t.flush then handsDealt / t.flush else 0
        fullHouse := if 0 < t.fullHouse then handsDealt / t.fullHouse else 0 } := by
  unfold displayOdds
  simp only [oddsAgainst_eq, ok_bind]
  rfl

/-! ## One cycle of the simulation loop -/

theorem addTo_bit (counter n : Nat) (p : Int) (hp : p = 0 ∨ p = 1) (hc : counter ≤ n)
    (hn : n + 1 < UINT_MOD) :
    (addTo counter p = counter ∨ addTo counter p = counter + 1) ∧ addTo counter p ≤ n + 1 := by
  have h0 : intToUnsigned 0 = 0 := by decide
  have h1 : intToUnsigned 1 = 1 := by decide
  rcases hp with e | e
  · subst e
    have : addTo counter 0 = counter := by
      unfold addTo; rw [h0, Nat.add_zero, Nat.mod_eq_of_lt (by omega)]
    rw [this]; exact ⟨Or.inl rfl, by omega⟩
  · subst e
    have : addTo counter 1 = counter + 1 := by
      unfold addTo; rw [h1, Nat.mod_eq_of_lt (by omega)]
    rw [this]; exact ⟨Or.inr rfl, by omega⟩

theorem bit_ite (P : Prop) [Decidable P] : (if P then (1 : Int) else 0) = 0 ∨
    (if P then (1 : Int) else 0) = 1 := by
  by_cases h : P
  · right; rw [if_pos h]
  · left; rw [if_neg h]

/-- On the state left by `countHand` each of the seven predicates returns 0 or 1, and
`classifyHand` adds what they return. -/
theorem classifyHand_bits (hand : List Card) (h : ValidHand hand) (t : Tally) :
    ∃ p1 p2 p3 p4 p5 p6 p7 : Int,
      (p1 = 0 ∨ p1 = 1) ∧ (p2 = 0 ∨ p2 = 1) ∧ (p3 = 0 ∨ p3 = 1) ∧ (p4 = 0 ∨ p4 = 1) ∧
      (p5 = 0 ∨ p5 = 1) ∧ (p6 = 0 ∨ p6 = 1) ∧ (p7 = 0 ∨ p7 = 1) ∧
      classifyHand t (countsOf hand) = .ok
        { onePair := addTo t.onePair p1, twoPair := addTo t.twoPair p2,
          threeOfAKind := addTo t.threeOfAKind p3, fourOfAKind := addTo t.fourOfAKind p4,
          straight := addTo t.straight p5, flush := addTo t.flush p6,
          fullHouse := addTo t.fullHouse p7 } := by
  obtain ⟨p1, p2, p3, p4, p5, p6, p7, q1, q2, q3, q4, q5, q6, q7, hc⟩ :=
    classifyHand_countsOf hand h t
  rw [isOnePair_countsOf hand h] at q1
  rw [isTwoPair_countsOf hand h] at q2
  rw [isThreeOfAKind_countsOf hand h] at q3
  rw [isFourOfAKind_countsOf hand h] at q4
  rw [isStraight_countsOf hand h] at q5
  rw [isFlush_countsOf hand h] at q6
  rw [isFullHouse_countsOf hand h] at q7
  refine ⟨p1, p2, p3, p4, p5, p6, p7, ?_, ?_, ?_, ?_, ?_, ?_, ?_, hc⟩
  · rw [← Except.ok.inj q1]; exact bit_ite _
  · rw [← Except.ok.inj q2]; exact bit_ite _
  · rw [← Except.ok.inj q3]; exact bit_ite _
  · rw [← Except.ok.inj q4]; exact bit_ite _
  · rw [← Except.ok.inj q5]
    by_cases h1 : ranksWithCount hand 1 = 5
    · rw [if_pos h1]; exact bit_ite _
    · rw [if_neg h1]; exact Or.inl rfl
  · rw [← Except.ok.inj q6]; exact bit_ite _
  · rw [← Except.ok.inj q7]; exact bit_ite _

/-- One execution of the loop body from a state with no card marked drawn: if it returns, a
valid hand was dealt and counted, every counter grew by what its predicate returned, and no
card is marked drawn afterwards. -/
theorem simBody_spec (s s1 : Sim) (ht : s.drawnTable = List.replicate DECKSIZE 0)
    (hc : CountsInv s.counts) (h : simBody initializeDeck s = .ok s1) :
    s1.totalHandsDealt = s.totalHandsDealt ∧ s1.drawnTable = List.replicate DECKSIZE 0 ∧
    (∃ hand, ValidHand hand ∧ hand.Nodup ∧ s1.counts = countsOf hand) ∧
    ∃ p1 p2 p3 p4 p5 p6 p7 : Int,
      (p1 = 0 ∨ p1 = 1) ∧ (p2 = 0 ∨ p2 = 1) ∧ (p3 = 0 ∨ p3 = 1) ∧ (p4 = 0 ∨ p4 = 1) ∧
      (p5 = 0 ∨ p5 = 1) ∧ (p6 = 0 ∨ p6 = 1) ∧ (p7 = 0 ∨ p7 = 1) ∧
      s1.tally =
        { onePair := addTo s.tally.onePair p1, twoPair := addTo s.tally.twoPair p2,
          threeOfAKind := addTo s.tally.threeOfAKind p3,
          fourOfAKind := addTo s.tally.fourOfAKind p4,
          straight := addTo s.tally.straight p5, flush := addTo s.tally.flush p6,
          fullHouse := addTo s.tally.fullHouse p7 } := by
  unfold simBody at h
  rw [ht] at h
  cases hd : dealHand initializeDeck (List.replicate DECKSIZE 0) s.rands with
  | error e => rw [hd] at h; cases h
  | ok r =>
    obtain ⟨hand, table1, rands1⟩ := r
    obtain ⟨d1, d2, d3, d4⟩ := dealHand_spec s.rands hand table1 rands1 hd
    have hv : ValidHand hand := ⟨d1, d2⟩
    obtain ⟨p1, p2, p3, p4, p5, p6, p7, b1, b2, b3, b4, b5, b6, b7, hcl⟩ :=
      classifyHand_bits hand hv s.tally
    rw [hd, ok_bind] at h
    simp only [] at h
    rw [countHand_eq s.counts hc hand hv, ok_bind, hcl, ok_bind,
      returnHand_marks hand table1 d1 d2 d4, ok_bind, displayOdds_eq] at h
    by_cases hm : s.totalHandsDealt % DISPLAY_REALTIME_FREQ = 0
    · rw [if_pos hm, ok_bind] at h
      have h' := Except.ok.inj h
      subst h'
      exact ⟨rfl, rfl, ⟨hand, hv, d3, rfl⟩, p1, p2, p3, p4, p5, p6, p7,
        b1, b2, b3, b4, b5, b6, b7, rfl⟩
    · rw [if_neg hm] at h
      have h' := Except.ok.inj h
      subst h'
      exact ⟨rfl, rfl, ⟨hand, hv, d3, rfl⟩, p1, p2, p3, p4, p5, p6, p7,
        b1, b2, b3, b4, b5, b6, b7, rfl⟩

theorem simBody_tally (s s1 : Sim) (n : Nat) (ht : s.drawnTable = List.replicate DECKSIZE 0)
    (hc : CountsInv s.counts) (hle : s.tally.AllLe n) (hn : n + 1 < UINT_MOD)
    (h : simBody initializeDeck s = .ok s1) :
    s.tally.AddsBit s1.tally ∧ s1.tally.AllLe (n + 1) := by
  obtain ⟨_, _, _, p1, p2, p3, p4, p5, p6, p7, b1, b2, b3, b4, b5, b6, b7, e⟩ :=
    simBody_spec s s1 ht hc h
  obtain ⟨l1, l2, l3, l4, l5, l6, l7⟩ := hle
  have a1 := addTo_bit _ n p1 b1 l1 hn
  have a2 := addTo_bit _ n p2 b2 l2 hn
  have a3 := addTo_bit _ n p3 b3 l3 hn
  have a4 := addTo_bit _ n p4 b4 l4 hn
  have a5 := addTo_bit _ n p5 b5 l5 hn
  have a6 := addTo_bit _ n p6 b6 l6 hn
  have a7 := addTo_bit _ n p7 b7 l7 hn
  rw [e]
  exact ⟨⟨a1.1, a2.1, a3.1, a4.1, a5.1, a6.1, a7.1⟩, ⟨a1.2, a2.2, a3.2, a4.2, a5.2, a6.2, a7.2⟩⟩

/-! ## The simulation loop -/

theorem allLe_processStart (rands : List Nat) : (Sim.processStart rands).tally.AllLe 0 := by
  simp [Sim.processStart, Tally.AllLe]

/-- Invariant of the loop of `simulatePokerOdds` started at process start: when the test is
evaluated after `k` hands, `totalHandsDealt` is `k`, no card is marked drawn, the count tables
satisfy their invariant, no counter exceeds `k`, and `k` is 0 or below `draws+1` taken
modulo 2^32. -/
theorem visits_inv (draws : Nat) (rands : List Nat) (k : Nat) (s : Sim)
    (h : Visits initializeDeck draws (Sim.processStart rands) k s) :
    s.totalHandsDealt = k ∧ (k = 0 ∨ k < (draws + 1) % UINT_MOD) ∧
    s.drawnTable = List.replicate DECKSIZE 0 ∧ CountsInv s.counts ∧ s.tally.AllLe k := by
  induction h with
  | start => exact ⟨rfl, Or.inl rfl, rfl, CountsInv.initial, allLe_processStart rands⟩
  | cycle k s s1 _ htest hbody ih =>
    obtain ⟨i1, i2, i3, i4, i5⟩ := ih
    have hM : (draws + 1) % UINT_MOD < UINT_MOD := Nat.mod_lt _ (by decide)
    have hk : k + 1 < UINT_MOD := by
      rcases i2 with e | e
      · rw [e]; decide
      · omega
    have htest' : (k + 1) % UINT_MOD < (draws + 1) % UINT_MOD := by
      have := htest
      simp only [loopTest, decide_eq_true_eq, i1] at this
      exact this
    rw [Nat.mod_eq_of_lt hk] at htest'
    obtain ⟨b1, b2, ⟨hand, hv, _, hcnt⟩, _⟩ :=
      simBody_spec (loopTest draws s).2 s1 i3 i4 hbody
    have htal := simBody_tally (loopTest draws s).2 s1 k i3 i4 i5 hk hbody
    refine ⟨?_, Or.inr htest', b2, ?_, htal.2⟩
    · rw [b1]
      show (s.totalHandsDealt + 1) % UINT_MOD = k + 1
      rw [i1, Nat.mod_eq_of_lt hk]
    · rw [hcnt]; exact countsInv_countsOf hand hv

theorem visits_le (draws : Nat) (rands : List Nat) (k : Nat) (s : Sim)
    (h : Visits initializeDeck draws (Sim.processStart rands) k s) :
    k ≤ draws ∧ k + 1 < UINT_MOD := by
  obtain ⟨_, i2, _⟩ := visits_inv draws rands k s h
  have hM : (draws + 1) % UINT_MOD < UINT_MOD := Nat.mod_lt _ (by decide)
  have hle : (draws + 1) % UINT_MOD ≤ draws + 1 := Nat.mod_le _ _
  rcases i2 with e | e
  · rw [e]; exact ⟨Nat.zero_le _, by decide⟩
  · omega

/-- A run of the loop that returns ends in a state in which the test was evaluated and
failed, with the counter incremented by that test. -/
theorem simLoop_visits (deck : List Card) (draws : Nat) (s0 : Sim) (fuel : Nat) :
    ∀ (k : Nat) (s s' : Sim), Visits deck draws s0 k s → simLoop deck draws fuel s = .ok s' →
      ∃ n sN, Visits deck draws s0 n sN ∧ (loopTest draws sN).1 = false ∧
        s' = (loopTest draws sN).2 := by
  induction fuel with
  | zero => intro k s s' _ h; simp [simLoop] at h
  | succ fuel ih =>
    intro k s s' hv h
    rw [simLoop] at h
    by_cases ht : (loopTest draws s).1 = true
    · rw [if_pos ht] at h
      cases hb : simBody deck (loopTest draws s).2 with
      | error e => rw [hb] at h; cases h
      | ok s1 =>
        rw [hb, ok_bind] at h
        exact ih (k + 1) s1 s' (Visits.cycle k s s1 hv ht hb) h
    · rw [if_neg ht] at h
      exact ⟨k, s, hv, by simpa using ht, (Except.ok.inj h).symm⟩

/-- With `numHands > 0` and `handsDealt` at most `numHands + 1`, the percentage of
`displayStatus` is at most 200 and the call has a defined value. -/
theorem displayStatus_eq (handsDealt numHands : Nat) (hn : 0 < numHands)
    (hh : handsDealt ≤ numHands + 1) : displayStatus handsDealt numHands = .ok () := by
  have hlt : handsDealt * 100 / numHands < 2147483648 := by
    apply Nat.div_lt_of_lt_mul
    omega
  rw [displayStatus, if_neg (by omega), if_pos hlt]
  rfl

/-- In every state in which the body of the loop runs, started at process start, the call
`displayStatus(..., totalHandsDealt, draws)` of the source has a defined value. -/
theorem displayStatus_in_loop (draws : Nat) (rands : List Nat) (k : Nat) (s : Sim)
    (h : Visits initializeDeck draws (Sim.processStart rands) k s)
    (ht : (loopTest draws s).1 = true) :
    displayStatus (loopTest draws s).2.totalHandsDealt draws = .ok () := by
  obtain ⟨i1, _⟩ := visits_inv draws rands k s h
  obtain ⟨_, hk⟩ := visits_le draws rands k s h
  have htest : (k + 1) % UINT_MOD < (draws + 1) % UINT_MOD := by
    have := ht
    simp only [loopTest, decide_eq_true_eq, i1] at this
    exact this
  rw [Nat.mod_eq_of_lt hk] at htest
  have hle : (draws + 1) % UINT_MOD ≤ draws + 1 := Nat.mod_le _ _
  have hval : (loopTest draws s).2.totalHandsDealt = k + 1 := by
    show (s.totalHandsDealt + 1) % UINT_MOD = k + 1
    rw [i1, Nat.mod_eq_of_lt hk]
  rw [hval]
  exact displayStatus_eq (k + 1) draws (by omega) (by omega)

/-- What a run of `simulatePokerOdds` from process start leaves when it returns: the loop
dealt `n` hands, where `n` is `draws` when `draws+1` does not wrap and 0 when it does, and the
final call of `displayOdds` is given `n + 1`. -/
theorem simulatePokerOdds_spec (draws : Nat) (rt : Int) (fuel : Nat) (rands : List Nat)
    (s' : Sim) (hd : draws < UINT_MOD)
    (h : simulatePokerOdds draws rt fuel (Sim.processStart rands) = .ok s') :
    ∃ n sN, Visits initializeDeck draws (Sim.processStart rands) n sN ∧
      n = (if draws + 1 < UINT_MOD then draws else 0) ∧
      s'.totalHandsDealt = n + 1 ∧ s'.tally = sN.tally ∧ s'.rands = sN.rands ∧
      ∃ row, displayOdds sN.tally (n + 1) = .ok row ∧ s'.shown = sN.shown ++ [row] := by
  unfold simulatePokerOdds at h
  have hstart : ({ Sim.processStart rands with totalHandsDealt := 0 } : Sim)
      = Sim.processStart rands := rfl
  simp only [] at h
  rw [hstart] at h
  cases hl : simLoop initializeDeck draws fuel (Sim.processStart rands) with
  | error e => rw [hl] at h; cases h
  | ok sL =>
    obtain ⟨n, sN, hv, htest, hsL⟩ :=
      simLoop_visits initializeDeck draws _ fuel 0 _ sL Visits.start hl
    obtain ⟨i1, i2, _⟩ := visits_inv draws rands n sN hv
    obtain ⟨_, hn⟩ := visits_le draws rands n sN hv
    have htest' : ¬ (n + 1) % UINT_MOD < (draws + 1) % UINT_MOD := by
      have := htest
      simp only [loopTest, decide_eq_false_iff_not, i1] at this
      exact this
    rw [Nat.mod_eq_of_lt hn] at htest'
    have hle : (draws + 1) % UINT_MOD ≤ draws + 1 := Nat.mod_le _ _
    have hn' : n = (if draws + 1 < UINT_MOD then draws else 0) := by
      by_cases hw : draws + 1 < UINT_MOD
      · rw [if_pos hw]
        rw [Nat.mod_eq_of_lt hw] at htest' i2
        omega
      · rw [if_neg hw]
        have : draws + 1 = UINT_MOD := by omega
        rw [this, Nat.mod_self] at i2
        omega
    have hsLt : sL.totalHandsDealt = n + 1 := by
      rw [hsL]
      show (sN.totalHandsDealt + 1) % UINT_MOD = n + 1
      rw [i1, Nat.mod_eq_of_lt hn]
    have hrowL : displayOdds sL.tally sL.totalHandsDealt = displayOdds sN.tally (n + 1) := by
      rw [hsLt, hsL]; rfl
    rw [hl, ok_bind, hrowL, displayOdds_eq, ok_bind] at h
    cases hst : displayStatus sL.totalHandsDealt draws with
    | error e => rw [hst] at h; cases h
    | ok u =>
    rw [hst, ok_bind] at h
    have h' := Except.ok.inj h
    subst h'
    exact ⟨n, sN, hv, hn', hsLt, by rw [hsL]; rfl, by rw [hsL]; rfl, _,
      displayOdds_eq sN.tally (n + 1), by rw [hsL]; rfl⟩

/-! ## Runs return when the budget and the random stream suffice -/

theorem drawCard_error (t : List Nat) (dealt : List Card) (hv : ∀ c ∈ dealt, ValidCard c)
    (hm : Marks t dealt) (rands : List Nat) (e : Fault)
    (h : drawCard initializeDeck t rands = .error e) : e = Fault.randExhausted := by
  induction rands with
  | nil =>
    rw [drawCard] at h
    exact (Except.error.inj h).symm
  | cons r rands ih =>
    have hlt : r % DECKSIZE < DECKSIZE := Nat.mod_lt _ (by decide)
    have hvc := valid_slotCard _ hlt
    rw [drawCard, cardAt_slot, ok_bind, isDrawn_marks dealt t hv hm _ hvc, ok_bind] at h
    by_cases hmem : slotCard (r % DECKSIZE) ∈ dealt
    · simp only [if_pos hmem] at h
      exact ih (by simpa using h)
    · simp only [if_neg hmem] at h
      simp at h
      cases h

theorem marks_zero_one (t : List Nat) (dealt : List Card) (hm : Marks t dealt) (j : Nat) :
    t.getD j 0 = 0 ∨ t.getD j 0 = 1 := by
  rw [hm.2 j]; split <;> simp

theorem dealLoop_error (n : Nat) (dealt : List Card) (t : List Nat) (rands : List Nat)
    (hv : ∀ c ∈ dealt, ValidCard c) (hm : Marks t dealt) (e : Fault)
    (h : dealLoop initializeDeck n t rands = .error e) : e = Fault.randExhausted := by
  induction n generalizing dealt t rands with
  | zero => rw [dealLoop] at h; cases h
  | succ n ih =>
    rw [dealLoop] at h
    cases hdc : drawCard initializeDeck t rands with
    | error e' =>
      rw [hdc] at h
      have : e' = e := Except.error.inj h
      rw [← this]
      exact drawCard_error t dealt hv hm rands e' hdc
    | ok p =>
      obtain ⟨c, rands1⟩ := p
      obtain ⟨hvc, _⟩ := drawCard_spec t hm.1 (marks_zero_one t dealt hm) rands c rands1 hdc
      rw [hdc, ok_bind] at h
      simp only [] at h
      rw [setDrawn_eq t c 1 hvc hm.1, ok_bind] at h
      have hv1 : ∀ d ∈ dealt ++ [c], ValidCard d := by
        intro d hd
        rcases List.mem_append.mp hd with hd | hd
        · exact hv d hd
        · have : d = c := by simpa using hd
          rw [this]; exact hvc
      cases hdl : dealLoop initializeDeck n (t.set (offNat c) (intToUnsigned 1)) rands1 with
      | error e' =>
        rw [hdl] at h
        have : e' = e := Except.error.inj h
        subst this
        exact ih (dealt ++ [c]) _ rands1 hv1 (marks_append t dealt c hm hvc) hdl
      | ok q =>
        rw [hdl, ok_bind] at h
        cases h

/-- From a state with no card marked drawn, the body of the loop returns as soon as the deal
does, and what it leaves is determined by the hand dealt. -/
theorem simBody_of_deal (s : Sim) (hand : List Card) (table1 rands1 : List Nat)
    (ht : s.drawnTable = List.replicate DECKSIZE 0) (hc : CountsInv s.counts)
    (hd : dealHand initializeDeck (List.replicate DECKSIZE 0) s.rands
      = .ok (hand, table1, rands1)) :
    ∃ s1, simBody initializeDeck s = .ok s1 ∧ s1.rands = rands1 := by
  obtain ⟨d1, d2, _, d4⟩ := dealHand_spec s.rands hand table1 rands1 hd
  have hv : ValidHand hand := ⟨d1, d2⟩
  obtain ⟨p1, p2, p3, p4, p5, p6, p7, _, _, _, _, _, _, _, hcl⟩ :=
    classifyHand_bits hand hv s.tally
  unfold simBody
  rw [ht, hd, ok_bind]
  simp only []
  rw [countHand_eq s.counts hc hand hv, ok_bind, hcl, ok_bind,
    returnHand_marks hand table1 d1 d2 d4, ok_bind, displayOdds_eq]
  by_cases hm : s.totalHandsDealt % DISPLAY_REALTIME_FREQ = 0
  · rw [if_pos hm, ok_bind]
    exact ⟨_, rfl, rfl⟩
  · rw [if_neg hm]
    exact ⟨_, rfl, rfl⟩

theorem simBody_error (s : Sim) (ht : s.drawnTable = List.replicate DECKSIZE 0)
    (hc : CountsInv s.counts) (e : Fault) (h : simBody initializeDeck s = .error e) :
    e = Fault.randExhausted := by
  cases hd : dealHand initializeDeck (List.replicate DECKSIZE 0) s.rands with
  | error e' =>
    have he := dealLoop_error HANDSIZE [] _ s.rands (by simp) marks_nil e' hd
    unfold simBody at h
    rw [ht, hd] at h
    have : e' = e := Except.error.inj h
    rw [← this]; exact he
  | ok r =>
    obtain ⟨hand, table1, rands1⟩ := r
    obtain ⟨s1, hs1, _⟩ := simBody_of_deal s hand table1 rands1 ht hc hd
    rw [hs1] at h
    cases h

theorem simLoop_error (draws : Nat) (rands : List Nat) (fuel : Nat) :
    ∀ (k : Nat) (s : Sim) (e : Fault),
      Visits initializeDeck draws (Sim.processStart rands) k s → draws < k + fuel →
      simLoop initializeDeck draws fuel s = .error e → e = Fault.randExhausted := by
  induction fuel with
  | zero =>
    intro k s e hv hf _
    have := (visits_le draws rands k s hv).1
    omega
  | succ fuel ih =>
    intro k s e hv hf h
    obtain ⟨i1, _, i3, i4, _⟩ := visits_inv draws rands k s hv
    rw [simLoop] at h
    by_cases ht : (loopTest draws s).1 = true
    · rw [if_pos ht] at h
      cases hb : simBody initializeDeck (loopTest draws s).2 with
      | error e' =>
        rw [hb] at h
        have : e' = e := Except.error.inj h
        rw [← this]
        exact simBody_error (loopTest draws s).2 i3 i4 e' hb
      | ok s1 =>
        rw [hb, ok_bind] at h
        exact ih (k + 1) s1 e (Visits.cycle k s s1 hv ht hb) (by omega) h
    · rw [if_neg ht] at h
      cases h

/-- For `draws > 0` and a budget above `draws`, a run of `simulatePokerOdds` from process
start returns unless the stream of random values runs out: it never stops on an access outside
a table, on a division by zero, on a conversion, or for lack of budget. -/
theorem simulatePokerOdds_returns_or_starves (draws : Nat) (rt : Int) (fuel : Nat)
    (rands : List Nat) (hd : 0 < draws) (hf : draws < fuel) :
    (∃ s', simulatePokerOdds draws rt fuel (Sim.processStart rands) = .ok s') ∨
    simulatePokerOdds draws rt fuel (Sim.processStart rands) = .error Fault.randExhausted := by
  have hstart : ({ Sim.processStart rands with totalHandsDealt := 0 } : Sim)
      = Sim.processStart rands := rfl
  unfold simulatePokerOdds
  simp only []
  rw [hstart]
  cases hl : simLoop initializeDeck draws fuel (Sim.processStart rands) with
  | error e =>
    right
    rw [simLoop_error draws rands fuel 0 _ e Visits.start (by omega) hl]
    rfl
  | ok sL =>
    left
    obtain ⟨n, sN, hv, _, hsL⟩ :=
      simLoop_visits initializeDeck draws _ fuel 0 _ sL Visits.start hl
    obtain ⟨i1, _⟩ := visits_inv draws rands n sN hv
    obtain ⟨hn, hn1⟩ := visits_le draws rands n sN hv
    have hsLt : sL.totalHandsDealt = n + 1 := by
      rw [hsL]
      show (sN.totalHandsDealt + 1) % UINT_MOD = n + 1
      rw [i1, Nat.mod_eq_of_lt hn1]
    rw [ok_bind, displayOdds_eq, ok_bind, hsLt,
      displayStatus_eq (n + 1) draws hd (by omega), ok_bind]
    exact ⟨_, rfl⟩

theorem drawCard_fresh (t : List Nat) (dealt : List Card) (hv : ∀ c ∈ dealt, ValidCard c)
    (hm : Marks t dealt) (r : Nat) (rest : List Nat)
    (hfresh : slotCard (r % DECKSIZE) ∉ dealt) :
    drawCard initializeDeck t (r :: rest) = .ok (slotCard (r % DECKSIZE), rest) := by
  have hlt : r % DECKSIZE < DECKSIZE := Nat.mod_lt _ (by decide)
  have hvc := valid_slotCard _ hlt
  rw [drawCard, cardAt_slot, ok_bind, isDrawn_marks dealt t hv hm _ hvc, ok_bind]
  simp only [if_neg hfresh]
  rfl

/-- On a block of random values that pick pairwise distinct deck slots, none of them dealt
yet, the deal loop takes one card per value and leaves what follows the block. -/
theorem dealLoop_block (b : List Nat) :
    ∀ (dealt : List Card) (t rest : List Nat), (∀ c ∈ dealt, ValidCard c) → Marks t dealt →
      (∀ r ∈ b, slotCard (r % DECKSIZE) ∉ dealt) → (b.map (fun r => r % DECKSIZE)).Nodup →
      ∃ hand t', dealLoop initializeDeck b.length t (b ++ rest) = .ok (hand, t', rest) := by
  induction b with
  | nil => intro dealt t rest _ _ _ _; exact ⟨[], t, rfl⟩
  | cons r b ih =>
    intro dealt t rest hv hm hfresh hnd
    have hlt : r % DECKSIZE < DECKSIZE := Nat.mod_lt _ (by decide)
    have hvc := valid_slotCard _ hlt
    have hnd' : r % DECKSIZE ∉ b.map (fun r => r % DECKSIZE) ∧
        (b.map (fun r => r % DECKSIZE)).Nodup := by
      rw [List.map_cons] at hnd
      exact List.nodup_cons.mp hnd
    have hv1 : ∀ d ∈ dealt ++ [slotCard (r % DECKSIZE)], ValidCard d := by
      intro d hd
      rcases List.mem_append.mp hd with hd | hd
      · exact hv d hd
      · have : d = slotCard (r % DECKSIZE) := by simpa using hd
        rw [this]; exact hvc
    have hfresh1 : ∀ r' ∈ b,
        slotCard (r' % DECKSIZE) ∉ dealt ++ [slotCard (r % DECKSIZE)] := by
      intro r' hr' hmem
      rcases List.mem_append.mp hmem with h1 | h1
      · exact hfresh r' (by simp [hr']) h1
      · have e : slotCard (r' % DECKSIZE) = slotCard (r % DECKSIZE) := by simpa using h1
        have := slotCard_inj _ _ (Nat.mod_lt _ (by decide)) hlt e
        exact hnd'.1 (List.mem_map.mpr ⟨r', hr', this⟩)
    obtain ⟨hand, t', hdl⟩ := ih (dealt ++ [slotCard (r % DECKSIZE)])
      (t.set (offNat (slotCard (r % DECKSIZE))) (intToUnsigned 1)) rest hv1
      (marks_append t dealt _ hm hvc) hfresh1 hnd'.2
    refine ⟨slotCard (r % DECKSIZE) :: hand, t', ?_⟩
    rw [List.length_cons, dealLoop, List.cons_append,
      drawCard_fresh t dealt hv hm r (b ++ rest) (hfresh r (by simp)), ok_bind]
    simp only []
    rw [setDrawn_eq t _ 1 hvc hm.1, ok_bind, hdl, ok_bind]
    rfl

theorem dealHand_block (b rest : List Nat) (hlen : b.length = HANDSIZE)
    (hnd : (b.map (fun r => r % DECKSIZE)).Nodup) :
    ∃ hand t', dealHand initializeDeck (List.replicate DECKSIZE 0) (b ++ rest)
      = .ok (hand, t', rest) := by
  unfold dealHand
  rw [← hlen]
  exact dealLoop_block b [] _ rest (by simp) marks_nil (by simp) hnd

theorem simLoop_blocks (draws : Nat) (rands extra : List Nat) (hd : draws + 1 < UINT_MOD)
    (blocks : List (List Nat)) :
    ∀ (k fuel : Nat) (s : Sim), Visits initializeDeck draws (Sim.processStart rands) k s →
      s.rands = blocks.flatten ++ extra → k + blocks.length = draws →
      (∀ b ∈ blocks, b.length = HANDSIZE ∧ (b.map (fun r => r % DECKSIZE)).Nodup) →
      blocks.length < fuel →
      ∃ s', simLoop initializeDeck draws fuel s = .ok s' ∧ s'.rands = extra := by
  induction blocks with
  | nil =>
    intro k fuel s hv hr hk _ hf
    obtain ⟨i1, _⟩ := visits_inv draws rands k s hv
    obtain ⟨fuel', rfl⟩ : ∃ f, fuel = f + 1 := ⟨fuel - 1, by simp at hf; omega⟩
    have hk' : k = draws := by simpa using hk
    have ht : (loopTest draws s).1 = false := by
      simp only [loopTest, decide_eq_false_iff_not, i1, hk', Nat.lt_irrefl, not_false_eq_true]
    rw [simLoop, ht]
    exact ⟨_, rfl, by simpa [loopTest] using hr⟩
  | cons b blocks ih =>
    intro k fuel s hv hr hk hb hf
    obtain ⟨i1, _, i3, i4, _⟩ := visits_inv draws rands k s hv
    obtain ⟨fuel', rfl⟩ : ∃ f, fuel = f + 1 := ⟨fuel - 1, by simp at hf; omega⟩
    have hlen : k + 1 + blocks.length = draws := by simp at hk; omega
    have ht : (loopTest draws s).1 = true := by
      simp only [loopTest, decide_eq_true_eq, i1]
      rw [Nat.mod_eq_of_lt (by omega), Nat.mod_eq_of_lt hd]
      omega
    obtain ⟨hb1, hb2⟩ := hb b (by simp)
    have hr' : (loopTest draws s).2.rands = b ++ (blocks.flatten ++ extra) := by
      show s.rands = _
      rw [hr, List.flatten_cons, List.append_assoc]
    obtain ⟨hand, t', hdeal⟩ := dealHand_block b (blocks.flatten ++ extra) hb1 hb2
    rw [← hr'] at hdeal
    obtain ⟨s1, hs1, hs1r⟩ := simBody_of_deal (loopTest draws s).2 hand t' _ i3 i4 hdeal
    obtain ⟨s', hs', hs'r⟩ := ih (k + 1) fuel' s1 (Visits.cycle k s s1 hv ht hs1) hs1r hlen
      (fun b' hb' => hb b' (by simp [hb'])) (by simp at hf; omega)
    refine ⟨s', ?_, hs'r⟩
    rw [simLoop, if_pos ht, hs1, ok_bind]
    exact hs'

/-- For every `draws` from 1 to 2^32 - 2, with a budget above `draws` and a stream of random
values made of `draws` blocks of `HANDSIZE` values that pick pairwise distinct deck slots,
`simulatePokerOdds` returns from process start, having performed `draws` cycles that used the
stream up to what follows the blocks. -/
theorem simulatePokerOdds_completes (draws : Nat) (rt : Int) (fuel : Nat)
    (blocks : List (List Nat)) (extra : List Nat) (hpos : 0 < draws)
    (hd : draws + 1 < UINT_MOD) (hlen : blocks.length = draws)
    (hb : ∀ b ∈ blocks, b.length = HANDSIZE ∧ (b.map (fun r => r % DECKSIZE)).Nodup)
    (hf : draws < fuel) :
    ∃ s', simulatePokerOdds draws rt fuel (Sim.processStart (blocks.flatten ++ extra))
        = .ok s' ∧
      s'.rands = extra ∧ s'.totalHandsDealt = draws + 1 := by
  obtain ⟨sL, hl, hr⟩ := simLoop_blocks draws (blocks.flatten ++ extra) extra hd blocks 0 fuel
    (Sim.processStart (blocks.flatten ++ extra)) Visits.start rfl (by omega) hb (by omega)
  have hstart : ({ Sim.processStart (blocks.flatten ++ extra) with totalHandsDealt := 0 } : Sim)
      = Sim.processStart (blocks.flatten ++ extra) := rfl
  have hst : displayStatus sL.totalHandsDealt draws = .ok () := by
    obtain ⟨n, sN, hv, _, hsL⟩ :=
      simLoop_visits initializeDeck draws _ fuel 0 _ sL Visits.start hl
    obtain ⟨i1, _⟩ := visits_inv draws _ n sN hv
    obtain ⟨hn, hn1⟩ := visits_le draws _ n sN hv
    have hsLt : sL.totalHandsDealt = n + 1 := by
      rw [hsL]
      show (sN.totalHandsDealt + 1) % UINT_MOD = n + 1
      rw [i1, Nat.mod_eq_of_lt hn1]
    rw [hsLt]
    exact displayStatus_eq (n + 1) draws hpos (by omega)
  have hrun : simulatePokerOdds draws rt fuel (Sim.processStart (blocks.flatten ++ extra))
      = .ok { sL with shown := sL.shown ++
          [{ onePair := if 0 < sL.tally.onePair then sL.totalHandsDealt / sL.tally.onePair else 0
             twoPair := if 0 < sL.tally.twoPair then sL.totalHandsDealt / sL.tally.twoPair else 0
             threeOfAKind :=
               if 0 < sL.tally.threeOfAKind then sL.totalHandsDealt / sL.tally.threeOfAKind
               else 0
             fourOfAKind :=
               if 0 < sL.tally.fourOfAKind then sL.totalHandsDealt / sL.tally.fourOfAKind
               else 0
             straight :=
               if 0 < sL.tally.straight then sL.totalHandsDealt / sL.tally.straight else 0
             flush := if 0 < sL.tally.flush then sL.totalHandsDealt / sL.tally.flush else 0
             fullHouse :=
               if 0 < sL.tally.fullHouse then sL.totalHandsDealt / sL.tally.fullHouse
               else 0 }] } := by
    unfold simulatePokerOdds
    simp only []
    rw [hstart, hl, ok_bind, displayOdds_eq, ok_bind, hst, ok_bind]
    rfl
  obtain ⟨n, sN, _, hn, ht, _⟩ :=
    simulatePokerOdds_spec draws rt fuel (blocks.flatten ++ extra) _ (by omega) hrun
  rw [if_pos hd] at hn
  exact ⟨_, hrun, hr, by rw [ht, hn]⟩

theorem visits_pairRands :
    Visits initializeDeck 1 (Sim.processStart pairRands) 1 (afterPairOfAces []) :=
  Visits.cycle 0 _ _ Visits.start (by decide) (by decide)

theorem visits_twoHandRands :
    Visits initializeDeck 2 (Sim.processStart twoHandRands) 1
      (afterPairOfAces [0, 13, 26, 5, 6]) :=
  Visits.cycle 0 _ _ Visits.start (by decide) (by decide)

/-! ## Claims -/

/-- Claim C1. Whenever `dealHand` completes on a stream of random values, starting from the
initialized deck and a drawn-table with no card marked, the hand has `HANDSIZE` cards of the
deck that are pairwise distinct, and the drawn-table afterwards marks exactly those cards: of
its 52 entries those at the offsets of the cards of the hand are 1 and all others are 0, so
`isDrawn` is 1 on the cards of the hand and 0 on every other card. -/
theorem dealHand_distinct_and_marked (rands : List Nat) (hand : List Card)
    (table rest : List Nat)
    (h : dealHand initializeDeck (List.replicate DECKSIZE 0) rands = .ok (hand, table, rest)) :
    hand.length = HANDSIZE ∧ hand.Nodup ∧ (∀ c ∈ hand, c ∈ initializeDeck) ∧
    table.length = DECKSIZE ∧
    (∀ j : Nat, j < DECKSIZE →
      table.get? j = some (if j ∈ hand.map offNat then 1 else 0)) ∧
    ∀ c : Card, 1 ≤ c.rank → c.rank ≤ 13 → 1 ≤ c.suit → c.suit ≤ 4 →
      isDrawn table c = .ok (if c ∈ hand then 1 else 0) := by
  obtain ⟨h1, h2, h3, h4⟩ := dealHand_spec rands hand table rest h
  refine ⟨h1, h3, fun c hc => mem_initializeDeck c (h2 c hc), h4.1, ?_,
    fun c a1 a2 a3 a4 => isDrawn_marks hand table h2 h4 c ⟨a1, a2, a3, a4⟩⟩
  intro j hj
  have hlt : j < table.length := by rw [h4.1]; exact hj
  have := h4.2 j
  rw [List.getD_eq_getElem?_getD, List.getElem?_eq_getElem hlt] at this
  rw [List.get?_eq_getElem?, List.getElem?_eq_getElem hlt]
  simpa using this

/-- Witness for C1: `dealHand` completes on `sampleRands`, with three redraws. -/
theorem dealHand_distinct_and_marked_witness :
    dealHand initializeDeck (List.replicate DECKSIZE 0) sampleRands
      = .ok (sampleHand, sampleTable, [9]) ∧
    (sampleHand.length = HANDSIZE ∧ sampleHand.Nodup ∧
      (∀ c ∈ sampleHand, c ∈ initializeDeck) ∧ sampleTable.length = DECKSIZE ∧
      (∀ j : Nat, j < DECKSIZE →
        sampleTable.get? j = some (if j ∈ sampleHand.map offNat then 1 else 0)) ∧
      ∀ c : Card, 1 ≤ c.rank → c.rank ≤ 13 → 1 ≤ c.suit → c.suit ≤ 4 →
        isDrawn sampleTable c = .ok (if c ∈ sampleHand then 1 else 0)) :=
  ⟨by decide, dealHand_distinct_and_marked sampleRands sampleHand sampleTable [9] (by decide)⟩

/-- Claim C2. For every hand that `dealHand` produces from the initialized deck and a
drawn-table with no card marked, `returnHand` returns and leaves all 52 entries of the
drawn-table 0, the state before the deal. -/
theorem returnHand_restores_table (rands : List Nat) (hand : List Card)
    (table rest : List Nat)
    (h : dealHand initializeDeck (List.replicate DECKSIZE 0) rands = .ok (hand, table, rest)) :
    returnHand hand table = .ok (List.replicate DECKSIZE 0) := by
  obtain ⟨h1, h2, _, h4⟩ := dealHand_spec rands hand table rest h
  exact returnHand_marks hand table h1 h2 h4

/-- Witness for C2: the deal on `sampleRands`, then `returnHand`. -/
theorem returnHand_restores_table_witness :
    dealHand initializeDeck (List.replicate DECKSIZE 0) sampleRands
      = .ok (sampleHand, sampleTable, [9]) ∧
    returnHand sampleHand sampleTable = .ok (List.replicate DECKSIZE 0) :=
  ⟨by decide, returnHand_restores_table sampleRands sampleHand sampleTable [9] (by decide)⟩

/-- Claim C3. After `initialize` the deck holds 52 cards, slot `i` holding rank `i mod 13 + 1`
and suit `i mod 4 + 1`; every rank is in [1,13] and every suit in [1,4]; and each of the 52
(rank, suit) pairs is at exactly one deck position. -/
theorem initialize_one_card_per_pair :
    initializeDeck.length = 52 ∧
    (∀ i : Nat, i < 52 →
      initializeDeck.get? i = some ⟨((i % 13 : Nat) : Int) + 1, ((i % 4 : Nat) : Int) + 1⟩) ∧
    (∀ c ∈ initializeDeck, 1 ≤ c.rank ∧ c.rank ≤ 13 ∧ 1 ≤ c.suit ∧ c.suit ≤ 4) ∧
    (∀ r u : Int, 1 ≤ r → r ≤ 13 → 1 ≤ u → u ≤ 4 →
      ∃ i, (i < 52 ∧ initializeDeck.get? i = some ⟨r, u⟩) ∧
        ∀ j, j < 52 ∧ initializeDeck.get? j = some ⟨r, u⟩ → j = i) := by
  refine ⟨by decide, by decide, valid_initializeDeck, ?_⟩
  intro r u h1 h2 h3 h4
  obtain ⟨i, hi, e⟩ := List.getElem_of_mem (mem_initializeDeck ⟨r, u⟩ ⟨h1, h2, h3, h4⟩)
  have hi52 : i < 52 := by simpa [length_initializeDeck, DECKSIZE] using hi
  refine ⟨i, ⟨hi52, by rw [List.get?_eq_getElem?, List.getElem?_eq_getElem hi, e]⟩, ?_⟩
  rintro j ⟨hj52, hj⟩
  have hj' : j < initializeDeck.length := by simpa [length_initializeDeck, DECKSIZE] using hj52
  rw [List.get?_eq_getElem?, List.getElem?_eq_getElem hj'] at hj
  have hj'' : initializeDeck[j] = ⟨r, u⟩ := by simpa using hj
  exact (List.Nodup.getElem_inj_iff nodup_initializeDeck).mp (hj''.trans e.symm)

/-- Claim C4. For every hand of the data model and every reachable state of the count globals,
`countHand` returns, and afterwards entry `k` of `xOfAKindTable_rank` is the number of ranks
that occur exactly `k` times in this hand for `k` in 0..5 and is 0 for every other `k`; the
same holds for `xOfAKindTable_suit` and suits; and the state left is the one `countHand` leaves
from the initial state, so nothing of earlier hands survives. -/
theorem countHand_recomputes_xOfAKind (s : Counts) (hs : Reachable s) (hand : List Card)
    (hv : ValidHand hand) :
    ∃ s', countHand s hand = .ok s' ∧
      s'.xOfAKindTable_rank = (List.range DECKSIZE).map
        (fun k => if k ≤ HANDSIZE then ranksWithCount hand k else 0) ∧
      s'.xOfAKindTable_suit = (List.range DECKSIZE).map
        (fun k => if k ≤ HANDSIZE then suitsWithCount hand k else 0) ∧
      countHand Counts.initial hand = .ok s' :=
  ⟨countsOf hand, countHand_reachable s hs hand hv, xrank_table_eq hand hv,
    xsuit_table_eq hand hv, countHand_reachable _ Reachable.initial hand hv⟩

/-- Witness for C4: the full house counted after the one-pair hand. -/
theorem countHand_recomputes_xOfAKind_witness :
    Reachable (countsOf onePairHand) ∧ ValidHand fullHouseHand ∧
    ∃ s', countHand (countsOf onePairHand) fullHouseHand = .ok s' ∧
      s'.xOfAKindTable_rank = (List.range DECKSIZE).map
        (fun k => if k ≤ HANDSIZE then ranksWithCount fullHouseHand k else 0) ∧
      s'.xOfAKindTable_suit = (List.range DECKSIZE).map
        (fun k => if k ≤ HANDSIZE then suitsWithCount fullHouseHand k else 0) ∧
      countHand Counts.initial fullHouseHand = .ok s' :=
  ⟨reachable_after_onePairHand, by decide,
    countHand_recomputes_xOfAKind _ reachable_after_onePairHand fullHouseHand (by decide)⟩

/-- Claim C5. For every hand of the data model, after `countHand`, `isStraight` returns 1 exactly
when the five ranks are five consecutive integers `r, r+1, r+2, r+3, r+4` (the ace counting as
rank 1 only), and returns 0 otherwise. Distinctness of the cards is not needed. -/
theorem isStraight_iff_consecutive (s : Counts) (hs : Reachable s) (hand : List Card)
    (hv : ValidHand hand) :
    ∃ s', countHand s hand = .ok s' ∧
      (isStraight s' = .ok 1 ∨ isStraight s' = .ok 0) ∧
      (isStraight s' = .ok 1 ↔
        ∃ r : Int, (hand.map Card.rank).Perm [r, r + 1, r + 2, r + 3, r + 4]) := by
  refine ⟨countsOf hand, countHand_reachable s hs hand hv, ?_, isStraight_iff hand hv⟩
  rw [isStraight_countsOf hand hv]
  by_cases h1 : ranksWithCount hand 1 = 5
  · by_cases h2 : (countsOf hand).highestRankInHand - (countsOf hand).lowestRankInHand + 1 = 5
    · left; simp [h1, h2]
    · right; simp [h1, h2]
  · right; simp [h1]

/-- Witness for C5: ranks 4 to 8 and ranks 1 to 5 are straights, the ace-high hand with ranks
10, 11, 12, 13, 1 is not. -/
theorem isStraight_iff_consecutive_witness :
    Reachable Counts.initial ∧
    (ValidHand straightHand ∧
      ∃ s', countHand Counts.initial straightHand = .ok s' ∧ isStraight s' = .ok 1) ∧
    (ValidHand wheelHand ∧
      ∃ s', countHand Counts.initial wheelHand = .ok s' ∧ isStraight s' = .ok 1) ∧
    (ValidHand aceHighHand ∧
      ∃ s', countHand Counts.initial aceHighHand = .ok s' ∧ isStraight s' = .ok 0 ∧
        ¬ ∃ r : Int, (aceHighHand.map Card.rank).Perm [r, r + 1, r + 2, r + 3, r + 4]) := by
  refine ⟨Reachable.initial, ⟨by decide, ?_⟩, ⟨by decide, ?_⟩, ⟨by decide, ?_⟩⟩
  · obtain ⟨s', h1, _, h3⟩ :=
      isStraight_iff_consecutive _ Reachable.initial straightHand (by decide)
    exact ⟨s', h1, h3.mpr ⟨4, by decide⟩⟩
  · obtain ⟨s', h1, _, h3⟩ :=
      isStraight_iff_consecutive _ Reachable.initial wheelHand (by decide)
    exact ⟨s', h1, h3.mpr ⟨1, by decide⟩⟩
  · obtain ⟨s', h1, _, h3⟩ :=
      isStraight_iff_consecutive _ Reachable.initial aceHighHand (by decide)
    have e : countHand Counts.initial aceHighHand = .ok (countsOf aceHighHand) := by decide
    have hs' : s' = countsOf aceHighHand := Except.ok.inj (h1.symm.trans e)
    have h0 : isStraight s' = .ok 0 := by rw [hs']; decide
    refine ⟨s', h1, h0, ?_⟩
    intro hex
    have := h3.mpr hex
    rw [h0] at this
    exact absurd this (by decide)

/-- Claim C6, as amended. For every hand of the data model, after `countHand`, `isOnePair`
returns 1 exactly when exactly one rank occurs exactly twice in the hand, whatever the counts
of the other ranks, and returns 0 otherwise. -/
theorem isOnePair_iff_one_rank_twice (s : Counts) (hs : Reachable s) (hand : List Card)
    (hv : ValidHand hand) :
    ∃ s', countHand s hand = .ok s' ∧
      (isOnePair s' = .ok 1 ∨ isOnePair s' = .ok 0) ∧
      (isOnePair s' = .ok 1 ↔
        ∃ a, rankCount hand a = 2 ∧ ∀ b, rankCount hand b = 2 → b = a) := by
  refine ⟨countsOf hand, countHand_reachable s hs hand hv, ?_, ?_⟩
  · rw [isOnePair_countsOf hand hv]
    by_cases h1 : ranksWithCount hand 2 = 1
    · left; simp [h1]
    · right; simp [h1]
  · rw [isOnePair_countsOf hand hv, ← ranksWithCount_eq_one hand hv.2 2 (by decide)]
    by_cases h1 : ranksWithCount hand 2 = 1
    · simp [h1]
    · simp [h1]

/-- Witness for C6 as amended: on the one-pair hand 2C 2H 5S 9D KC `isOnePair` returns 1 and
exactly one rank occurs twice. -/
theorem isOnePair_iff_one_rank_twice_witness :
    Reachable Counts.initial ∧ ValidHand onePairHand ∧
    ∃ s', countHand Counts.initial onePairHand = .ok s' ∧ isOnePair s' = .ok 1 ∧
      ∃ a, rankCount onePairHand a = 2 ∧ ∀ b, rankCount onePairHand b = 2 → b = a := by
  refine ⟨Reachable.initial, by decide, ?_⟩
  obtain ⟨s', h1, _, h3⟩ :=
    isOnePair_iff_one_rank_twice _ Reachable.initial onePairHand (by decide)
  have e : countHand Counts.initial onePairHand = .ok (countsOf onePairHand) := by decide
  have hs' : s' = countsOf onePairHand := Except.ok.inj (h1.symm.trans e)
  have h1p : isOnePair s' = .ok 1 := by rw [hs']; decide
  exact ⟨s', h1, h1p, h3.mp h1p⟩

/-- Counterexample to C6 as stated: on the full house 3C 3H 3S 9D 9C, five distinct cards,
`isOnePair` returns 1 although rank 3 occurs three times, so it is not the case that
"exactly one rank has count 2 and no rank has count 3 or 4". -/
theorem isOnePair_fullHouse_counterexample :
    ValidHand fullHouseHand ∧ fullHouseHand.Nodup ∧
    (∃ s', countHand Counts.initial fullHouseHand = .ok s' ∧ isOnePair s' = .ok 1) ∧
    ¬ ((∃ a, rankCount fullHouseHand a = 2 ∧ ∀ b, rankCount fullHouseHand b = 2 → b = a) ∧
        ∀ r, rankCount fullHouseHand r ≠ 3 ∧ rankCount fullHouseHand r ≠ 4) := by
  refine ⟨by decide, by decide, ⟨countsOf fullHouseHand, by decide, by decide⟩, ?_⟩
  rintro ⟨_, h⟩
  exact (h 3).1 (by decide)

/-- Claim C7. The predicates are evaluated independently and are not mutually exclusive: for
every hand of the data model, after `countHand`, whenever `isFullHouse` returns 1 so do
`isThreeOfAKind` and `isOnePair`, and the seven `+=` statements of the simulation loop then add
1 to each of the accumulators `fullHouse`, `threeOfAKind` and `onePair`. -/
theorem fullHouse_also_three_and_pair (s : Counts) (hs : Reachable s) (hand : List Card)
    (hv : ValidHand hand) :
    ∃ s', countHand s hand = .ok s' ∧
      (isFullHouse s' = .ok 1 →
        isThreeOfAKind s' = .ok 1 ∧ isOnePair s' = .ok 1 ∧
        ∀ t : Tally, ∃ t', classifyHand t s' = .ok t' ∧
          t'.fullHouse = (t.fullHouse + 1) % UINT_MOD ∧
          t'.threeOfAKind = (t.threeOfAKind + 1) % UINT_MOD ∧
          t'.onePair = (t.onePair + 1) % UINT_MOD) := by
  refine ⟨countsOf hand, countHand_reachable s hs hand hv, ?_⟩
  intro hf
  have hf' := hf
  rw [isFullHouse_countsOf hand hv] at hf'
  by_cases h32 : ranksWithCount hand 3 ≠ 0 ∧ ranksWithCount hand 2 ≠ 0
  · obtain ⟨e3, e2⟩ := fullHouse_counts hand hv h32.1 h32.2
    have h3 : isThreeOfAKind (countsOf hand) = .ok 1 := by
      rw [isThreeOfAKind_countsOf hand hv, e3]; rfl
    have h1 : isOnePair (countsOf hand) = .ok 1 := by
      rw [isOnePair_countsOf hand hv, e2]; rfl
    refine ⟨h3, h1, ?_⟩
    intro t
    obtain ⟨p1, p2, p3, p4, p5, p6, p7, q1, _, q3, _, _, _, q7, hc⟩ :=
      classifyHand_countsOf hand hv t
    have r1 : p1 = 1 := Except.ok.inj (q1.symm.trans h1)
    have r3 : p3 = 1 := Except.ok.inj (q3.symm.trans h3)
    have r7 : p7 = 1 := Except.ok.inj (q7.symm.trans hf)
    subst r1 r3 r7
    exact ⟨_, hc, rfl, rfl, rfl⟩
  · rw [if_neg h32] at hf'
    exact absurd (Except.ok.inj hf') (by decide)

/-- Witness for C7: the full house 3C 3H 3S 9D 9C makes all three predicates return 1 and,
from zeroed accumulators, leaves `onePair`, `threeOfAKind` and `fullHouse` at 1. -/
theorem fullHouse_also_three_and_pair_witness :
    Reachable Counts.initial ∧ ValidHand fullHouseHand ∧
    ∃ s', countHand Counts.initial fullHouseHand = .ok s' ∧
      isFullHouse s' = .ok 1 ∧ isThreeOfAKind s' = .ok 1 ∧ isOnePair s' = .ok 1 ∧
      classifyHand ⟨0, 0, 0, 0, 0, 0, 0⟩ s' = .ok ⟨1, 0, 1, 0, 0, 0, 1⟩ := by
  refine ⟨Reachable.initial, by decide, ?_⟩
  obtain ⟨s', h1, h2⟩ :=
    fullHouse_also_three_and_pair _ Reachable.initial fullHouseHand (by decide)
  have e : countHand Counts.initial fullHouseHand = .ok (countsOf fullHouseHand) := by decide
  have hs' : s' = countsOf fullHouseHand := Except.ok.inj (h1.symm.trans e)
  have hf : isFullHouse s' = .ok 1 := by rw [hs']; decide
  obtain ⟨h3, hp, _⟩ := h2 hf
  exact ⟨s', h1, hf, h3, hp, by rw [hs']; decide⟩

/-- Claim C8. For every hand of the data model, after `countHand`, `isFullHouse` returns 1
exactly when three cards of the hand have one rank and the two others have another rank, and
returns 0 otherwise; whenever it returns 1, entries 3 and 2 of `xOfAKindTable_rank` are both
exactly 1. -/
theorem isFullHouse_iff_three_and_two (s : Counts) (hs : Reachable s) (hand : List Card)
    (hv : ValidHand hand) :
    ∃ s', countHand s hand = .ok s' ∧
      (isFullHouse s' = .ok 1 ∨ isFullHouse s' = .ok 0) ∧
      (isFullHouse s' = .ok 1 ↔
        ∃ a b, a ≠ b ∧ rankCount hand a = 3 ∧ rankCount hand b = 2) ∧
      (isFullHouse s' = .ok 1 →
        s'.xOfAKindTable_rank.get? 3 = some 1 ∧ s'.xOfAKindTable_rank.get? 2 = some 1) := by
  have hiff : (ranksWithCount hand 3 ≠ 0 ∧ ranksWithCount hand 2 ≠ 0) ↔
      ∃ a b, a ≠ b ∧ rankCount hand a = 3 ∧ rankCount hand b = 2 := by
    constructor
    · rintro ⟨h3, h2⟩
      obtain ⟨a, ha⟩ :=
        (ranksWithCount_pos hand hv.2 3 (by decide)).mp (Nat.pos_of_ne_zero h3)
      obtain ⟨b, hb⟩ :=
        (ranksWithCount_pos hand hv.2 2 (by decide)).mp (Nat.pos_of_ne_zero h2)
      exact ⟨a, b, fun e => by rw [e] at ha; omega, ha, hb⟩
    · rintro ⟨a, b, _, ha, hb⟩
      have p3 := (ranksWithCount_pos hand hv.2 3 (by decide)).mpr ⟨a, ha⟩
      have p2 := (ranksWithCount_pos hand hv.2 2 (by decide)).mpr ⟨b, hb⟩
      exact ⟨by omega, by omega⟩
  refine ⟨countsOf hand, countHand_reachable s hs hand hv, ?_, ?_, ?_⟩
  · rw [isFullHouse_countsOf hand hv]
    by_cases h32 : ranksWithCount hand 3 ≠ 0 ∧ ranksWithCount hand 2 ≠ 0
    · left; rw [if_pos h32]
    · right; rw [if_neg h32]
  · rw [isFullHouse_countsOf hand hv, ← hiff]
    by_cases h32 : ranksWithCount hand 3 ≠ 0 ∧ ranksWithCount hand 2 ≠ 0
    · simp [h32]
    · rw [if_neg h32]
      constructor
      · intro h; exact absurd (Except.ok.inj h) (by decide)
      · intro h; exact absurd h h32
  · intro hf
    rw [isFullHouse_countsOf hand hv] at hf
    by_cases h32 : ranksWithCount hand 3 ≠ 0 ∧ ranksWithCount hand 2 ≠ 0
    · obtain ⟨e3, e2⟩ := fullHouse_counts hand hv h32.1 h32.2
      rw [get?_xrank hand hv 3 (by decide), get?_xrank hand hv 2 (by decide), e3, e2]
      exact ⟨rfl, rfl⟩
    · rw [if_neg h32] at hf
      exact absurd (Except.ok.inj hf) (by decide)

/-- Witness for C8: the full house 3C 3H 3S 9D 9C. -/
theorem isFullHouse_iff_three_and_two_witness :
    Reachable Counts.initial ∧ ValidHand fullHouseHand ∧
    ∃ s', countHand Counts.initial fullHouseHand = .ok s' ∧ isFullHouse s' = .ok 1 ∧
      s'.xOfAKindTable_rank.get? 3 = some 1 ∧ s'.xOfAKindTable_rank.get? 2 = some 1 := by
  refine ⟨Reachable.initial, by decide, ?_⟩
  obtain ⟨s', h1, _, h3, h4⟩ :=
    isFullHouse_iff_three_and_two _ Reachable.initial fullHouseHand (by decide)
  have hf : isFullHouse s' = .ok 1 := h3.mpr ⟨3, 9, by decide, by decide, by decide⟩
  exact ⟨s', h1, hf, h4 hf⟩

/-- Claim C9. For every hand of five distinct cards of the data model in which one rank occurs
twice and three other ranks occur once each, after `countHand`, `isOnePair` returns 1 and
`isTwoPair`, `isThreeOfAKind`, `isFourOfAKind`, `isStraight`, `isFlush` and `isFullHouse` all
return 0. -/
theorem onePair_shape_only_onePair (s : Counts) (hs : Reachable s) (hand : List Card)
    (hv : ValidHand hand) (hnd : hand.Nodup)
    (hshape : ∃ a b c d : Int, a ≠ b ∧ a ≠ c ∧ a ≠ d ∧ b ≠ c ∧ b ≠ d ∧ c ≠ d ∧
      rankCount hand a = 2 ∧ rankCount hand b = 1 ∧ rankCount hand c = 1 ∧
      rankCount hand d = 1) :
    ∃ s', countHand s hand = .ok s' ∧
      isOnePair s' = .ok 1 ∧ isTwoPair s' = .ok 0 ∧ isThreeOfAKind s' = .ok 0 ∧
      isFourOfAKind s' = .ok 0 ∧ isStraight s' = .ok 0 ∧ isFlush s' = .ok 0 ∧
      isFullHouse s' = .ok 0 := by
  obtain ⟨a, b, c, d, hab, hac, had, hbc, hbd, hcd, ha, hb, hc, hd⟩ := hshape
  have hlen : hand.length = 5 := hv.1
  -- a fifth rank, different from the four, does not occur
  have hother : ∀ e, e ≠ a → e ≠ b → e ≠ c → e ≠ d → rankCount hand e = 0 := by
    intro e ea eb ec ed
    have := sum_rankCount_le hand [a, b, c, d, e]
      (by simp [hab, hac, had, hbc, hbd, hcd, Ne.symm ea, Ne.symm eb, Ne.symm ec, Ne.symm ed])
    simp only [List.map_cons, List.map_nil, List.sum_cons, List.sum_nil, ha, hb, hc, hd] at this
    omega
  have hcases : ∀ e, rankCount hand e = 2 → e = a := by
    intro e he
    by_contra ea
    by_cases eb : e = b
    · rw [eb] at he; omega
    by_cases ec : e = c
    · rw [ec] at he; omega
    by_cases ed : e = d
    · rw [ed] at he; omega
    have := hother e ea eb ec ed
    omega
  have hle2 : ∀ e, rankCount hand e ≤ 2 := by
    intro e
    by_cases ea : e = a
    · rw [ea]; omega
    by_cases eb : e = b
    · rw [eb]; omega
    by_cases ec : e = c
    · rw [ec]; omega
    by_cases ed : e = d
    · rw [ed]; omega
    have := hother e ea eb ec ed
    omega
  have x2 : ranksWithCount hand 2 = 1 :=
    (ranksWithCount_eq_one hand hv.2 2 (by decide)).mpr ⟨a, ha, hcases⟩
  have x3 : ranksWithCount hand 3 = 0 :=
    (ranksWithCount_eq_zero hand hv.2 3 (by decide)).mpr (fun e => by have := hle2 e; omega)
  have x4 : ranksWithCount hand 4 = 0 :=
    (ranksWithCount_eq_zero hand hv.2 4 (by decide)).mpr (fun e => by have := hle2 e; omega)
  have x1 : ranksWithCount hand 1 ≠ 5 := by
    intro h5
    have := rankCount_le_one_of_five_singles hand hv h5 a
    omega
  have xs : suitsWithCount hand 5 = 0 :=
    suitsWithCount_five_eq_zero hand hlen hnd a (by omega)
  refine ⟨countsOf hand, countHand_reachable s hs hand hv, ?_, ?_, ?_, ?_, ?_, ?_, ?_⟩
  · rw [isOnePair_countsOf hand hv, x2]; rfl
  · rw [isTwoPair_countsOf hand hv, x2]; rfl
  · rw [isThreeOfAKind_countsOf hand hv, x3]; rfl
  · rw [isFourOfAKind_countsOf hand hv, x4]; rfl
  · rw [isStraight_countsOf hand hv, if_neg x1]
  · rw [isFlush_countsOf hand hv, xs]; rfl
  · rw [isFullHouse_countsOf hand hv, x3]; rfl

/-- Witness for C9: the hand 2C 2H 5S 9D KC. -/
theorem onePair_shape_only_onePair_witness :
    Reachable Counts.initial ∧ ValidHand onePairHand ∧ onePairHand.Nodup ∧
    (∃ a b c d : Int, a ≠ b ∧ a ≠ c ∧ a ≠ d ∧ b ≠ c ∧ b ≠ d ∧ c ≠ d ∧
      rankCount onePairHand a = 2 ∧ rankCount onePairHand b = 1 ∧
      rankCount onePairHand c = 1 ∧ rankCount onePairHand d = 1) ∧
    ∃ s', countHand Counts.initial onePairHand = .ok s' ∧
      isOnePair s' = .ok 1 ∧ isTwoPair s' = .ok 0 ∧ isThreeOfAKind s' = .ok 0 ∧
      isFourOfAKind s' = .ok 0 ∧ isStraight s' = .ok 0 ∧ isFlush s' = .ok 0 ∧
      isFullHouse s' = .ok 0 :=
  ⟨Reachable.initial, by decide, by decide, ⟨2, 5, 9, 13, by decide⟩,
    onePair_shape_only_onePair _ Reachable.initial onePairHand (by decide) (by decide)
      ⟨2, 5, 9, 13, by decide⟩⟩

/-- Claim C10. For every hand of the data model, after `countHand`, `isTwoPair` returns 1
exactly when exactly two distinct ranks each occur exactly twice, and returns 0 otherwise;
`isTwoPair` and `isOnePair` never both return 1 for the same hand. -/
theorem isTwoPair_iff_two_ranks_twice (s : Counts) (hs : Reachable s) (hand : List Card)
    (hv : ValidHand hand) :
    ∃ s', countHand s hand = .ok s' ∧
      (isTwoPair s' = .ok 1 ∨ isTwoPair s' = .ok 0) ∧
      (isTwoPair s' = .ok 1 ↔
        ∃ a b, a ≠ b ∧ rankCount hand a = 2 ∧ rankCount hand b = 2 ∧
          ∀ c, rankCount hand c = 2 → c = a ∨ c = b) ∧
      ¬ (isTwoPair s' = .ok 1 ∧ isOnePair s' = .ok 1) := by
  refine ⟨countsOf hand, countHand_reachable s hs hand hv, ?_, ?_, ?_⟩
  · rw [isTwoPair_countsOf hand hv]
    by_cases h2 : ranksWithCount hand 2 = 2
    · left; rw [if_pos h2]
    · right; rw [if_neg h2]
  · rw [isTwoPair_countsOf hand hv, ← ranksWithCount_eq_two hand hv.2 2 (by decide)]
    by_cases h2 : ranksWithCount hand 2 = 2
    · simp [h2]
    · simp [h2]
  · rw [isTwoPair_countsOf hand hv, isOnePair_countsOf hand hv]
    rintro ⟨h2, h1⟩
    by_cases e2 : ranksWithCount hand 2 = 2
    · have e1 : ¬ ranksWithCount hand 2 = 1 := by omega
      rw [if_neg e1] at h1
      exact absurd (Except.ok.inj h1) (by decide)
    · rw [if_neg e2] at h2
      exact absurd (Except.ok.inj h2) (by decide)

/-- Witness for C10: on 2C 2H 5S 5D KC `isTwoPair` returns 1 and `isOnePair` returns 0. -/
theorem isTwoPair_iff_two_ranks_twice_witness :
    Reachable Counts.initial ∧ ValidHand twoPairHand ∧
    ∃ s', countHand Counts.initial twoPairHand = .ok s' ∧
      isTwoPair s' = .ok 1 ∧ isOnePair s' = .ok 0 := by
  refine ⟨Reachable.initial, by decide, ?_⟩
  obtain ⟨s', h1, _, _, _⟩ :=
    isTwoPair_iff_two_ranks_twice _ Reachable.initial twoPairHand (by decide)
  have e : countHand Counts.initial twoPairHand = .ok (countsOf twoPairHand) := by decide
  have hs' : s' = countsOf twoPairHand := Except.ok.inj (h1.symm.trans e)
  exact ⟨s', h1, by rw [hs']; decide, by rw [hs']; decide⟩

/-- Claim C11. For every hand of the data model, after `countHand`, `isThreeOfAKind` returns 1
exactly when some rank occurs exactly three times in the hand and `isFourOfAKind` returns 1
exactly when some rank occurs exactly four times, each returning 0 otherwise; in five cards
at most one rank occurs exactly three times and at most one exactly four times, so the test
`== 1` loses nothing. -/
theorem xOfAKind_iff_some_rank (s : Counts) (hs : Reachable s) (hand : List Card)
    (hv : ValidHand hand) :
    ∃ s', countHand s hand = .ok s' ∧
      (isThreeOfAKind s' = .ok 1 ∨ isThreeOfAKind s' = .ok 0) ∧
      (isThreeOfAKind s' = .ok 1 ↔ ∃ a, rankCount hand a = 3) ∧
      (isFourOfAKind s' = .ok 1 ∨ isFourOfAKind s' = .ok 0) ∧
      (isFourOfAKind s' = .ok 1 ↔ ∃ a, rankCount hand a = 4) ∧
      (∀ a b, rankCount hand a = 3 → rankCount hand b = 3 → a = b) ∧
      (∀ a b, rankCount hand a = 4 → rankCount hand b = 4 → a = b) := by
  refine ⟨countsOf hand, countHand_reachable s hs hand hv, ?_, ?_, ?_, ?_,
    fun a b ha hb => rankCount_unique_of_three_le hand hv.1 3 (by decide) a b ha hb,
    fun a b ha hb => rankCount_unique_of_three_le hand hv.1 4 (by decide) a b ha hb⟩
  · rw [isThreeOfAKind_countsOf hand hv]
    by_cases h : ranksWithCount hand 3 = 1
    · left; rw [if_pos h]
    · right; rw [if_neg h]
  · rw [isThreeOfAKind_countsOf hand hv,
      ← ranksWithCount_eq_one_of_three_le hand hv 3 (by decide)]
    by_cases h : ranksWithCount hand 3 = 1
    · simp [h]
    · simp [h]
  · rw [isFourOfAKind_countsOf hand hv]
    by_cases h : ranksWithCount hand 4 = 1
    · left; rw [if_pos h]
    · right; rw [if_neg h]
  · rw [isFourOfAKind_countsOf hand hv,
      ← ranksWithCount_eq_one_of_three_le hand hv 4 (by decide)]
    by_cases h : ranksWithCount hand 4 = 1
    · simp [h]
    · simp [h]

/-- Witness for C11: 3C 3H 3S 7D KC is three of a kind and 7C 7H 7S 7D KC is four of a
kind. -/
theorem xOfAKind_iff_some_rank_witness :
    Reachable Counts.initial ∧
    (ValidHand threeKindHand ∧
      ∃ s', countHand Counts.initial threeKindHand = .ok s' ∧ isThreeOfAKind s' = .ok 1) ∧
    (ValidHand fourKindHand ∧
      ∃ s', countHand Counts.initial fourKindHand = .ok s' ∧ isFourOfAKind s' = .ok 1) := by
  refine ⟨Reachable.initial, ⟨by decide, ?_⟩, ⟨by decide, ?_⟩⟩
  · obtain ⟨s', h1, _, h3, _⟩ :=
      xOfAKind_iff_some_rank _ Reachable.initial threeKindHand (by decide)
    exact ⟨s', h1, h3.mpr ⟨3, by decide⟩⟩
  · obtain ⟨s', h1, _, _, _, h5, _⟩ :=
      xOfAKind_iff_some_rank _ Reachable.initial fourKindHand (by decide)
    exact ⟨s', h1, h5.mpr ⟨7, by decide⟩⟩

/-- Claim C12. For every hand of the data model, after `countHand`, `isFlush` returns 1 exactly
when all five cards have the same suit, and returns 0 otherwise. -/
theorem isFlush_iff_one_suit (s : Counts) (hs : Reachable s) (hand : List Card)
    (hv : ValidHand hand) :
    ∃ s', countHand s hand = .ok s' ∧
      (isFlush s' = .ok 1 ∨ isFlush s' = .ok 0) ∧
      (isFlush s' = .ok 1 ↔ ∃ u, ∀ c ∈ hand, c.suit = u) := by
  refine ⟨countsOf hand, countHand_reachable s hs hand hv, ?_, isFlush_iff hand hv⟩
  rw [isFlush_countsOf hand hv]
  by_cases h : suitsWithCount hand 5 > 0
  · left; rw [if_pos h]
  · right; rw [if_neg h]

/-- Witness for C12: 2C 5C 7C 9C KC is a flush, 2C 2H 5S 9D KC is not. -/
theorem isFlush_iff_one_suit_witness :
    Reachable Counts.initial ∧
    (ValidHand flushHand ∧
      ∃ s', countHand Counts.initial flushHand = .ok s' ∧ isFlush s' = .ok 1) ∧
    (ValidHand onePairHand ∧
      ∃ s', countHand Counts.initial onePairHand = .ok s' ∧ isFlush s' = .ok 0) := by
  refine ⟨Reachable.initial, ⟨by decide, ?_⟩, ⟨by decide, ?_⟩⟩
  · obtain ⟨s', h1, _, h3⟩ := isFlush_iff_one_suit _ Reachable.initial flushHand (by decide)
    exact ⟨s', h1, h3.mpr ⟨1, by decide⟩⟩
  · obtain ⟨s', h1, _, _⟩ := isFlush_iff_one_suit _ Reachable.initial onePairHand (by decide)
    have e : countHand Counts.initial onePairHand = .ok (countsOf onePairHand) := by decide
    have hs' : s' = countsOf onePairHand := Except.ok.inj (h1.symm.trans e)
    exact ⟨s', h1, by rw [hs']; decide⟩

/-- Claim C13. For every hand of the data model and every reachable state of the count
globals, `countHand` returns, and afterwards the entries of `countTable_rank` sum to 5 and the
entries of `countTable_suit` sum to 5. -/
theorem countHand_frequency_sums (s : Counts) (hs : Reachable s) (hand : List Card)
    (hv : ValidHand hand) :
    ∃ s', countHand s hand = .ok s' ∧
      s'.countTable_rank.sum = 5 ∧ s'.countTable_suit.sum = 5 := by
  refine ⟨countsOf hand, countHand_reachable s hs hand hv, ?_, ?_⟩
  · rw [sum_countTable_rank hand hv.2]; exact hv.1
  · rw [sum_countTable_suit hand hv.2]; exact hv.1

/-- Witness for C13: the full house counted after the one-pair hand. -/
theorem countHand_frequency_sums_witness :
    Reachable (countsOf onePairHand) ∧ ValidHand fullHouseHand ∧
    ∃ s', countHand (countsOf onePairHand) fullHouseHand = .ok s' ∧
      s'.countTable_rank.sum = 5 ∧ s'.countTable_suit.sum = 5 :=
  ⟨reachable_after_onePairHand, by decide,
    countHand_frequency_sums _ reachable_after_onePairHand fullHouseHand (by decide)⟩

/-- Claim C14, a defect of the code. With `draws = 1` and the stream `pairRands` the loop deals
exactly one hand, a pair of aces, and then its test fails; `onePair` is 1. But that test has
incremented `totalHandsDealt` once more, so the final call of `displayOdds` is given 2 and
prints odds of 2 for one pair, where the one hand dealt gives `1 / 1 = 1`. -/
theorem final_report_counts_one_hand_too_many :
    simulatePokerOdds 1 1 2 (Sim.processStart pairRands) = .ok
      { totalHandsDealt := 2
        tally := { onePair := 1, twoPair := 0, threeOfAKind := 0, fourOfAKind := 0,
                   straight := 0, flush := 0, fullHouse := 0 }
        counts := countsOf pairOfAcesHand
        drawnTable := List.replicate DECKSIZE 0
        rands := []
        shown := [{ onePair := 2, twoPair := 0, threeOfAKind := 0, fourOfAKind := 0,
                    straight := 0, flush := 0, fullHouse := 0 }] } ∧
    (Visits initializeDeck 1 (Sim.processStart pairRands) 1 (afterPairOfAces []) ∧
      (loopTest 1 (afterPairOfAces [])).1 = false) ∧
    displayOdds (afterPairOfAces []).tally 1
      = .ok { onePair := 1, twoPair := 0, threeOfAKind := 0, fourOfAKind := 0,
              straight := 0, flush := 0, fullHouse := 0 } :=
  ⟨by decide, ⟨visits_pairRands, by decide⟩, by decide⟩

/-- Claim C15. For every `handsDealt` and every value of the counters, `displayOdds` returns,
so no division by zero is evaluated, and the value it computes for a category with counter `c`
is `handsDealt / c` rounded down when `c > 0` and the sentinel 0 when `c = 0`. -/
theorem displayOdds_guarded_division (t : Tally) (handsDealt : Nat) :
    (∀ c : Nat, oddsAgainst handsDealt c = .ok (if 0 < c then handsDealt / c else 0)) ∧
    displayOdds t handsDealt = .ok
      { onePair := if 0 < t.onePair then handsDealt / t.onePair else 0
        twoPair := if 0 < t.twoPair then handsDealt / t.twoPair else 0
        threeOfAKind := if 0 < t.threeOfAKind then handsDealt / t.threeOfAKind else 0
        fourOfAKind := if 0 < t.fourOfAKind then handsDealt / t.fourOfAKind else 0
        straight := if 0 < t.straight then handsDealt / t.straight else 0
        flush := if 0 < t.flush then handsDealt / t.flush else 0
        fullHouse := if 0 < t.fullHouse then handsDealt / t.fullHouse else 0 } :=
  ⟨fun c => oddsAgainst_eq handsDealt c, displayOdds_eq t handsDealt⟩

/-- Claim C16, a defect of the code. With `draws = 4294967295`, the largest `unsigned` value,
`draws+1` wraps to 0, the loop test `1 < 0` fails at once and the loop performs no cycle at
all: the run returns with the stream of random values untouched, every counter 0 and one row
of zero odds printed, whatever the stream and the budget. -/
theorem max_draws_performs_no_cycle (rt : Int) (fuel : Nat) (rands : List Nat) :
    simulatePokerOdds 4294967295 rt (fuel + 1) (Sim.processStart rands)
      = .ok { Sim.processStart rands with totalHandsDealt := 1, shown := [zeroOdds] } ∧
    ∀ k s, Visits initializeDeck 4294967295 (Sim.processStart rands) k s → k = 0 := by
  have hl : simLoop initializeDeck 4294967295 (fuel + 1) (Sim.processStart rands)
      = .ok { Sim.processStart rands with totalHandsDealt := 1 } := rfl
  have hst : displayStatus 1 4294967295 = .ok () := by decide
  have hrun : simulatePokerOdds 4294967295 rt (fuel + 1) (Sim.processStart rands)
      = .ok { Sim.processStart rands with totalHandsDealt := 1, shown := [zeroOdds] } := by
    unfold simulatePokerOdds
    simp only []
    rw [show ({ Sim.processStart rands with totalHandsDealt := 0 } : Sim)
      = Sim.processStart rands from rfl, hl, ok_bind]
    show (do
      let row ← displayOdds (Sim.processStart rands).tally 1
      displayStatus 1 4294967295
      pure _) = _
    rw [hst]
    rfl
  refine ⟨hrun, ?_⟩
  intro k s h
  obtain ⟨_, i2, _⟩ := visits_inv 4294967295 rands k s h
  rcases i2 with e | e
  · exact e
  · have : (4294967295 + 1) % UINT_MOD = 0 := by decide
    rw [this] at e
    omega

/-- Claim C18. For every card of the data model and `v` in {0, 1}, on a drawn-table of 52
entries, `setDrawn(c, v)` returns, `isDrawn(c)` called right after it returns `v`, and a second
`setDrawn(c, v)` leaves the table as the first one left it. -/
theorem setDrawn_then_isDrawn (t : List Nat) (c : Card) (v : Int) (ht : t.length = DECKSIZE)
    (hc : ValidCard c) (hv : v = 0 ∨ v = 1) :
    ∃ t', setDrawn t c v = .ok t' ∧ isDrawn t' c = .ok v ∧ setDrawn t' c v = .ok t' := by
  refine ⟨t.set (offNat c) (intToUnsigned v), setDrawn_eq t c v hc ht, ?_, ?_⟩
  · rw [isDrawn_setDrawn_same t c v hc ht, unsignedToInt_intToUnsigned_bit v hv]
  · rw [setDrawn_eq _ c v hc (by simp [ht]), set_set_same]

/-- Witness for C18: marking the king of diamonds in a table with no card marked. -/
theorem setDrawn_then_isDrawn_witness :
    (List.replicate DECKSIZE 0).length = DECKSIZE ∧ ValidCard ⟨13, 4⟩ ∧
    ∃ t', setDrawn (List.replicate DECKSIZE 0) ⟨13, 4⟩ 1 = .ok t' ∧
      isDrawn t' ⟨13, 4⟩ = .ok 1 ∧ setDrawn t' ⟨13, 4⟩ 1 = .ok t' :=
  ⟨by decide, by decide,
    setDrawn_then_isDrawn (List.replicate DECKSIZE 0) ⟨13, 4⟩ 1 (by decide) (by decide)
      (Or.inr rfl)⟩

/-- Claim C19. In every run of `simulatePokerOdds` from process start, whenever the loop
evaluates its test after `k` hands, `totalHandsDealt` is `k`, `k` is below 2^32 - 1, and each
of the seven counters is at most `k`; and the next cycle, if there is one, adds 0 or 1 to each
counter as natural numbers, without wrap-around, so no counter ever decreases. -/
theorem counters_grow_by_bits (draws : Nat) (rands : List Nat) (k : Nat) (s : Sim)
    (h : Visits initializeDeck draws (Sim.processStart rands) k s) :
    s.totalHandsDealt = k ∧ k + 1 < UINT_MOD ∧ s.tally.AllLe k ∧
    ∀ s1, (loopTest draws s).1 = true → simBody initializeDeck (loopTest draws s).2 = .ok s1 →
      s.tally.AddsBit s1.tally ∧ s1.tally.AllLe (k + 1) := by
  obtain ⟨i1, _, i3, i4, i5⟩ := visits_inv draws rands k s h
  obtain ⟨_, hk⟩ := visits_le draws rands k s h
  exact ⟨i1, hk, i5, fun s1 _ hb => simBody_tally (loopTest draws s).2 s1 k i3 i4 i5 hk hb⟩

/-- Witness for C19: with `draws = 2` on `twoHandRands`, after the first hand (a pair of aces)
`onePair` is 1; the second cycle deals three aces and adds 1 to `threeOfAKind` only. -/
theorem counters_grow_by_bits_witness :
    Visits initializeDeck 2 (Sim.processStart twoHandRands) 1
      (afterPairOfAces [0, 13, 26, 5, 6]) ∧
    ((afterPairOfAces [0, 13, 26, 5, 6]).totalHandsDealt = 1 ∧ 1 + 1 < UINT_MOD ∧
      (afterPairOfAces [0, 13, 26, 5, 6]).tally.AllLe 1 ∧
      ∀ s1, (loopTest 2 (afterPairOfAces [0, 13, 26, 5, 6])).1 = true →
        simBody initializeDeck (loopTest 2 (afterPairOfAces [0, 13, 26, 5, 6])).2 = .ok s1 →
        (afterPairOfAces [0, 13, 26, 5, 6]).tally.AddsBit s1.tally ∧
          s1.tally.AllLe (1 + 1)) ∧
    simBody initializeDeck (loopTest 2 (afterPairOfAces [0, 13, 26, 5, 6])).2
      = .ok afterThreeAces :=
  ⟨visits_twoHandRands,
    counters_grow_by_bits 2 twoHandRands 1 (afterPairOfAces [0, 13, 26, 5, 6])
      visits_twoHandRands,
    by decide⟩

/-- Claim C20. For cards `c` and `d` of the data model the drawn-table offset
`(rank-1)*4 + (suit-1)` lies in [0,52) and two cards with the same offset are the same card;
on a drawn-table of 52 entries `setDrawn(c, v)` and `isDrawn(d)` return, so no access falls
outside the table, and when `d` differs from `c`, `isDrawn(d)` returns after `setDrawn(c, v)`
what it returned before. -/
theorem setDrawn_frame (c d : Card) (hc : ValidCard c) (hd : ValidCard d) :
    0 ≤ drawnOffset c ∧ drawnOffset c < 52 ∧ (drawnOffset c = drawnOffset d → c = d) ∧
    ∀ (t : List Nat) (v : Int), t.length = DECKSIZE →
      ∃ t' x, setDrawn t c v = .ok t' ∧ isDrawn t d = .ok x ∧
        (c ≠ d → isDrawn t' d = .ok x) := by
  have hoc := drawnOffset_cast c hc
  have hod := drawnOffset_cast d hd
  have hlt := offNat_lt c hc
  refine ⟨by rw [hoc]; exact Int.ofNat_nonneg _, ?_, ?_, ?_⟩
  · rw [hoc]; unfold DECKSIZE at hlt; omega
  · intro e
    rw [hoc, hod] at e
    exact offNat_inj c d hc hd (Int.ofNat.inj e)
  · intro t v ht
    refine ⟨t.set (offNat c) (intToUnsigned v), _, setDrawn_eq t c v hc ht,
      isDrawn_eq t d hd ht, ?_⟩
    intro hne
    rw [isDrawn_setDrawn_other t c d v hc hd hne ht, isDrawn_eq t d hd ht]

/-- Witness for C20: marking the ace of clubs leaves the flag of the ace of hearts, the next
entry of the table, as it was. -/
theorem setDrawn_frame_witness :
    ValidCard ⟨1, 1⟩ ∧ ValidCard ⟨1, 2⟩ ∧
    (0 ≤ drawnOffset ⟨1, 1⟩ ∧ drawnOffset ⟨1, 1⟩ < 52 ∧
      (drawnOffset ⟨1, 1⟩ = drawnOffset ⟨1, 2⟩ → (⟨1, 1⟩ : Card) = ⟨1, 2⟩) ∧
      ∀ (t : List Nat) (v : Int), t.length = DECKSIZE →
        ∃ t' x, setDrawn t ⟨1, 1⟩ v = .ok t' ∧ isDrawn t ⟨1, 2⟩ = .ok x ∧
          ((⟨1, 1⟩ : Card) ≠ ⟨1, 2⟩ → isDrawn t' ⟨1, 2⟩ = .ok x)) :=
  ⟨by decide, by decide, setDrawn_frame ⟨1, 1⟩ ⟨1, 2⟩ (by decide) (by decide)⟩

end HandOdds
